import Mathlib

/-!
# Particle systems of `particle_system.cpp`

A shallow embedding of the animation atlas, the simple (generation batched)
emitter and the point emitter, followed by the properties proved about them.

Conventions of the embedding:

* C++ `int` values are modelled by `Int`; `/` and `%` on them are the
  truncating `Int.tdiv` and `Int.tmod`.  Signed overflow is undefined
  behaviour in C++ and lies outside the model.  Conversions to narrower or
  unsigned types (`GLbyte`, `GLshort`, `unsigned char`, `size_t`) are written
  out with an explicit modulus.
* `GLfloat` values are modelled by exact rationals.
* `rand()` is modelled by a stream `Nat → Nat` of the successive outcomes seen
  by one call, read through a cursor.
* An operation returns `none` where the C++ code aborts on a failed assertion
  or leaves defined behaviour (erasing or walking past the end of a
  container, dividing by zero).
-/

namespace particle_system

/-! ## Animation atlas -/

/-- Rectangle of the engine, as the atlas constructor uses it: a corner and a
size, with `x2 = x + w` and `y2 = y + h`. -/
structure rect where
  x : Int
  y : Int
  w : Int
  h : Int
deriving DecidableEq

def rect.x2 (r : rect) : Int := r.x + r.w

def rect.y2 (r : rect) : Int := r.y + r.h

/-- Texture coordinates of one frame (`particle_animation::frame_area`). -/
structure frame_area where
  u1 : ℚ
  v1 : ℚ
  u2 : ℚ
  v2 : ℚ
deriving DecidableEq

/-- The attributes the atlas constructor reads from its configuration node,
after the defaults of `wml::get_int` have been applied: the base area, the
size of the loaded texture, `frames`, `frames_per_row`, `pad`, `duration`. -/
structure animation_node where
  base_area : rect
  texture_width : Int
  texture_height : Int
  frames : Int
  frames_per_row : Int
  pad : Int
  duration : Int
deriving DecidableEq

structure particle_animation where
  frames_ : List frame_area
  duration_ : Int
  width_ : Int
  height_ : Int
deriving DecidableEq

/-- Source rectangle of the frame at grid position `(row, col)`. -/
def frame_rect (base : rect) (pad row col : Int) : rect :=
  { x := base.x + col * (base.w + pad)
    y := base.y + row * (base.h + pad)
    w := base.w
    h := base.h }

def frame_of_rect (tw th : Int) (area : rect) : frame_area :=
  { u1 := (area.x : ℚ) / (tw : ℚ)
    u2 := (area.x2 : ℚ) / (tw : ℚ)
    v1 := (area.y : ℚ) / (th : ℚ)
    v2 := (area.y2 : ℚ) / (th : ℚ) }

/-- The constructor loop `for(int n = 0; n != nframes; ++n)`: `k` is the number
of iterations still to run, `row` and `col` the loop state. -/
def build_rects (base : rect) (pad nframes_per_row : Int) : Nat → Int → Int → List rect
  | 0, _, _ => []
  | k + 1, row, col =>
    frame_rect base pad row col ::
      (if col + 1 = nframes_per_row then build_rects base pad nframes_per_row k (row + 1) 0
       else build_rects base pad nframes_per_row k row (col + 1))

/-- The frame count the constructor uses: `frames`, raised to 1 when below. -/
def clamp_nframes (frames : Int) : Nat := if frames < 1 then 1 else frames.toNat

/-- The constructor `particle_animation::particle_animation`. -/
def particle_animation.create (node : animation_node) : particle_animation :=
  { frames_ := (build_rects node.base_area node.pad node.frames_per_row
        (clamp_nframes node.frames) 0 0).map
        (frame_of_rect node.texture_width node.texture_height)
    duration_ := node.duration
    width_ := node.base_area.w * 2
    height_ := node.base_area.h * 2 }

/-- The index `get_frame` computes: `t/duration_`, set to 0 when negative and to
the last position when past the end.  `none` when `duration_` is 0. -/
def particle_animation.frame_index (a : particle_animation) (t : Int) : Option Int :=
  if a.duration_ = 0 then none
  else
    let index := Int.tdiv t a.duration_
    if index < 0 then some 0
    else if index ≥ (a.frames_.length : Int) then some ((a.frames_.length : Int) - 1)
    else some index

/-- The method `particle_animation::get_frame`; `none` when the computed index
is not a position of `frames_` (or `duration_` is 0). -/
def particle_animation.get_frame (a : particle_animation) (t : Int) : Option frame_area :=
  match a.frame_index t with
  | none => none
  | some index => if index < 0 then none else a.frames_[index.toNat]?

/-! ## Simple emitter -/

structure simple_particle_system_info where
  spawn_rate_ : Int
  spawn_rate_random_ : Int
  system_time_to_live_ : Int
  time_to_live_ : Int
  min_x_ : Int
  max_x_ : Int
  min_y_ : Int
  max_y_ : Int
  velocity_x_ : Int
  velocity_y_ : Int
  velocity_x_rand_ : Int
  velocity_y_rand_ : Int
  velocity_magnitude_ : Int
  velocity_magnitude_rand_ : Int
  velocity_rotate_ : Int
  velocity_rotate_rand_ : Int
  accel_x_ : Int
  accel_y_ : Int
  delta_r_ : Int
  delta_g_ : Int
  delta_b_ : Int
  delta_a_ : Int
deriving DecidableEq

structure simple_particle_system_factory where
  frames_ : List particle_animation
  info_ : simple_particle_system_info
deriving DecidableEq

/-- A particle of the simple emitter (`simple_particle_system::particle`);
`anim` is the position in the factory's `frames_` the pointer refers to. -/
structure particle where
  pos0 : ℚ
  pos1 : ℚ
  anim : Nat
  velocity0 : ℚ
  velocity1 : ℚ
deriving DecidableEq

structure generation where
  members : Int
  created_at : Int
deriving DecidableEq

structure simple_particle_system where
  info_ : simple_particle_system_info
  cycle_ : Int
  particles_ : List particle
  generations_ : List generation
  spawn_buildup_ : Int
deriving DecidableEq

/-- What one call of `process` sees of its surroundings: the position of the
entity, the outcomes of the successive `rand()` calls, and the `sin` and `cos`
of the maths library. -/
structure environment where
  x : Int
  y : Int
  rand : Nat → Nat
  sin : ℚ → ℚ
  cos : ℚ → ℚ

/-- The constructor `simple_particle_system::simple_particle_system`. -/
def simple_particle_system.create (factory : simple_particle_system_factory) :
    simple_particle_system :=
  { info_ := factory.info_
    cycle_ := 0
    particles_ := []
    generations_ := []
    spawn_buildup_ := 0 }

/-- The method `simple_particle_system::set_value`. -/
def simple_particle_system.set_value (s : simple_particle_system) (key : String) (value : Int) :
    simple_particle_system :=
  if key = "spawn_rate" then { s with info_ := { s.info_ with spawn_rate_ := value } }
  else if key = "min_x" then { s with info_ := { s.info_ with min_x_ := value } }
  else if key = "max_x" then { s with info_ := { s.info_ with max_x_ := value } }
  else if key = "min_y" then { s with info_ := { s.info_ with min_y_ := value } }
  else if key = "max_y" then { s with info_ := { s.info_ with max_y_ := value } }
  else if key = "velocity_x" then { s with info_ := { s.info_ with velocity_x_ := value } }
  else if key = "velocity_y" then { s with info_ := { s.info_ with velocity_y_ := value } }
  else s

/-- The expiry loop at the head of `process`: while the front generation has
age exactly `ttl`, erase its leading slice of the particles and pop it. -/
def expire (cycle ttl : Int) : List generation → List particle →
    Option (List generation × List particle)
  | [], ps => some ([], ps)
  | g :: gs, ps =>
    if cycle - g.created_at = ttl then
      if 0 ≤ g.members ∧ g.members.toNat ≤ ps.length then
        expire cycle ttl gs (ps.drop g.members.toNat)
      else none
    else some (g :: gs, ps)

/-- One integration step of a particle: position by velocity, velocity by the
acceleration in thousandths. -/
def move (info : simple_particle_system_info) (p : particle) : particle :=
  { p with
    pos0 := p.pos0 + p.velocity0
    pos1 := p.pos1 + p.velocity1
    velocity0 := p.velocity0 + (info.accel_x_ : ℚ) / 1000
    velocity1 := p.velocity1 + (info.accel_y_ : ℚ) / 1000 }

/-- The integration loop of `process`: the iterator walks the particles
generation by generation, `members` steps for each. -/
def integrate (info : simple_particle_system_info) : List generation → List particle →
    Option (List particle)
  | [], ps => some ps
  | g :: gs, ps =>
    if 0 ≤ g.members ∧ g.members.toNat ≤ ps.length then
      match integrate info gs (ps.drop g.members.toNat) with
      | some rest => some ((ps.take g.members.toNat).map (move info) ++ rest)
      | none => none
    else none

/-- The spawn count of this tick before the carry is split off:
`spawn_rate_`, plus `rand()%spawn_rate_random_` when that is positive, plus the
carried `spawn_buildup_`. -/
def spawn_sum (info : simple_particle_system_info) (buildup : Int) (e : environment) : Int :=
  (if info.spawn_rate_random_ > 0 then
      info.spawn_rate_ + Int.tmod (e.rand 0 : Int) info.spawn_rate_random_
    else info.spawn_rate_) + buildup

/-- The cursor into the `rand()` outcomes after the spawn count is drawn. -/
def spawn_cursor (info : simple_particle_system_info) : Nat :=
  if info.spawn_rate_random_ > 0 then 1 else 0

/-- The body of the spawn loop up to the assertion on the animations: the
velocity of the new particle and the cursor after its draws. -/
def spawn_velocity (info : simple_particle_system_info) (e : environment) (i : Nat) :
    (ℚ × ℚ) × Nat :=
  let v0 : ℚ := (info.velocity_x_ : ℚ) / 1000
  let v1 : ℚ := (info.velocity_y_ : ℚ) / 1000
  let (v0, i) := if info.velocity_x_rand_ > 0 then
      (v0 + ((Int.tmod (e.rand i : Int) info.velocity_x_rand_ : Int) : ℚ) / 1000, i + 1)
    else (v0, i)
  let (v1, i) := if info.velocity_y_rand_ > 0 then
      (v1 + ((Int.tmod (e.rand i : Int) info.velocity_y_rand_ : Int) : ℚ) / 1000, i + 1)
    else (v1, i)
  let (velocity_magnitude, i) := if info.velocity_magnitude_rand_ > 0 then
      (info.velocity_magnitude_ + Int.tmod (e.rand i : Int) info.velocity_magnitude_rand_, i + 1)
    else (info.velocity_magnitude_, i)
  if velocity_magnitude ≠ 0 then
    let (rotate_velocity, i) := if info.velocity_rotate_rand_ ≠ 0 then
        (info.velocity_rotate_ + Int.tmod (e.rand i : Int) info.velocity_rotate_rand_, i + 1)
      else (info.velocity_rotate_, i)
    let rotate_radians : ℚ := ((rotate_velocity : ℚ) / 360) * (314 / 100) * 2
    let magnitude : ℚ := (velocity_magnitude : ℚ) / 1000
    ((v0 + e.sin rotate_radians * magnitude, v1 + e.cos rotate_radians * magnitude), i)
  else ((v0, v1), i)

/-- One pass of the spawn loop body: the new particle and the cursor after its
draws; `none` when `ASSERT_GT(factory_.frames_.size(), 0)` fails. -/
def spawn_particle (factory : simple_particle_system_factory)
    (info : simple_particle_system_info) (e : environment) (i : Nat) : Option (particle × Nat) :=
  let (v, i) := spawn_velocity info e i
  if factory.frames_.length > 0 then
    let anim := e.rand i % factory.frames_.length
    let i := i + 1
    let p0 : ℚ := ((e.x + info.min_x_ : Int) : ℚ)
    let p1 : ℚ := ((e.y + info.min_y_ : Int) : ℚ)
    let diff_x := info.max_x_ - info.min_x_
    let (p0, i) := if diff_x > 0 then
        (p0 + ((Int.tmod (e.rand i : Int) (diff_x * 1000) : Int) : ℚ) / 1000, i + 1)
      else (p0, i)
    let diff_y := info.max_y_ - info.min_y_
    let (p1, i) := if diff_y > 0 then
        (p1 + ((Int.tmod (e.rand i : Int) (diff_y * 1000) : Int) : ℚ) / 1000, i + 1)
      else (p1, i)
    some ({ pos0 := p0, pos1 := p1, anim := anim, velocity0 := v.1, velocity1 := v.2 }, i)
  else none

/-- The spawn loop `while(nspawn-- > 0)`, `n` passes still to run. -/
def spawn_loop (factory : simple_particle_system_factory) (info : simple_particle_system_info)
    (e : environment) : Nat → Nat → List particle → Option (List particle)
  | 0, _, ps => some ps
  | n + 1, i, ps =>
    match spawn_particle factory info e i with
    | some (p, j) => spawn_loop factory info e n j (ps ++ [p])
    | none => none

/-- The configuration `process` works with: the lifetime counter decremented. -/
def ticked_info (s : simple_particle_system) : simple_particle_system_info :=
  { s.info_ with system_time_to_live_ := s.info_.system_time_to_live_ - 1 }

/-- The method `simple_particle_system::process`. -/
def simple_particle_system.process (factory : simple_particle_system_factory)
    (s : simple_particle_system) (e : environment) : Option simple_particle_system :=
  let info := ticked_info s
  let cycle := s.cycle_ + 1
  match expire cycle info.time_to_live_ s.generations_ s.particles_ with
  | none => none
  | some (gens, ps) =>
    match integrate info gens ps with
    | none => none
    | some ps =>
      let sum := spawn_sum info s.spawn_buildup_ e
      let nspawn := Int.tdiv sum 1000
      let new_gen : generation := { members := nspawn, created_at := cycle }
      match spawn_loop factory info e nspawn.toNat (spawn_cursor info) ps with
      | none => none
      | some ps =>
        some { info_ := info
               cycle_ := cycle
               particles_ := ps
               generations_ := gens ++ [new_gen]
               spawn_buildup_ := Int.tmod sum 1000 }

/-- A call made on a simple emitter by its owner. -/
inductive call where
  | process (e : environment)
  | set_value (key : String) (value : Int)

/-- The emitter after a sequence of calls; `none` once a `process` call has
aborted. -/
def simple_particle_system.run (factory : simple_particle_system_factory) :
    simple_particle_system → List call → Option simple_particle_system
  | s, [] => some s
  | s, call.process e :: cs =>
    match s.process factory e with
    | some s' => simple_particle_system.run factory s' cs
    | none => none
  | s, call.set_value key value :: cs =>
    simple_particle_system.run factory (s.set_value key value) cs

/-- The sum of `members` over a generation queue. -/
def total_members (gs : List generation) : Int := (gs.map generation.members).sum

/-- A call that does not set a negative spawn rate. -/
def call.rate_nonneg : call → Prop
  | call.process _ => True
  | call.set_value key value => key = "spawn_rate" → 0 ≤ value

/-- A configuration with every field 0; the examples below override fields. -/
def zero_info : simple_particle_system_info :=
  { spawn_rate_ := 0, spawn_rate_random_ := 0, system_time_to_live_ := 0, time_to_live_ := 0,
    min_x_ := 0, max_x_ := 0, min_y_ := 0, max_y_ := 0, velocity_x_ := 0, velocity_y_ := 0,
    velocity_x_rand_ := 0, velocity_y_rand_ := 0, velocity_magnitude_ := 0,
    velocity_magnitude_rand_ := 0, velocity_rotate_ := 0, velocity_rotate_rand_ := 0,
    accel_x_ := 0, accel_y_ := 0, delta_r_ := 0, delta_g_ := 0, delta_b_ := 0, delta_a_ := 0 }

/-- An entity at the origin, every `rand()` outcome 0, `sin` and `cos` replaced
by constants. -/
def still_environment : environment :=
  { x := 0, y := 0, rand := fun _ => 0, sin := fun _ => 0, cos := fun _ => 1 }

/-- An atlas of one frame shown for one tick. -/
def unit_animation : particle_animation :=
  { frames_ := [{ u1 := 0, v1 := 0, u2 := 1, v2 := 1 }], duration_ := 1, width_ := 2, height_ := 2 }

/-- An emitter state whose books balance: the counts of the generations are
non-negative and add up to the number of particles, and neither the spawn rate
nor the carry is negative. -/
structure accounted (s : simple_particle_system) : Prop where
  members_nonneg : ∀ g ∈ s.generations_, 0 ≤ g.members
  total : total_members s.generations_ = s.particles_.length
  rate_nonneg : 0 ≤ s.info_.spawn_rate_
  buildup_nonneg : 0 ≤ s.spawn_buildup_

/-- A factory whose spawn rate is -1000 and which has no animation. -/
def negative_rate_factory : simple_particle_system_factory :=
  { frames_ := [], info_ := { zero_info with spawn_rate_ := -1000, time_to_live_ := 50 } }

/-- A factory with one animation, a rate of one and a half particles a tick and
a lifetime of two ticks. -/
def sample_factory : simple_particle_system_factory :=
  { frames_ := [unit_animation], info_ := { zero_info with spawn_rate_ := 1500, time_to_live_ := 2 } }


/-- The `n` consecutive ticks starting at `lo`. -/
def ticks_from (lo : Int) : Nat → List Int
  | 0 => []
  | n + 1 => lo :: ticks_from (lo + 1) n

/-- The ticks `lo .. hi` in increasing order (empty when `hi < lo`). -/
def tick_range (lo hi : Int) : List Int := ticks_from lo (hi + 1 - lo).toNat

/-- The number of `process` calls in a sequence of calls. -/
def process_count : List call → Nat
  | [] => 0
  | call.process _ :: cs => process_count cs + 1
  | call.set_value _ _ :: cs => process_count cs

/-- The queue of an emitter of lifetime `L` holds the last `L` ticks up to the
current one. -/
def queue_ticks (L : Int) (s : simple_particle_system) : Prop :=
  s.info_.time_to_live_ = L ∧ 0 ≤ s.cycle_ ∧
    s.generations_.map generation.created_at =
      tick_range (max 1 (s.cycle_ - L + 1)) s.cycle_

/-- Three `process` calls with a `set_value` of the spawn rate in between. -/
def sample_calls : List call :=
  [call.process still_environment, call.process still_environment,
    call.set_value "spawn_rate" 700, call.process still_environment]

/-- The number of particles a `process` call appends to the buffer: the length
of the buffer after the call less the length left by the expiry loop. -/
def simple_particle_system.spawned (factory : simple_particle_system_factory)
    (s : simple_particle_system) (e : environment) : Option Nat :=
  match expire (s.cycle_ + 1) (ticked_info s).time_to_live_ s.generations_ s.particles_,
      s.process factory e with
  | some (_, ps), some s' => some (s'.particles_.length - ps.length)
  | _, _ => none

/-- The number of particles appended by successive `process` calls, one for
each environment of the list. -/
def simple_particle_system.total_spawned (factory : simple_particle_system_factory) :
    simple_particle_system → List environment → Option Nat
  | _, [] => some 0
  | s, e :: es =>
    match s.spawned factory e, s.process factory e with
    | some k, some s' =>
      match simple_particle_system.total_spawned factory s' es with
      | some t => some (k + t)
      | none => none
    | _, _ => none

/-- An emitter spawning exactly one particle a tick: rate 1000, no jitter, no
carry, and one member in every generation. -/
def unit_rate (s : simple_particle_system) : Prop :=
  s.info_.spawn_rate_ = 1000 ∧ s.info_.spawn_rate_random_ = 0 ∧ s.spawn_buildup_ = 0 ∧
    ∀ g ∈ s.generations_, g.members = 1

/-- A factory with one animation, rate 1000, no jitter, lifetime 50 and no
velocity or acceleration. -/
def steady_factory : simple_particle_system_factory :=
  { frames_ := [unit_animation],
    info_ := { zero_info with spawn_rate_ := 1000, time_to_live_ := 50,
                              system_time_to_live_ := -1 } }

/-- An atlas node of three 16 x 16 frames in rows of two on a 64 x 64 texture,
each shown for 4 ticks. -/
def sample_node : animation_node :=
  { base_area := { x := 0, y := 0, w := 16, h := 16 }
    texture_width := 64
    texture_height := 64
    frames := 3
    frames_per_row := 2
    pad := 0
    duration := 4 }

/-! ## Draw batch of the simple emitter -/

/-- Conversion of an `int` to `GLbyte` (a signed 8-bit value). -/
def to_GLbyte (x : Int) : Int := (x + 128) % 256 - 128

/-- The value of a stored `GLbyte` when the array is read as
`GL_UNSIGNED_BYTE`, as `glColorPointer` is told to. -/
def as_unsigned_byte (b : Int) : Int := b % 256

/-- The texture coordinate adjustment of the texture module
(`graphics::texture::get_coord_x` and `get_coord_y`). -/
structure texture_coords where
  get_coord_x : ℚ → ℚ
  get_coord_y : ℚ → ℚ

/-- The shared staging arrays: `global_vertex_array`, `global_texcoords_array`
and `global_vertex_color_array` (a vector of `GLbyte`). -/
structure draw_arrays where
  varray : List ℚ
  tcarray : List ℚ
  carray : List Int
deriving DecidableEq

/-- The alpha computed for a generation of the given age. -/
def alpha_level (delta_a age : Int) : Int := max (256 - delta_a * age) 0

/-- What the loop body of `draw` pushes for one particle. -/
def draw_particle (tex : texture_coords) (factory : simple_particle_system_factory)
    (info : simple_particle_system_info) (age : Int) (p : particle) : Option draw_arrays :=
  match factory.frames_[p.anim]? with
  | none => none
  | some anim =>
    match anim.get_frame age with
    | none => none
    | some f =>
      some
        { carray :=
            if info.delta_a_ ≠ 0 then
              (List.replicate 6
                [to_GLbyte 255, to_GLbyte 255, to_GLbyte 255,
                  to_GLbyte (alpha_level info.delta_a_ age)]).flatten
            else []
          tcarray :=
            [tex.get_coord_x f.u1, tex.get_coord_y f.v1,
             tex.get_coord_x f.u1, tex.get_coord_y f.v1,
             tex.get_coord_x f.u2, tex.get_coord_y f.v1,
             tex.get_coord_x f.u1, tex.get_coord_y f.v2,
             tex.get_coord_x f.u2, tex.get_coord_y f.v2,
             tex.get_coord_x f.u2, tex.get_coord_y f.v2]
          varray :=
            [p.pos0, p.pos1,
             p.pos0, p.pos1,
             p.pos0 + (anim.width_ : ℚ), p.pos1,
             p.pos0, p.pos1 + (anim.height_ : ℚ),
             p.pos0 + (anim.width_ : ℚ), p.pos1 + (anim.height_ : ℚ),
             p.pos0 + (anim.width_ : ℚ), p.pos1 + (anim.height_ : ℚ)] }

def draw_arrays.empty : draw_arrays := { varray := [], tcarray := [], carray := [] }

def draw_arrays.append (a b : draw_arrays) : draw_arrays :=
  { varray := a.varray ++ b.varray
    tcarray := a.tcarray ++ b.tcarray
    carray := a.carray ++ b.carray }

/-- The inner loop of `draw` over the particles of one generation. -/
def draw_members (tex : texture_coords) (factory : simple_particle_system_factory)
    (info : simple_particle_system_info) (age : Int) : List particle → Option draw_arrays
  | [] => some draw_arrays.empty
  | p :: ps =>
    match draw_particle tex factory info age p, draw_members tex factory info age ps with
    | some a, some b => some (a.append b)
    | _, _ => none

/-- The outer loop of `draw`: the iterator walks the particles generation by
generation, `members` steps for each. -/
def draw_generations (tex : texture_coords) (factory : simple_particle_system_factory)
    (info : simple_particle_system_info) (cycle : Int) :
    List generation → List particle → Option draw_arrays
  | [], _ => some draw_arrays.empty
  | g :: gs, ps =>
    if 0 ≤ g.members ∧ g.members.toNat ≤ ps.length then
      match draw_members tex factory info (cycle - g.created_at) (ps.take g.members.toNat),
          draw_generations tex factory info cycle gs (ps.drop g.members.toNat) with
      | some a, some b => some (a.append b)
      | _, _ => none
    else none

/-- The method `simple_particle_system::draw`, as a function from the staging
arrays before the call to the staging arrays after it; with an empty particle
buffer it returns at once and leaves them as they were. -/
def simple_particle_system.draw (tex : texture_coords)
    (factory : simple_particle_system_factory) (s : simple_particle_system)
    (before : draw_arrays) : Option draw_arrays :=
  if s.particles_ = [] then some before
  else draw_generations tex factory s.info_ s.cycle_ s.generations_ s.particles_

/-- Texture coordinates passed through unchanged. -/
def plain_coords : texture_coords := { get_coord_x := fun u => u, get_coord_y := fun v => v }

/-- A factory with one animation, one particle a tick, and an alpha delta of 1. -/
def fade_factory : simple_particle_system_factory :=
  { frames_ := [unit_animation],
    info_ := { zero_info with spawn_rate_ := 1000, time_to_live_ := 50, delta_a_ := 1 } }

/-! ## Point emitter -/

/-- Conversion of an `int` to `GLshort` (a signed 16-bit value). -/
def to_GLshort (x : Int) : Int := (x + 32768) % 65536 - 32768

/-- Conversion of an `int` to `unsigned char`. -/
def to_uchar (x : Int) : Int := x % 256

/-- Conversion of an `int` to `char` (signed, 8 bits). -/
def to_char (x : Int) : Int := (x + 128) % 256 - 128

/-- Conversion of a `size_t` value to `int` (32 bits, two's complement). -/
def to_int32 (x : Int) : Int := (x + 2147483648) % 4294967296 - 2147483648

/-- Conversion of an `int` to `size_t` (64 bits). -/
def to_size_t (x : Int) : Int := x % 18446744073709551616

/-- The bytes of a 32-bit value in reverse order (`std::reverse(c, c+4)`). -/
def reverse_bytes (v : Nat) : Nat :=
  (v % 256) * 16777216 + (v / 256 % 256) * 65536 + (v / 65536 % 256) * 256 +
    (v / 16777216 % 256)

/-- An array of four channel values, red, green, blue and alpha. -/
structure rgba4 where
  c0 : Int
  c1 : Int
  c2 : Int
  c3 : Int
deriving DecidableEq

/-- The attributes the constructor of `point_particle_info` reads from its
configuration node, after the defaults of `wml::get_int`; `colors` holds the
values `strtoul` returns for the entries of the `colors` attribute. -/
structure point_node where
  generation_rate_millis : Int
  pos_x : Int
  pos_y : Int
  pos_x_rand : Int
  pos_y_rand : Int
  velocity_x : Int
  velocity_y : Int
  velocity_x_rand : Int
  velocity_y_rand : Int
  time_to_live : Int
  time_to_live_rand : Int
  colors : List Nat
  rgba : rgba4
  rgba_rand : rgba4
  rgba_delta : rgba4

structure point_particle_info where
  generation_rate_millis : Int
  pos_x : Int
  pos_y : Int
  pos_x_rand : Int
  pos_y_rand : Int
  velocity_x : Int
  velocity_y : Int
  velocity_x_rand : Int
  velocity_y_rand : Int
  time_to_live : Int
  time_to_live_max : Int
  rgba : rgba4
  rgba_rand : rgba4
  rgba_delta : rgba4
  colors : List Nat
  ttl_divisor : Int

/-- The loop `while(colors.size() < 2) colors.push_back(0xFFFFFFFF)`. -/
def pad_colors : List Nat → List Nat
  | [] => [4294967295, 4294967295]
  | [c] => [c, 4294967295]
  | cs => cs

/-- The gradient table the constructor builds: every entry reduced to 32 bits
and byte-reversed, the list reversed, then padded to two entries. -/
def gradient_colors (colors : List Nat) : List Nat :=
  pad_colors ((colors.map (fun v => reverse_bytes (v % 4294967296))).reverse)

/-- The constructor `point_particle_info::point_particle_info`.  The quotient
`time_to_live_max/(colors.size()-1)` is taken in `size_t` and stored in an
`int`. -/
def point_particle_info.create (node : point_node) : point_particle_info :=
  let time_to_live_max := node.time_to_live_rand + node.time_to_live
  let colors := gradient_colors node.colors
  { generation_rate_millis := node.generation_rate_millis
    pos_x := node.pos_x * 1024
    pos_y := node.pos_y * 1024
    pos_x_rand := node.pos_x_rand * 1024
    pos_y_rand := node.pos_y_rand * 1024
    velocity_x := node.velocity_x
    velocity_y := node.velocity_y
    velocity_x_rand := node.velocity_x_rand
    velocity_y_rand := node.velocity_y_rand
    time_to_live := node.time_to_live
    time_to_live_max := time_to_live_max
    rgba := { c0 := to_uchar node.rgba.c0, c1 := to_uchar node.rgba.c1,
              c2 := to_uchar node.rgba.c2, c3 := to_uchar node.rgba.c3 }
    rgba_rand := { c0 := to_uchar node.rgba_rand.c0, c1 := to_uchar node.rgba_rand.c1,
                   c2 := to_uchar node.rgba_rand.c2, c3 := to_uchar node.rgba_rand.c3 }
    rgba_delta := { c0 := to_char node.rgba_delta.c0, c1 := to_char node.rgba_delta.c1,
                    c2 := to_char node.rgba_delta.c2, c3 := to_char node.rgba_delta.c3 }
    colors := colors
    ttl_divisor := to_int32 (to_size_t time_to_live_max / ((colors.length : Int) - 1)) }

/-- A particle of the point emitter (`point_particle_system::particle`). -/
structure point_particle where
  velocity_x : Int
  velocity_y : Int
  pos_x : Int
  pos_y : Int
  rgba : rgba4
  ttl : Int
deriving DecidableEq

structure point_particle_system where
  particle_generation_ : Int
  generation_rate_millis_ : Int
  particles_ : List point_particle
deriving DecidableEq

/-- The constructor `point_particle_system::point_particle_system`. -/
def point_particle_system.create (info : point_particle_info) : point_particle_system :=
  { particle_generation_ := 0
    generation_rate_millis_ := info.generation_rate_millis
    particles_ := [] }

/-- The predicate `point_particle_system::particle_destroyed`. -/
def particle_destroyed (p : point_particle) : Bool := decide (p.ttl ≤ 0)

/-- The position `ttl/ttl_divisor` of the gradient table, as the subscript
`info_.colors[p->ttl/info_.ttl_divisor]` uses it: `none` when the divisor is 0
or the quotient, read as a `size_t`, is not a position of `colors`. -/
def gradient_index (info : point_particle_info) (ttl : Int) : Option Nat :=
  if info.ttl_divisor = 0 then none
  else
    let q := Int.tdiv ttl info.ttl_divisor
    if 0 ≤ q ∧ q < (info.colors.length : Int) then some q.toNat else none

/-- The integration step of the point emitter for one particle. -/
def point_step (info : point_particle_info) (p : point_particle) : point_particle :=
  { p with
    pos_x := p.pos_x + p.velocity_x
    pos_y := p.pos_y + p.velocity_y
    rgba := { c0 := to_uchar (p.rgba.c0 + info.rgba_delta.c0)
              c1 := to_uchar (p.rgba.c1 + info.rgba_delta.c1)
              c2 := to_uchar (p.rgba.c2 + info.rgba_delta.c2)
              c3 := to_uchar (p.rgba.c3 + info.rgba_delta.c3) }
    ttl := p.ttl - 1 }

/-- A value plus `rand()%bound` when `bound` is not 0, with the cursor after
the draw. -/
def jitter (e : environment) (base bound : Int) (i : Nat) : Int × Nat :=
  if bound ≠ 0 then (base + Int.tmod (e.rand i : Int) bound, i + 1) else (base, i)

/-- One pass of the spawn loop body of the point emitter: the new particle and
the cursor after its draws; `none` when
`ASSERT_LT(p.ttl/info_.ttl_divisor, info_.colors.size())` fails (the comparison
is made in `size_t`) or the divisor is 0. -/
def spawn_point_particle (info : point_particle_info) (e : environment) (i : Nat) :
    Option (point_particle × Nat) :=
  match gradient_index info info.time_to_live with
  | none => none
  | some _ =>
    let ttl := jitter e info.time_to_live (info.time_to_live_max - info.time_to_live) i
    let vx := jitter e (to_GLshort info.velocity_x) info.velocity_x_rand ttl.2
    let vy := jitter e (to_GLshort info.velocity_y) info.velocity_y_rand vx.2
    let px := jitter e (e.x * 1024 + info.pos_x) info.pos_x_rand vy.2
    let py := jitter e (e.y * 1024 + info.pos_y) info.pos_y_rand px.2
    let r := jitter e info.rgba.c0 info.rgba_rand.c0 py.2
    let g := jitter e info.rgba.c1 info.rgba_rand.c1 r.2
    let b := jitter e info.rgba.c2 info.rgba_rand.c2 g.2
    let a := jitter e info.rgba.c3 info.rgba_rand.c3 b.2
    some ({ velocity_x := to_GLshort vx.1, velocity_y := to_GLshort vy.1
            pos_x := px.1, pos_y := py.1
            rgba := { c0 := to_uchar r.1, c1 := to_uchar g.1, c2 := to_uchar b.1,
                      c3 := to_uchar a.1 }
            ttl := ttl.1 }, a.2)

/-- The spawn loop `while(particle_generation_ >= 1000)`; `fuel` bounds the
number of passes, and running out of it with the guard still true gives `none`. -/
def point_spawn_loop (info : point_particle_info) (e : environment) :
    Nat → Int → Nat → List point_particle → Option (Int × List point_particle)
  | 0, pg, _, ps => if pg ≥ 1000 then none else some (pg, ps)
  | fuel + 1, pg, i, ps =>
    if pg ≥ 1000 then
      match spawn_point_particle info e i with
      | some (p, j) => point_spawn_loop info e fuel (pg - 1000) j (ps ++ [p])
      | none => none
    else some (pg, ps)

/-- The method `point_particle_system::process`. -/
def point_particle_system.process (info : point_particle_info) (s : point_particle_system)
    (e : environment) : Option point_particle_system :=
  let pg := s.particle_generation_ + s.generation_rate_millis_
  let ps := s.particles_.filter (fun p => !particle_destroyed p)
  let ps := ps.map (point_step info)
  match point_spawn_loop info e pg.toNat pg 0 ps with
  | some (pg, ps) =>
    some { particle_generation_ := pg
           generation_rate_millis_ := s.generation_rate_millis_
           particles_ := ps }
  | none => none

/-- The emitter after successive `process` calls, one for each environment. -/
def point_particle_system.run (info : point_particle_info) :
    point_particle_system → List environment → Option point_particle_system
  | s, [] => some s
  | s, e :: es =>
    match s.process info e with
    | some s' => point_particle_system.run info s' es
    | none => none

/-- A point emitter node with every attribute 0 and no colour. -/
def zero_point_node : point_node :=
  { generation_rate_millis := 0, pos_x := 0, pos_y := 0, pos_x_rand := 0, pos_y_rand := 0,
    velocity_x := 0, velocity_y := 0, velocity_x_rand := 0, velocity_y_rand := 0,
    time_to_live := 0, time_to_live_rand := 0, colors := [],
    rgba := { c0 := 0, c1 := 0, c2 := 0, c3 := 255 },
    rgba_rand := { c0 := 0, c1 := 0, c2 := 0, c3 := 0 },
    rgba_delta := { c0 := 0, c1 := 0, c2 := 0, c3 := 0 } }

/-- A node with three colours and a lifetime of 3 ticks, one particle a tick. -/
def three_colour_node : point_node :=
  { zero_point_node with
    generation_rate_millis := 1000, time_to_live := 3,
    colors := [0xFF0000FF, 0x00FF00FF, 0x0000FFFF] }

/-- A node with two colours and a lifetime of 10 ticks, one particle a tick. -/
def two_colour_node : point_node :=
  { zero_point_node with
    generation_rate_millis := 1000, time_to_live := 10,
    colors := [0xFF0000FF, 0x00FF00FF] }

/-- A node with five colours, a base lifetime of 2 and up to 4 extra ticks, one
particle a tick. -/
def jitter_node : point_node :=
  { zero_point_node with
    generation_rate_millis := 1000, time_to_live := 2, time_to_live_rand := 5,
    colors := [0xFF0000FF, 0xFFFF00FF, 0x00FF00FF, 0x00FFFFFF, 0x0000FFFF] }

/-- An entity at the origin and every `rand()` outcome 4. -/
def four_environment : environment :=
  { x := 0, y := 0, rand := fun _ => 4, sin := fun _ => 0, cos := fun _ => 1 }

/-- A node without colours and a lifetime of one tick, one particle a tick. -/
def short_lived_node : point_node :=
  { zero_point_node with generation_rate_millis := 1000, time_to_live := 1 }

/-- A point emitter holding one particle with one tick left to live. -/
def last_tick_system : point_particle_system :=
  { particle_generation_ := 0
    generation_rate_millis_ := 1000
    particles_ := [{ velocity_x := 0, velocity_y := 0, pos_x := 0, pos_y := 0,
                     rgba := { c0 := 0, c1 := 0, c2 := 0, c3 := 255 }, ttl := 1 }] }

/-! ## Termination and the property channel of the simple emitter -/

/-- The method `simple_particle_system::is_destroyed`:
`system_time_to_live_ == 0 || spawn_rate_ == 0 && particles_.empty()`. -/
def simple_particle_system.is_destroyed (s : simple_particle_system) : Bool :=
  decide (s.info_.system_time_to_live_ = 0) ||
    (decide (s.info_.spawn_rate_ = 0) && s.particles_.isEmpty)

/-- The method `simple_particle_system::get_value`; `none` stands for the empty
`variant()`. -/
def simple_particle_system.get_value (s : simple_particle_system) (key : String) : Option Int :=
  if key = "spawn_rate" then some s.info_.spawn_rate_ else none

/-! ## Draw batch and property channel of the point emitter -/

/-- The static staging vectors of `point_particle_system::draw`: `vertex`
(of `GLshort`) and `colors` (of `unsigned int`). -/
structure point_arrays where
  vertex : List Int
  colors : List Nat
deriving DecidableEq

/-- The colour `info_.colors[p->ttl/info_.ttl_divisor]`; `none` when the
subscript is not a position of the table. -/
def gradient_color (info : point_particle_info) (ttl : Int) : Option Nat :=
  match gradient_index info ttl with
  | none => none
  | some i => info.colors[i]?

/-- The loop of `point_particle_system::draw`: for every particle two
`GLshort` coordinates and one colour. -/
def point_draw_loop (info : point_particle_info) : List point_particle → Option point_arrays
  | [] => some { vertex := [], colors := [] }
  | p :: ps =>
    match gradient_color info p.ttl, point_draw_loop info ps with
    | some c, some rest =>
      some { vertex := to_GLshort (Int.tdiv p.pos_x 1024) ::
                       to_GLshort (Int.tdiv p.pos_y 1024) :: rest.vertex
             colors := c :: rest.colors }
    | _, _ => none

/-- The method `point_particle_system::draw`, as a function from the staging
vectors before the call to the staging vectors after it.  With an empty
particle buffer it returns at once and leaves them as they were; otherwise
they are resized to the number of particles and every entry is written. -/
def point_particle_system.draw (info : point_particle_info) (s : point_particle_system)
    (before : point_arrays) : Option point_arrays :=
  if s.particles_ = [] then some before
  else point_draw_loop info s.particles_

/-- The count passed to `glDrawArrays(GL_POINTS, 0, particles_.size())`; `none`
when the call is not reached because the particle buffer is empty. -/
def point_particle_system.drawn_points (s : point_particle_system) : Option Nat :=
  if s.particles_ = [] then none else some s.particles_.length

/-- The method `point_particle_system::set_value`. -/
def point_particle_system.set_value (s : point_particle_system) (key : String) (value : Int) :
    point_particle_system :=
  if key = "generation_rate" then { s with generation_rate_millis_ := value } else s

/-- The method `point_particle_system::get_value`; `none` stands for the empty
`variant()`. -/
def point_particle_system.get_value (_s : point_particle_system) (_key : String) : Option Int :=
  none

/-- A point emitter holding one particle whose position is 32768 units. -/
def far_point_system : point_particle_system :=
  { particle_generation_ := 0
    generation_rate_millis_ := 0
    particles_ := [{ velocity_x := 0, velocity_y := 0, pos_x := 32768 * 1024, pos_y := 0,
                     rgba := { c0 := 0, c1 := 0, c2 := 0, c3 := 255 }, ttl := 10 }] }

/-- A point emitter holding two particles, at `ttl` 10 and 3. -/
def two_point_system : point_particle_system :=
  { particle_generation_ := 0
    generation_rate_millis_ := 0
    particles_ := [{ velocity_x := 0, velocity_y := 0, pos_x := 5 * 1024 + 7, pos_y := -2048,
                     rgba := { c0 := 0, c1 := 0, c2 := 0, c3 := 255 }, ttl := 10 },
                   { velocity_x := 0, velocity_y := 0, pos_x := 1024, pos_y := 3000,
                     rgba := { c0 := 0, c1 := 0, c2 := 0, c3 := 255 }, ttl := 3 }] }

/-- Staging vectors holding nothing. -/
def point_arrays.empty : point_arrays := { vertex := [], colors := [] }

/-! ## Factory dispatch -/

/-- The configuration node handed to `create_factory`: its `type` attribute
and, already read, the attributes and `animation` children the simple factory
uses (with their textures loaded) and the attributes the point factory uses. -/
structure factory_node where
  type : String
  simple_info : simple_particle_system_info
  animations : List animation_node
  point : point_node

/-- The constructor `simple_particle_system_factory::simple_particle_system_factory`:
the configuration, and one atlas for every `animation` child. -/
def simple_particle_system_factory.create (node : factory_node) :
    simple_particle_system_factory :=
  { frames_ := node.animations.map particle_animation.create
    info_ := node.simple_info }

/-- The factories `create_factory` can return.  The weather and water factories
are classes of other files of the engine and carry no data here. -/
inductive particle_system_factory where
  | simple (factory : simple_particle_system_factory)
  | weather
  | water
  | point (info : point_particle_info)

/-- The name of the kind of a factory. -/
def particle_system_factory.kind : particle_system_factory → String
  | particle_system_factory.simple _ => "simple"
  | particle_system_factory.weather => "weather"
  | particle_system_factory.water => "water"
  | particle_system_factory.point _ => "point"

/-- The function `particle_system_factory::create_factory`; the error is the
message of the failing `ASSERT_LOG`. -/
def particle_system_factory.create_factory (node : factory_node) :
    Except String particle_system_factory :=
  if node.type = "simple" then
    Except.ok (particle_system_factory.simple (simple_particle_system_factory.create node))
  else if node.type = "weather" then Except.ok particle_system_factory.weather
  else if node.type = "water" then Except.ok particle_system_factory.water
  else if node.type = "point" then
    Except.ok (particle_system_factory.point (point_particle_info.create node.point))
  else Except.error ("Unrecognized particle system type: " ++ node.type)

/-- A node of the given type with one animation and the sample attributes. -/
def sample_factory_node (type : String) : factory_node :=
  { type := type
    simple_info := sample_factory.info_
    animations := [sample_node]
    point := two_colour_node }

/-- The source rectangles the constructor loop computes, in frame order. -/
def particle_animation.source_rects (node : animation_node) : List rect :=
  build_rects node.base_area node.pad node.frames_per_row (clamp_nframes node.frames) 0 0

/-- An emitter at tick 1 of the sample factory holding one generation of one
moving particle. -/
def moving_system : simple_particle_system :=
  { info_ := { sample_factory.info_ with accel_x_ := 500, accel_y_ := -250 }
    cycle_ := 1
    particles_ := [{ pos0 := 3, pos1 := 4, anim := 0, velocity0 := 1, velocity1 := 2 }]
    generations_ := [{ members := 1, created_at := 1 }]
    spawn_buildup_ := 500 }

/-- The ages of the particles in buffer order: for every generation of the
queue, `members` times its age at the given tick. -/
def particle_ages (cycle : Int) : List generation → List Int
  | [] => []
  | g :: gs => List.replicate g.members.toNat (cycle - g.created_at) ++ particle_ages cycle gs

/-- The six points top-left, top-left, top-right, bottom-left, bottom-right,
bottom-right as twelve numbers. -/
def stitched_strip (tl tr bl br : ℚ × ℚ) : List ℚ :=
  [tl.1, tl.2, tl.1, tl.2, tr.1, tr.2, bl.1, bl.2, br.1, br.2, br.1, br.2]

/-- The strip of a particle: the corners of the rectangle of its animation's
displayed size at its position. -/
def strip_vertices (factory : simple_particle_system_factory) (p : particle) : List ℚ :=
  match factory.frames_[p.anim]? with
  | none => []
  | some anim =>
    stitched_strip (p.pos0, p.pos1) (p.pos0 + (anim.width_ : ℚ), p.pos1)
      (p.pos0, p.pos1 + (anim.height_ : ℚ))
      (p.pos0 + (anim.width_ : ℚ), p.pos1 + (anim.height_ : ℚ))

/-- The texture coordinates of the strip of a particle of the given age: the
corners of the frame its animation shows at that age, each passed through the
coordinate adjustment of the texture module. -/
def strip_texcoords (tex : texture_coords) (factory : simple_particle_system_factory)
    (pa : particle × Int) : List ℚ :=
  match factory.frames_[pa.1.anim]? with
  | none => []
  | some anim =>
    match anim.get_frame pa.2 with
    | none => []
    | some f =>
      stitched_strip (tex.get_coord_x f.u1, tex.get_coord_y f.v1)
        (tex.get_coord_x f.u2, tex.get_coord_y f.v1)
        (tex.get_coord_x f.u1, tex.get_coord_y f.v2)
        (tex.get_coord_x f.u2, tex.get_coord_y f.v2)

/-- A particle whose animation pointer refers to an atlas of the factory that
has at least one frame and a duration other than 0. -/
def particle.drawable (factory : simple_particle_system_factory) (p : particle) : Prop :=
  ∃ anim, factory.frames_[p.anim]? = some anim ∧ anim.frames_ ≠ [] ∧ anim.duration_ ≠ 0

/-- An emitter state in which the books of the generations balance (no count
negative, the counts adding up to the number of particles), or in which some
generation has a negative count. -/
def settled (s : simple_particle_system) : Prop :=
  ((∀ g ∈ s.generations_, 0 ≤ g.members) ∧
      total_members s.generations_ = s.particles_.length) ∨
    ∃ g ∈ s.generations_, g.members < 0

/-- A factory with one animation, one particle a tick and a system lifetime of
three ticks. -/
def mortal_factory : simple_particle_system_factory :=
  { frames_ := [unit_animation],
    info_ := { zero_info with spawn_rate_ := 1000, time_to_live_ := 50,
                              system_time_to_live_ := 3 } }

/-- Every generation of the queue was created at a tick from 1 up to the
current one. -/
def created_in_past (s : simple_particle_system) : Prop :=
  ∀ g ∈ s.generations_, 1 ≤ g.created_at ∧ g.created_at ≤ s.cycle_

/-- A factory with one animation, a rate of one and a half particles a tick and
a per-particle lifetime of 0. -/
def immortal_factory : simple_particle_system_factory :=
  { frames_ := [unit_animation], info_ := { zero_info with spawn_rate_ := 1500 } }

/-! ## Generation timer and lifetimes of the point emitter -/

/-- The number of particles a `process` call of the point emitter appends to
the buffer: the length of the buffer after the call less the number of
particles that pass the filter. -/
def point_particle_system.appended (info : point_particle_info) (s : point_particle_system)
    (e : environment) : Option Nat :=
  match s.process info e with
  | some s' =>
    some (s'.particles_.length -
      (s.particles_.filter (fun p => !particle_destroyed p)).length)
  | none => none

/-- The number of particles appended by successive `process` calls of the point
emitter, one for each environment of the list. -/
def point_particle_system.total_appended (info : point_particle_info) :
    point_particle_system → List environment → Option Nat
  | _, [] => some 0
  | s, e :: es =>
    match s.appended info e, s.process info e with
    | some k, some s' =>
      match point_particle_system.total_appended info s' es with
      | some t => some (k + t)
      | none => none
    | _, _ => none

/-- A call made on a point emitter by its owner. -/
inductive point_call where
  | process (e : environment)
  | set_value (key : String) (value : Int)

/-- The point emitter after a sequence of calls; `none` once a `process` call
has aborted. -/
def point_particle_system.run_calls (info : point_particle_info) :
    point_particle_system → List point_call → Option point_particle_system
  | s, [] => some s
  | s, point_call.process e :: cs =>
    match s.process info e with
    | some s' => point_particle_system.run_calls info s' cs
    | none => none
  | s, point_call.set_value key value :: cs =>
    point_particle_system.run_calls info (s.set_value key value) cs

/-- A node with two colours, a lifetime of 10 ticks and two and a half
particles a tick. -/
def fast_node : point_node :=
  { zero_point_node with
    generation_rate_millis := 2500, time_to_live := 10,
    colors := [0xFF0000FF, 0x00FF00FF] }

/-- A node with two colours, a base lifetime of 4 ticks and up to 5 extra
ticks, two and a half particles a tick. -/
def ranged_node : point_node :=
  { zero_point_node with
    generation_rate_millis := 2500, time_to_live := 4, time_to_live_rand := 6,
    colors := [0xFF0000FF, 0x00FF00FF] }

/-- Three `process` calls of a point emitter with a `set_value` of the
generation rate in between. -/
def sample_point_calls : List point_call :=
  [point_call.process four_environment, point_call.set_value "generation_rate" 1000,
    point_call.process still_environment, point_call.process four_environment]

/-- A factory with one animation, one particle a tick, a lifetime of 3 ticks,
a spawn velocity of (2, -1) and an acceleration of (1/2, -1/4) a tick. -/
def drifting_factory : simple_particle_system_factory :=
  { frames_ := [unit_animation],
    info_ := { zero_info with spawn_rate_ := 1000, time_to_live_ := 3,
                              system_time_to_live_ := -1,
                              velocity_x_ := 2000, velocity_y_ := -1000,
                              accel_x_ := 500, accel_y_ := -250 } }

/-- Three `process` calls with the entity at the origin. -/
def drifting_calls : List call :=
  [call.process still_environment, call.process still_environment,
    call.process still_environment]

/-- An entity at (10, 20), every `rand()` outcome 0. -/
def far_environment : environment :=
  { x := 10, y := 20, rand := fun _ => 0, sin := fun _ => 0, cos := fun _ => 1 }

/-! ## Lemmas on the simple emitter -/

theorem total_members_nil : total_members [] = 0 := rfl

theorem total_members_cons (g : generation) (gs : List generation) :
    total_members (g :: gs) = g.members + total_members gs := by
  simp [total_members]

theorem total_members_append (gs hs : List generation) :
    total_members (gs ++ hs) = total_members gs + total_members hs := by
  simp [total_members]

theorem total_members_nonneg : ∀ (gs : List generation), (∀ g ∈ gs, 0 ≤ g.members) →
    0 ≤ total_members gs
  | [], _ => by simp [total_members]
  | g :: gs, h => by
    rw [total_members_cons]
    have h1 := h g (List.mem_cons_self g gs)
    have h2 := total_members_nonneg gs (fun x hx => h x (List.mem_cons_of_mem g hx))
    omega

/-- On a queue of non-negative counts that add up to the number of particles,
the expiry loop succeeds and leaves a suffix of the queue with the same two
properties. -/
theorem expire_spec (cycle ttl : Int) : ∀ (gs : List generation) (ps : List particle),
    (∀ g ∈ gs, 0 ≤ g.members) → total_members gs = ps.length →
    ∃ gs' ps', expire cycle ttl gs ps = some (gs', ps') ∧ (∀ g ∈ gs', 0 ≤ g.members) ∧
      total_members gs' = ps'.length ∧ gs' <:+ gs
  | [], ps, h, hsum => ⟨[], ps, rfl, h, hsum, List.suffix_refl _⟩
  | g :: gs, ps, h, hsum => by
    have hg := h g (List.mem_cons_self g gs)
    have hgs : ∀ x ∈ gs, 0 ≤ x.members := fun x hx => h x (List.mem_cons_of_mem g hx)
    have hnn := total_members_nonneg gs hgs
    rw [total_members_cons] at hsum
    by_cases hage : cycle - g.created_at = ttl
    · have hk : g.members.toNat ≤ ps.length := by omega
      have hdrop : total_members gs = ((ps.drop g.members.toNat).length : Int) := by
        rw [List.length_drop]; omega
      obtain ⟨gs', ps', he, h1, h2, h3⟩ := expire_spec cycle ttl gs (ps.drop g.members.toNat) hgs hdrop
      refine ⟨gs', ps', ?_, h1, h2, List.IsSuffix.trans h3 (List.suffix_cons g gs)⟩
      simp [expire, hage, hg, hk, he]
    · refine ⟨g :: gs, ps, ?_, h, ?_, List.suffix_refl _⟩
      · simp [expire, hage]
      · rw [total_members_cons]; exact hsum

theorem integrate_spec (info : simple_particle_system_info) :
    ∀ (gs : List generation) (ps : List particle),
    (∀ g ∈ gs, 0 ≤ g.members) → total_members gs = ps.length →
    ∃ ps', integrate info gs ps = some ps' ∧ ps'.length = ps.length
  | [], ps, _, _ => ⟨ps, rfl, rfl⟩
  | g :: gs, ps, h, hsum => by
    have hg := h g (List.mem_cons_self g gs)
    have hgs : ∀ x ∈ gs, 0 ≤ x.members := fun x hx => h x (List.mem_cons_of_mem g hx)
    have hnn := total_members_nonneg gs hgs
    rw [total_members_cons] at hsum
    have hk : g.members.toNat ≤ ps.length := by omega
    have hdrop : total_members gs = ((ps.drop g.members.toNat).length : Int) := by
      rw [List.length_drop]; omega
    obtain ⟨rest, hr, hlen⟩ := integrate_spec info gs (ps.drop g.members.toNat) hgs hdrop
    refine ⟨(ps.take g.members.toNat).map (move info) ++ rest, ?_, ?_⟩
    · simp [integrate, hg, hk, hr]
    · simp [hlen, List.length_take, List.length_drop]; omega

theorem spawn_particle_isSome (factory : simple_particle_system_factory)
    (info : simple_particle_system_info) (e : environment) (i : Nat)
    (hf : factory.frames_ ≠ []) : ∃ r, spawn_particle factory info e i = some r := by
  have hpos : factory.frames_.length > 0 := List.length_pos.mpr hf
  simp [spawn_particle, hpos]

theorem spawn_loop_length (factory : simple_particle_system_factory)
    (info : simple_particle_system_info) (e : environment) :
    ∀ (n i : Nat) (ps ps' : List particle),
      spawn_loop factory info e n i ps = some ps' → ps'.length = ps.length + n
  | 0, i, ps, ps', h => by
    simp [spawn_loop] at h; simp [← h]
  | n + 1, i, ps, ps', h => by
    simp only [spawn_loop] at h
    cases hp : spawn_particle factory info e i with
    | none => simp [hp] at h
    | some r =>
      obtain ⟨p, j⟩ := r
      simp only [hp] at h
      have := spawn_loop_length factory info e n j (ps ++ [p]) ps' h
      simp at this; omega

theorem spawn_loop_isSome (factory : simple_particle_system_factory)
    (info : simple_particle_system_info) (e : environment) (hf : factory.frames_ ≠ []) :
    ∀ (n i : Nat) (ps : List particle), ∃ ps', spawn_loop factory info e n i ps = some ps'
  | 0, i, ps => ⟨ps, rfl⟩
  | n + 1, i, ps => by
    obtain ⟨⟨p, j⟩, hp⟩ := spawn_particle_isSome factory info e i hf
    obtain ⟨ps', h⟩ := spawn_loop_isSome factory info e hf n j (ps ++ [p])
    exact ⟨ps', by simp [spawn_loop, hp, h]⟩

/-- With a non-negative rate and carry, the spawn count before the split is
non-negative. -/
theorem spawn_sum_nonneg (info : simple_particle_system_info) (buildup : Int) (e : environment)
    (hr : 0 ≤ info.spawn_rate_) (hb : 0 ≤ buildup) : 0 ≤ spawn_sum info buildup e := by
  unfold spawn_sum
  split
  · have : 0 ≤ Int.tmod (e.rand 0 : Int) info.spawn_rate_random_ :=
      Int.tmod_nonneg _ (Int.ofNat_nonneg _)
    omega
  · omega

/-- The stages of a `process` call that returned. -/
theorem process_some (factory : simple_particle_system_factory) (s s' : simple_particle_system)
    (e : environment) (hp : s.process factory e = some s') :
    ∃ gens ps ps1,
      expire (s.cycle_ + 1) (ticked_info s).time_to_live_ s.generations_ s.particles_ =
        some (gens, ps) ∧
      integrate (ticked_info s) gens ps = some ps1 ∧
      spawn_loop factory (ticked_info s) e
        (Int.tdiv (spawn_sum (ticked_info s) s.spawn_buildup_ e) 1000).toNat
        (spawn_cursor (ticked_info s)) ps1 = some s'.particles_ ∧
      s'.generations_ = gens ++
        [{ members := Int.tdiv (spawn_sum (ticked_info s) s.spawn_buildup_ e) 1000,
           created_at := s.cycle_ + 1 }] ∧
      s'.cycle_ = s.cycle_ + 1 ∧
      s'.spawn_buildup_ = Int.tmod (spawn_sum (ticked_info s) s.spawn_buildup_ e) 1000 ∧
      s'.info_ = ticked_info s := by
  unfold simple_particle_system.process at hp
  cases he : expire (s.cycle_ + 1) (ticked_info s).time_to_live_ s.generations_ s.particles_ with
  | none => simp [he] at hp
  | some r =>
    obtain ⟨gens, ps⟩ := r
    simp only [he] at hp
    cases hi : integrate (ticked_info s) gens ps with
    | none => simp [hi] at hp
    | some ps1 =>
      simp only [hi] at hp
      cases hl : spawn_loop factory (ticked_info s) e
          (Int.tdiv (spawn_sum (ticked_info s) s.spawn_buildup_ e) 1000).toNat
          (spawn_cursor (ticked_info s)) ps1 with
      | none => simp [hl] at hp
      | some ps2 =>
        simp only [hl, Option.some.injEq] at hp
        subst hp
        exact ⟨gens, ps, ps1, rfl, hi, hl, rfl, rfl, rfl, rfl⟩

theorem ticked_time_to_live (s : simple_particle_system) :
    (ticked_info s).time_to_live_ = s.info_.time_to_live_ := rfl

theorem ticked_spawn_rate (s : simple_particle_system) :
    (ticked_info s).spawn_rate_ = s.info_.spawn_rate_ := rfl

theorem ticked_spawn_rate_random (s : simple_particle_system) :
    (ticked_info s).spawn_rate_random_ = s.info_.spawn_rate_random_ := rfl


theorem process_accounted (factory : simple_particle_system_factory)
    (s s' : simple_particle_system) (e : environment) (h : accounted s)
    (hp : s.process factory e = some s') : accounted s' := by
  obtain ⟨gens, ps, ps1, he, hi, hl, hg, _, hb, hinfo⟩ := process_some factory s s' e hp
  obtain ⟨gens', ps', he', h1, h2, _⟩ :=
    expire_spec (s.cycle_ + 1) (ticked_info s).time_to_live_ s.generations_ s.particles_
      h.members_nonneg h.total
  rw [he] at he'
  simp only [Option.some.injEq, Prod.mk.injEq] at he'
  obtain ⟨rfl, rfl⟩ := he'
  obtain ⟨ps1', hi', hlen⟩ := integrate_spec (ticked_info s) gens ps h1 h2
  rw [hi] at hi'
  simp only [Option.some.injEq] at hi'
  subst hi'
  have hsum := spawn_sum_nonneg s.info_ s.spawn_buildup_ e h.rate_nonneg h.buildup_nonneg
  have hn : 0 ≤ Int.tdiv (spawn_sum (ticked_info s) s.spawn_buildup_ e) 1000 :=
    Int.tdiv_nonneg hsum (by decide)
  have hlen' := spawn_loop_length factory (ticked_info s) e _ _ _ _ hl
  refine ⟨?_, ?_, ?_, ?_⟩
  · intro g hgm
    rw [hg] at hgm
    rcases List.mem_append.mp hgm with hgm | hgm
    · exact h1 g hgm
    · simp only [List.mem_singleton] at hgm
      subst hgm
      exact hn
  · rw [hg, total_members_append, total_members_cons, total_members_nil, hlen', h2, hlen]
    push_cast
    omega
  · rw [hinfo]; exact h.rate_nonneg
  · rw [hb]; exact Int.tmod_nonneg _ hsum

theorem process_isSome (factory : simple_particle_system_factory)
    (s : simple_particle_system) (e : environment) (h : accounted s)
    (hf : factory.frames_ ≠ []) : ∃ s', s.process factory e = some s' := by
  obtain ⟨gens, ps, he, h1, h2, _⟩ :=
    expire_spec (s.cycle_ + 1) (ticked_info s).time_to_live_ s.generations_ s.particles_
      h.members_nonneg h.total
  obtain ⟨ps1, hi, _⟩ := integrate_spec (ticked_info s) gens ps h1 h2
  obtain ⟨ps2, hl⟩ := spawn_loop_isSome factory (ticked_info s) e hf
    (Int.tdiv (spawn_sum (ticked_info s) s.spawn_buildup_ e) 1000).toNat (spawn_cursor (ticked_info s)) ps1
  simp only [simple_particle_system.process, he, hi, hl, Option.some.injEq, exists_eq']

theorem create_accounted (factory : simple_particle_system_factory)
    (h : 0 ≤ factory.info_.spawn_rate_) : accounted (simple_particle_system.create factory) :=
  ⟨by simp [simple_particle_system.create], by simp [simple_particle_system.create, total_members],
    h, by simp [simple_particle_system.create]⟩

theorem set_value_accounted (s : simple_particle_system) (key : String) (value : Int)
    (h : accounted s) (hv : key = "spawn_rate" → 0 ≤ value) : accounted (s.set_value key value) := by
  unfold simple_particle_system.set_value
  split_ifs with h1 h2 h3 h4 h5 h6 h7
  · exact ⟨h.members_nonneg, h.total, hv h1, h.buildup_nonneg⟩
  all_goals exact ⟨h.members_nonneg, h.total, h.rate_nonneg, h.buildup_nonneg⟩

theorem run_accounted (factory : simple_particle_system_factory) :
    ∀ (calls : List call) (s s' : simple_particle_system), accounted s →
      (∀ c ∈ calls, c.rate_nonneg) → s.run factory calls = some s' → accounted s'
  | [], s, s', h, _, hr => by
    simp only [simple_particle_system.run, Option.some.injEq] at hr
    subst hr; exact h
  | call.process e :: cs, s, s', h, hc, hr => by
    simp only [simple_particle_system.run] at hr
    cases hp : s.process factory e with
    | none => simp [hp] at hr
    | some s1 =>
      simp only [hp] at hr
      exact run_accounted factory cs s1 s' (process_accounted factory s s1 e h hp)
        (fun c hcm => hc c (List.mem_cons_of_mem _ hcm)) hr
  | call.set_value key value :: cs, s, s', h, hc, hr => by
    simp only [simple_particle_system.run] at hr
    exact run_accounted factory cs _ s'
      (set_value_accounted s key value h (hc _ (List.mem_cons_self _ _)))
      (fun c hcm => hc c (List.mem_cons_of_mem _ hcm)) hr

theorem run_isSome (factory : simple_particle_system_factory) (hf : factory.frames_ ≠ []) :
    ∀ (calls : List call) (s : simple_particle_system), accounted s →
      (∀ c ∈ calls, c.rate_nonneg) → ∃ s', s.run factory calls = some s'
  | [], s, _, _ => ⟨s, rfl⟩
  | call.process e :: cs, s, h, hc => by
    obtain ⟨s1, hp⟩ := process_isSome factory s e h hf
    obtain ⟨s', hr⟩ := run_isSome factory hf cs s1 (process_accounted factory s s1 e h hp)
      (fun c hcm => hc c (List.mem_cons_of_mem _ hcm))
    exact ⟨s', by simp only [simple_particle_system.run, hp, hr]⟩
  | call.set_value key value :: cs, s, h, hc => by
    obtain ⟨s', hr⟩ := run_isSome factory hf cs _
      (set_value_accounted s key value h (hc _ (List.mem_cons_self _ _)))
      (fun c hcm => hc c (List.mem_cons_of_mem _ hcm))
    exact ⟨s', by simp only [simple_particle_system.run, hr]⟩

/-! ## Generation accounting -/

/-- C1, as stated, fails: a fresh emitter whose configured spawn rate is -1000
records, in its first `process` call, a generation of -1 members and spawns no
particle, so the members add up to -1 while the particle buffer is empty. -/
theorem generation_accounting_fails_for_negative_rate :
    ∃ s, (simple_particle_system.create negative_rate_factory).run negative_rate_factory
        [call.process still_environment] = some s ∧
      total_members s.generations_ = -1 ∧ s.particles_.length = 0 ∧
      total_members s.generations_ ≠ (s.particles_.length : Int) := by
  refine ⟨_, rfl, ?_, ?_, ?_⟩ <;> decide

/-- C1, amended: when the configured spawn rate is not negative and no
`set_value` call sets a negative spawn rate, every state reached from a fresh
emitter by `process` and `set_value` calls (whatever the entity position and the
random draws) has the `members` of its generations adding up to the length of
the particle buffer, every one of them non-negative; and with at least one
animation every such sequence of calls does reach a state. -/
theorem generation_accounting (factory : simple_particle_system_factory) (calls : List call)
    (hrate : 0 ≤ factory.info_.spawn_rate_) (hcalls : ∀ c ∈ calls, c.rate_nonneg) :
    (∀ s, (simple_particle_system.create factory).run factory calls = some s →
      total_members s.generations_ = (s.particles_.length : Int) ∧
      ∀ g ∈ s.generations_, 0 ≤ g.members) ∧
    (factory.frames_ ≠ [] →
      ∃ s, (simple_particle_system.create factory).run factory calls = some s) := by
  refine ⟨fun s hs => ?_, fun hf => ?_⟩
  · have h := run_accounted factory calls _ s (create_accounted factory hrate) hcalls hs
    exact ⟨h.total, h.members_nonneg⟩
  · exact run_isSome factory hf calls _ (create_accounted factory hrate) hcalls

/-- C1, amended, at a factory with one animation and rate 1500: two `process`
calls around a `set_value` of the spawn rate. -/
theorem generation_accounting_witness :
    (0 ≤ sample_factory.info_.spawn_rate_ ∧
      (∀ c ∈ [call.process still_environment, call.set_value "spawn_rate" 700,
          call.process still_environment], c.rate_nonneg) ∧
      sample_factory.frames_ ≠ []) ∧
    ((∀ s, (simple_particle_system.create sample_factory).run sample_factory
        [call.process still_environment, call.set_value "spawn_rate" 700,
          call.process still_environment] = some s →
      total_members s.generations_ = (s.particles_.length : Int) ∧
      ∀ g ∈ s.generations_, 0 ≤ g.members) ∧
    (sample_factory.frames_ ≠ [] →
      ∃ s, (simple_particle_system.create sample_factory).run sample_factory
        [call.process still_environment, call.set_value "spawn_rate" 700,
          call.process still_environment] = some s)) :=
  ⟨⟨by decide, by simp [call.rate_nonneg], by decide⟩,
    generation_accounting sample_factory _ (by decide) (by simp [call.rate_nonneg])⟩

/-! ## Exact-match expiry -/

theorem tick_range_empty (lo hi : Int) (h : hi < lo) : tick_range lo hi = [] := by
  have : (hi + 1 - lo).toNat = 0 := by omega
  simp [tick_range, this, ticks_from]

theorem tick_range_cons (lo hi : Int) (h : lo ≤ hi) :
    tick_range lo hi = lo :: tick_range (lo + 1) hi := by
  have : (hi + 1 - lo).toNat = (hi + 1 - (lo + 1)).toNat + 1 := by omega
  simp [tick_range, this, ticks_from]

theorem ticks_from_snoc : ∀ (n : Nat) (lo : Int),
    ticks_from lo (n + 1) = ticks_from lo n ++ [lo + n]
  | 0, lo => by simp [ticks_from]
  | n + 1, lo => by
    have ih := ticks_from_snoc n (lo + 1)
    rw [ticks_from, ih]
    simp only [ticks_from, List.cons_append, Nat.cast_add, Nat.cast_one]
    congr 3
    omega

theorem tick_range_snoc (lo hi : Int) (h : lo ≤ hi + 1) :
    tick_range lo (hi + 1) = tick_range lo hi ++ [hi + 1] := by
  have h1 : (hi + 1 + 1 - lo).toNat = (hi + 1 - lo).toNat + 1 := by omega
  have h2 : lo + ((hi + 1 - lo).toNat : Int) = hi + 1 := by omega
  rw [tick_range, h1, ticks_from_snoc, h2, tick_range]

theorem mem_ticks_from : ∀ (n : Nat) (lo t : Int),
    t ∈ ticks_from lo n ↔ lo ≤ t ∧ t < lo + n
  | 0, lo, t => by simp [ticks_from]
  | n + 1, lo, t => by
    simp only [ticks_from, List.mem_cons, mem_ticks_from n (lo + 1) t, Nat.cast_add, Nat.cast_one]
    omega

theorem mem_tick_range (lo hi t : Int) : t ∈ tick_range lo hi ↔ lo ≤ t ∧ t ≤ hi := by
  rw [tick_range, mem_ticks_from]
  omega

theorem length_ticks_from : ∀ (n : Nat) (lo : Int), (ticks_from lo n).length = n
  | 0, _ => rfl
  | n + 1, lo => by simp [ticks_from, length_ticks_from n]

/-- The expiry loop stops at once when the front generation has another age. -/
theorem expire_stop (cycle ttl : Int) (gs : List generation) (ps : List particle)
    (h : ∀ g, gs.head? = some g → cycle - g.created_at ≠ ttl) :
    expire cycle ttl gs ps = some (gs, ps) := by
  cases gs with
  | nil => rfl
  | cons g gs => simp [expire, h g rfl]

/-- The expiry loop on a queue holding the ticks `max 1 (c-L+1) .. c`, run at
tick `c+1` with lifetime `L ≥ 1`, leaves the ticks `max 1 (c+1-L+1) .. c`. -/
theorem expire_ticks (c L : Int) (hL : 1 ≤ L) (gs gs' : List generation)
    (ps ps' : List particle)
    (hgs : gs.map generation.created_at = tick_range (max 1 (c - L + 1)) c)
    (he : expire (c + 1) L gs ps = some (gs', ps')) :
    gs'.map generation.created_at = tick_range (max 1 (c + 1 - L + 1)) c := by
  cases gs with
  | nil =>
    simp only [expire, Option.some.injEq, Prod.mk.injEq] at he
    obtain ⟨rfl, _⟩ := he
    have hlt : c < max 1 (c - L + 1) := by
      by_contra hcon
      rw [tick_range_cons _ _ (by omega)] at hgs
      simp at hgs
    rw [tick_range_empty _ _ (by omega)]
    rfl
  | cons g rest =>
    have hle : max 1 (c - L + 1) ≤ c := by
      by_contra hcon
      rw [tick_range_empty _ _ (by omega)] at hgs
      simp at hgs
    rw [tick_range_cons _ _ hle] at hgs
    simp only [List.map_cons, List.cons.injEq] at hgs
    obtain ⟨hg, hrest⟩ := hgs
    by_cases hage : c + 1 - g.created_at = L
    · simp only [expire, hage, if_true] at he
      split at he
      · have hstop : expire (c + 1) L rest (ps.drop g.members.toNat) =
            some (rest, ps.drop g.members.toNat) := by
          apply expire_stop
          intro g2 hg2
          cases rest with
          | nil => simp at hg2
          | cons r rest2 =>
            simp only [List.head?_cons, Option.some.injEq] at hg2
            subst hg2
            by_cases hle2 : max 1 (c - L + 1) + 1 ≤ c
            · rw [tick_range_cons _ _ hle2] at hrest
              simp only [List.map_cons, List.cons.injEq] at hrest
              omega
            · rw [tick_range_empty _ _ (by omega)] at hrest
              simp at hrest
        rw [hstop] at he
        simp only [Option.some.injEq, Prod.mk.injEq] at he
        obtain ⟨rfl, _⟩ := he
        rw [hrest]
        congr 1
        omega
      · simp at he
    · simp only [expire, hage, if_false, Option.some.injEq, Prod.mk.injEq] at he
      obtain ⟨rfl, _⟩ := he
      have hlo : max 1 (c + 1 - L + 1) = max 1 (c - L + 1) := by omega
      rw [hlo, tick_range_cons _ _ hle]
      simp [hg, hrest]

/-- A property of emitter states that holds at the start and is kept by every
`process` call that returns and by every `set_value` call that sets no negative
spawn rate holds after any sequence of such calls. -/
theorem run_invariant (factory : simple_particle_system_factory)
    (P : simple_particle_system → Prop)
    (hprocess : ∀ s e s', P s → s.process factory e = some s' → P s')
    (hset : ∀ s key value, P s → (key = "spawn_rate" → 0 ≤ value) → P (s.set_value key value)) :
    ∀ (calls : List call) (s s' : simple_particle_system), P s →
      (∀ c ∈ calls, c.rate_nonneg) → s.run factory calls = some s' → P s'
  | [], s, s', h, _, hr => by
    simp only [simple_particle_system.run, Option.some.injEq] at hr
    subst hr; exact h
  | call.process e :: cs, s, s', h, hc, hr => by
    simp only [simple_particle_system.run] at hr
    cases hp : s.process factory e with
    | none => simp [hp] at hr
    | some s1 =>
      simp only [hp] at hr
      exact run_invariant factory P hprocess hset cs s1 s' (hprocess s e s1 h hp)
        (fun c hcm => hc c (List.mem_cons_of_mem _ hcm)) hr
  | call.set_value key value :: cs, s, s', h, hc, hr => by
    simp only [simple_particle_system.run] at hr
    exact run_invariant factory P hprocess hset cs _ s'
      (hset s key value h (hc _ (List.mem_cons_self _ _)))
      (fun c hcm => hc c (List.mem_cons_of_mem _ hcm)) hr

/-- A `set_value` call changes at most the configuration, and in it neither the
lifetime nor the jitter of the spawn rate. -/
theorem set_value_eq (s : simple_particle_system) (key : String) (value : Int) :
    ∃ info, s.set_value key value = { s with info_ := info } ∧
      info.time_to_live_ = s.info_.time_to_live_ ∧
      info.spawn_rate_random_ = s.info_.spawn_rate_random_ := by
  unfold simple_particle_system.set_value
  split_ifs
  all_goals exact ⟨_, rfl, rfl, rfl⟩

theorem set_value_time_to_live (s : simple_particle_system) (key : String) (value : Int) :
    (s.set_value key value).info_.time_to_live_ = s.info_.time_to_live_ := by
  obtain ⟨info, h, h1, _⟩ := set_value_eq s key value
  rw [h]; exact h1

theorem set_value_cycle (s : simple_particle_system) (key : String) (value : Int) :
    (s.set_value key value).cycle_ = s.cycle_ := by
  obtain ⟨info, h, _, _⟩ := set_value_eq s key value
  rw [h]

theorem set_value_generations (s : simple_particle_system) (key : String) (value : Int) :
    (s.set_value key value).generations_ = s.generations_ := by
  obtain ⟨info, h, _, _⟩ := set_value_eq s key value
  rw [h]

theorem set_value_particles (s : simple_particle_system) (key : String) (value : Int) :
    (s.set_value key value).particles_ = s.particles_ := by
  obtain ⟨info, h, _, _⟩ := set_value_eq s key value
  rw [h]

theorem set_value_spawn_buildup (s : simple_particle_system) (key : String) (value : Int) :
    (s.set_value key value).spawn_buildup_ = s.spawn_buildup_ := by
  obtain ⟨info, h, _, _⟩ := set_value_eq s key value
  rw [h]

/-- The tick counter after a sequence of calls is the starting tick plus the
number of `process` calls. -/
theorem run_cycle (factory : simple_particle_system_factory) :
    ∀ (calls : List call) (s s' : simple_particle_system),
      s.run factory calls = some s' → s'.cycle_ = s.cycle_ + process_count calls
  | [], s, s', hr => by
    simp only [simple_particle_system.run, Option.some.injEq] at hr
    subst hr; simp [process_count]
  | call.process e :: cs, s, s', hr => by
    simp only [simple_particle_system.run] at hr
    cases hp : s.process factory e with
    | none => simp [hp] at hr
    | some s1 =>
      simp only [hp] at hr
      obtain ⟨_, _, _, _, _, _, _, hcy, _, _⟩ := process_some factory s s1 e hp
      rw [run_cycle factory cs s1 s' hr, hcy]
      simp only [process_count, Nat.cast_add, Nat.cast_one]
      omega
  | call.set_value key value :: cs, s, s', hr => by
    simp only [simple_particle_system.run] at hr
    rw [run_cycle factory cs _ s' hr, set_value_cycle]
    simp [process_count]

theorem process_queue_ticks (factory : simple_particle_system_factory) (L : Int) (hL : 1 ≤ L)
    (s : simple_particle_system) (e : environment) (s' : simple_particle_system)
    (h : queue_ticks L s) (hp : s.process factory e = some s') : queue_ticks L s' := by
  obtain ⟨gens, ps, ps1, he, _, _, hg, hcy, _, hinfo⟩ := process_some factory s s' e hp
  obtain ⟨httl, hc, hq⟩ := h
  rw [ticked_time_to_live, httl] at he
  have hgens := expire_ticks s.cycle_ L hL s.generations_ gens s.particles_ ps hq he
  refine ⟨by rw [hinfo, ticked_time_to_live, httl], by omega, ?_⟩
  rw [hg, hcy, List.map_append, hgens, tick_range_snoc _ _ (by omega)]
  rfl

theorem set_value_queue_ticks (L : Int) (s : simple_particle_system) (key : String)
    (value : Int) (h : queue_ticks L s) : queue_ticks L (s.set_value key value) := by
  unfold queue_ticks
  rw [set_value_time_to_live, set_value_cycle, set_value_generations]
  exact h

theorem create_queue_ticks (factory : simple_particle_system_factory) :
    queue_ticks factory.info_.time_to_live_ (simple_particle_system.create factory) :=
  ⟨rfl, by simp [simple_particle_system.create], by
    simp [simple_particle_system.create, tick_range_empty]⟩

/-- C2: for a lifetime `L ≥ 1` and non-negative spawn counts, in the state
reached from a fresh emitter by any sequence of calls the tick counter `c` is the
number of `process` calls made, and the generation queue holds, in spawn order,
exactly the generations created at ticks `max 1 (c-L+1) .. c`: a generation
created at tick `t ≥ 1` is in the queue exactly while `t ≤ c < t + L`.  With at
least one animation every such sequence of calls reaches a state. -/
theorem exact_match_expiry (factory : simple_particle_system_factory) (calls : List call)
    (L : Int) (hL : 1 ≤ L) (httl : factory.info_.time_to_live_ = L)
    (hrate : 0 ≤ factory.info_.spawn_rate_) (hcalls : ∀ c ∈ calls, c.rate_nonneg) :
    (∀ s, (simple_particle_system.create factory).run factory calls = some s →
      s.cycle_ = process_count calls ∧
      s.generations_.map generation.created_at =
        tick_range (max 1 (s.cycle_ - L + 1)) s.cycle_ ∧
      ∀ t : Int, (∃ g ∈ s.generations_, g.created_at = t) ↔
        (1 ≤ t ∧ t ≤ s.cycle_ ∧ s.cycle_ < t + L)) ∧
    (factory.frames_ ≠ [] →
      ∃ s, (simple_particle_system.create factory).run factory calls = some s) := by
  refine ⟨fun s hs => ?_, fun hf => ?_⟩
  · have hstart : queue_ticks L (simple_particle_system.create factory) :=
      httl ▸ create_queue_ticks factory
    obtain ⟨_, _, hq⟩ := run_invariant factory (queue_ticks L)
      (fun s e s' h hp => process_queue_ticks factory L hL s e s' h hp)
      (fun s key value h _ => set_value_queue_ticks L s key value h) calls _ s hstart hcalls hs
    have hcy := run_cycle factory calls _ s hs
    refine ⟨by simpa [simple_particle_system.create] using hcy, hq, fun t => ?_⟩
    have hmem : (∃ g ∈ s.generations_, g.created_at = t) ↔
        t ∈ s.generations_.map generation.created_at := by
      simp [List.mem_map]
    rw [hmem, hq, mem_tick_range]
    omega
  · exact run_isSome factory hf calls _ (create_accounted factory hrate) hcalls

/-- C2 at a factory with lifetime 2, after three `process` calls. -/
theorem exact_match_expiry_witness :
    ((1 : Int) ≤ 2 ∧ sample_factory.info_.time_to_live_ = 2 ∧
      0 ≤ sample_factory.info_.spawn_rate_ ∧ (∀ c ∈ sample_calls, c.rate_nonneg) ∧
      sample_factory.frames_ ≠ []) ∧
    ((∀ s, (simple_particle_system.create sample_factory).run sample_factory sample_calls =
        some s →
      s.cycle_ = process_count sample_calls ∧
      s.generations_.map generation.created_at =
        tick_range (max 1 (s.cycle_ - 2 + 1)) s.cycle_ ∧
      ∀ t : Int, (∃ g ∈ s.generations_, g.created_at = t) ↔
        (1 ≤ t ∧ t ≤ s.cycle_ ∧ s.cycle_ < t + 2)) ∧
    (sample_factory.frames_ ≠ [] →
      ∃ s, (simple_particle_system.create sample_factory).run sample_factory sample_calls =
        some s)) :=
  ⟨⟨by decide, by decide, by decide, by simp [sample_calls, call.rate_nonneg], by decide⟩,
    exact_match_expiry sample_factory sample_calls 2 (by decide) (by decide) (by decide)
      (by simp [sample_calls, call.rate_nonneg])⟩

/-! ## Spawn-rate accumulation -/

/-- Without jitter the spawn count before the split is rate plus carry. -/
theorem spawn_sum_no_jitter (info : simple_particle_system_info) (buildup : Int)
    (e : environment) (hj : info.spawn_rate_random_ ≤ 0) :
    spawn_sum info buildup e = info.spawn_rate_ + buildup := by
  unfold spawn_sum
  rw [if_neg (by omega)]

/-- The number of particles a returning `process` call appends, on a state whose
books balance, is the integer part of the spawn count. -/
theorem spawned_eq (factory : simple_particle_system_factory) (s s' : simple_particle_system)
    (e : environment) (h : accounted s) (hp : s.process factory e = some s') :
    s.spawned factory e =
      some (Int.tdiv (spawn_sum (ticked_info s) s.spawn_buildup_ e) 1000).toNat := by
  obtain ⟨gens, ps, ps1, he, hi, hl, _, _, _, _⟩ := process_some factory s s' e hp
  obtain ⟨gens', ps', he', h1, h2, _⟩ :=
    expire_spec (s.cycle_ + 1) (ticked_info s).time_to_live_ s.generations_ s.particles_
      h.members_nonneg h.total
  rw [he] at he'
  simp only [Option.some.injEq, Prod.mk.injEq] at he'
  obtain ⟨rfl, rfl⟩ := he'
  obtain ⟨ps1', hi', hlen⟩ := integrate_spec (ticked_info s) gens ps h1 h2
  rw [hi] at hi'
  simp only [Option.some.injEq] at hi'
  subst hi'
  have hlen' := spawn_loop_length factory (ticked_info s) e _ _ _ _ hl
  simp only [simple_particle_system.spawned, he, hp, hlen', hlen]
  congr 1
  omega

/-- With a constant rate `r ≥ 0` and no jitter, the particles appended by a run
of `process` calls and the carry left at the end account for the carry at the
start and `r` for every call. -/
theorem constant_rate_run (factory : simple_particle_system_factory) (r : Int) (hr : 0 ≤ r) :
    ∀ (es : List environment) (s s' : simple_particle_system), accounted s →
      s.info_.spawn_rate_ = r → s.info_.spawn_rate_random_ ≤ 0 → s.spawn_buildup_ < 1000 →
      s.run factory (es.map call.process) = some s' →
      ∃ T : Nat, s.total_spawned factory es = some T ∧
        (T : Int) * 1000 + s'.spawn_buildup_ = s.spawn_buildup_ + es.length * r ∧
        0 ≤ s'.spawn_buildup_ ∧ s'.spawn_buildup_ < 1000 ∧
        s'.info_.spawn_rate_ = r ∧ s'.info_.spawn_rate_random_ ≤ 0 ∧ accounted s'
  | [], s, s', h, hrate, hj, hb, hrun => by
    simp only [List.map_nil, simple_particle_system.run, Option.some.injEq] at hrun
    subst hrun
    exact ⟨0, rfl, by simp, h.buildup_nonneg, hb, hrate, hj, h⟩
  | e :: es, s, s', h, hrate, hj, hb, hrun => by
    simp only [List.map_cons, simple_particle_system.run] at hrun
    cases hp : s.process factory e with
    | none => simp [hp] at hrun
    | some s1 =>
      simp only [hp] at hrun
      obtain ⟨_, _, _, _, _, _, _, _, hb1, hinfo⟩ := process_some factory s s1 e hp
      have hsp := spawned_eq factory s s1 e h hp
      have hsum : spawn_sum (ticked_info s) s.spawn_buildup_ e = r + s.spawn_buildup_ := by
        rw [spawn_sum_no_jitter _ _ _ (by rw [ticked_spawn_rate_random]; exact hj),
          ticked_spawn_rate, hrate]
      rw [hsum] at hsp hb1
      have hnn : 0 ≤ r + s.spawn_buildup_ := by have := h.buildup_nonneg; omega
      have hacc1 := process_accounted factory s s1 e h hp
      have hb1lt : s1.spawn_buildup_ < 1000 := by
        rw [hb1]; exact Int.tmod_lt_of_pos _ (by decide)
      obtain ⟨T, hT, heq, h0, h1, h2, h3, h4⟩ := constant_rate_run factory r hr es s1 s' hacc1
        (by rw [hinfo, ticked_spawn_rate, hrate])
        (by rw [hinfo, ticked_spawn_rate_random]; exact hj) hb1lt hrun
      refine ⟨(Int.tdiv (r + s.spawn_buildup_) 1000).toNat + T, ?_, ?_, h0, h1, h2, h3, h4⟩
      · simp only [simple_particle_system.total_spawned, hsp, hp, hT]
      · have hdiv := Int.tdiv_nonneg hnn (by decide : (0 : Int) ≤ 1000)
        have hsplit := Int.tmod_add_tdiv (r + s.spawn_buildup_) 1000
        rw [← hb1] at hsplit
        simp only [List.length_cons]
        push_cast
        rw [Int.toNat_of_nonneg hdiv]
        linarith

/-- C3: for a constant spawn rate `r ≥ 0` without jitter, the state after `N`
`process` calls of a fresh emitter satisfies: the total number of particles
spawned by those calls is `floor(N*r/1000)` (so it differs from it by at most
1), the carry is `N*r mod 1000`, and the carry after any further call is the
previous carry plus `r`, modulo 1000.  With at least one animation the `N`
calls do reach a state. -/
theorem spawn_rate_accumulation (factory : simple_particle_system_factory)
    (es : List environment) (hr : 0 ≤ factory.info_.spawn_rate_)
    (hj : factory.info_.spawn_rate_random_ ≤ 0) :
    (∀ s, (simple_particle_system.create factory).run factory (es.map call.process) = some s →
      ∃ T : Nat, (simple_particle_system.create factory).total_spawned factory es = some T ∧
        |(T : Int) - (es.length : Int) * factory.info_.spawn_rate_ / 1000| ≤ 1 ∧
        (T : Int) = (es.length : Int) * factory.info_.spawn_rate_ / 1000 ∧
        s.spawn_buildup_ = (es.length : Int) * factory.info_.spawn_rate_ % 1000 ∧
        ∀ e s', s.process factory e = some s' →
          s'.spawn_buildup_ = (s.spawn_buildup_ + factory.info_.spawn_rate_) % 1000) ∧
    (factory.frames_ ≠ [] →
      ∃ s, (simple_particle_system.create factory).run factory (es.map call.process) =
        some s) := by
  refine ⟨fun s hs => ?_, fun hf => ?_⟩
  · obtain ⟨T, hT, heq, h0, h1, hrate, hjit, hacc⟩ :=
      constant_rate_run factory factory.info_.spawn_rate_ hr es _ s
        (create_accounted factory hr) rfl hj (by simp [simple_particle_system.create]) hs
    simp only [simple_particle_system.create, zero_add] at heq
    generalize (es.length : Int) * factory.info_.spawn_rate_ = X at heq ⊢
    have hTX : (T : Int) = X / 1000 := by omega
    refine ⟨T, hT, ?_, hTX, by omega, fun e s' hp => ?_⟩
    · rw [hTX]; simp
    · obtain ⟨_, _, _, _, _, _, _, _, hb1, _⟩ := process_some factory s s' e hp
      rw [hb1, spawn_sum_no_jitter _ _ _ (by rw [ticked_spawn_rate_random]; exact hjit),
        ticked_spawn_rate, hrate, add_comm]
      exact Int.tmod_eq_emod (by omega) (by decide)
  · refine run_isSome factory hf _ _ (create_accounted factory hr) ?_
    intro c hc
    obtain ⟨e, _, rfl⟩ := List.mem_map.mp hc
    trivial

/-- C3 at rate 1500 without jitter, over three calls. -/
theorem spawn_rate_accumulation_witness :
    (0 ≤ sample_factory.info_.spawn_rate_ ∧ sample_factory.info_.spawn_rate_random_ ≤ 0 ∧
      sample_factory.frames_ ≠ []) ∧
    ((∀ s, (simple_particle_system.create sample_factory).run sample_factory
        ([still_environment, still_environment, still_environment].map call.process) = some s →
      ∃ T : Nat, (simple_particle_system.create sample_factory).total_spawned sample_factory
          [still_environment, still_environment, still_environment] = some T ∧
        |(T : Int) - ([still_environment, still_environment, still_environment].length : Int) *
          sample_factory.info_.spawn_rate_ / 1000| ≤ 1 ∧
        (T : Int) = ([still_environment, still_environment, still_environment].length : Int) *
          sample_factory.info_.spawn_rate_ / 1000 ∧
        s.spawn_buildup_ = ([still_environment, still_environment, still_environment].length : Int)
          * sample_factory.info_.spawn_rate_ % 1000 ∧
        ∀ e s', s.process sample_factory e = some s' →
          s'.spawn_buildup_ = (s.spawn_buildup_ + sample_factory.info_.spawn_rate_) % 1000) ∧
    (sample_factory.frames_ ≠ [] →
      ∃ s, (simple_particle_system.create sample_factory).run sample_factory
        ([still_environment, still_environment, still_environment].map call.process) =
        some s)) :=
  ⟨⟨by decide, by decide, by decide⟩,
    spawn_rate_accumulation sample_factory [still_environment, still_environment, still_environment]
      (by decide) (by decide)⟩

/-! ## Steady state -/

theorem expire_suffix (cycle ttl : Int) : ∀ (gs gs' : List generation) (ps ps' : List particle),
    expire cycle ttl gs ps = some (gs', ps') → gs' <:+ gs
  | [], gs', ps, ps', h => by
    simp only [expire, Option.some.injEq, Prod.mk.injEq] at h
    rw [← h.1]
  | g :: gs, gs', ps, ps', h => by
    simp only [expire] at h
    split at h
    · split at h
      · exact List.IsSuffix.trans (expire_suffix cycle ttl gs gs' _ ps' h) (List.suffix_cons g gs)
      · simp at h
    · simp only [Option.some.injEq, Prod.mk.injEq] at h
      rw [← h.1]

/-- A property kept by every returning `process` call holds after any run of
`process` calls. -/
theorem run_process_invariant (factory : simple_particle_system_factory)
    (P : simple_particle_system → Prop)
    (hprocess : ∀ s e s', P s → s.process factory e = some s' → P s') :
    ∀ (es : List environment) (s s' : simple_particle_system), P s →
      s.run factory (es.map call.process) = some s' → P s'
  | [], s, s', h, hr => by
    simp only [List.map_nil, simple_particle_system.run, Option.some.injEq] at hr
    subst hr; exact h
  | e :: es, s, s', h, hr => by
    simp only [List.map_cons, simple_particle_system.run] at hr
    cases hp : s.process factory e with
    | none => simp [hp] at hr
    | some s1 =>
      simp only [hp] at hr
      exact run_process_invariant factory P hprocess es s1 s' (hprocess s e s1 h hp) hr

theorem process_unit_rate (factory : simple_particle_system_factory)
    (s : simple_particle_system) (e : environment) (s' : simple_particle_system)
    (h : unit_rate s) (hp : s.process factory e = some s') : unit_rate s' := by
  obtain ⟨gens, ps, ps1, he, _, _, hg, _, hb, hinfo⟩ := process_some factory s s' e hp
  obtain ⟨hrate, hj, hbuild, hmem⟩ := h
  have hsum : spawn_sum (ticked_info s) s.spawn_buildup_ e = 1000 := by
    rw [spawn_sum_no_jitter _ _ _ (by rw [ticked_spawn_rate_random, hj]),
      ticked_spawn_rate, hrate, hbuild]
    rfl
  rw [hsum] at hg hb
  refine ⟨by rw [hinfo, ticked_spawn_rate, hrate], by rw [hinfo, ticked_spawn_rate_random, hj],
    by rw [hb]; rfl, fun g hgm => ?_⟩
  rw [hg] at hgm
  rcases List.mem_append.mp hgm with hgm | hgm
  · exact hmem g ((expire_suffix _ _ _ _ _ _ he).subset hgm)
  · simp only [List.mem_singleton] at hgm
    subst hgm
    rfl

theorem total_members_unit : ∀ (gs : List generation), (∀ g ∈ gs, g.members = 1) →
    total_members gs = gs.length
  | [], _ => rfl
  | g :: gs, h => by
    rw [total_members_cons, h g (List.mem_cons_self g gs),
      total_members_unit gs (fun x hx => h x (List.mem_cons_of_mem g hx))]
    simp only [List.length_cons, Nat.cast_add, Nat.cast_one]
    omega

theorem length_tick_range (lo hi : Int) : (tick_range lo hi).length = (hi + 1 - lo).toNat := by
  rw [tick_range, length_ticks_from]

/-- C4: with spawn rate 1000, no jitter, lifetime 50 and at least one animation,
`n` `process` calls on a fresh emitter return a state whose particle buffer has
length `min n 50`, whatever the entity positions and random draws; so the
length is 50 after 50 calls and still 50 after the 51st. -/
theorem steady_state_length (factory : simple_particle_system_factory) (es : List environment)
    (hrate : factory.info_.spawn_rate_ = 1000) (hj : factory.info_.spawn_rate_random_ = 0)
    (httl : factory.info_.time_to_live_ = 50) (hf : factory.frames_ ≠ []) :
    ∃ s, (simple_particle_system.create factory).run factory (es.map call.process) = some s ∧
      s.particles_.length = min es.length 50 ∧
      (es.length = 50 ∨ es.length = 51 → s.particles_.length = 50) := by
  have hr0 : 0 ≤ factory.info_.spawn_rate_ := by omega
  have hcalls : ∀ c ∈ es.map call.process, c.rate_nonneg := by
    intro c hc
    obtain ⟨e, _, rfl⟩ := List.mem_map.mp hc
    trivial
  obtain ⟨s, hs⟩ := run_isSome factory hf _ _ (create_accounted factory hr0) hcalls
  have hacc := run_accounted factory _ _ s (create_accounted factory hr0) hcalls hs
  have hq : queue_ticks 50 s :=
    run_process_invariant factory (queue_ticks 50)
      (fun s e s' h hp => process_queue_ticks factory 50 (by decide) s e s' h hp) es _ s
      (httl ▸ create_queue_ticks factory) hs
  have hu : unit_rate s :=
    run_process_invariant factory unit_rate (process_unit_rate factory) es _ s
      ⟨hrate, hj, rfl, by simp [simple_particle_system.create]⟩ hs
  have hcy := run_cycle factory _ _ s hs
  have hcount : ∀ l : List environment, process_count (l.map call.process) = l.length := by
    intro l
    induction l with
    | nil => rfl
    | cons a l ih => simp [process_count, ih]
  rw [hcount] at hcy
  simp only [simple_particle_system.create, zero_add] at hcy
  have hlen : (s.particles_.length : Int) = (s.generations_.length : Int) := by
    rw [← hacc.total, total_members_unit _ hu.2.2.2]
  have hgl : s.generations_.length = (s.cycle_ + 1 - max 1 (s.cycle_ - 50 + 1)).toNat := by
    rw [← length_tick_range, ← hq.2.2, List.length_map]
  have hmain : s.particles_.length = min es.length 50 := by omega
  exact ⟨s, hs, hmain, fun h => by omega⟩

/-- C4 at a factory with one animation, after 51 calls. -/
theorem steady_state_length_witness :
    (steady_factory.info_.spawn_rate_ = 1000 ∧ steady_factory.info_.spawn_rate_random_ = 0 ∧
      steady_factory.info_.time_to_live_ = 50 ∧ steady_factory.frames_ ≠ []) ∧
    ∃ s, (simple_particle_system.create steady_factory).run steady_factory
        ((List.replicate 51 still_environment).map call.process) = some s ∧
      s.particles_.length =
        min (List.replicate 51 still_environment).length 50 ∧
      ((List.replicate 51 still_environment).length = 50 ∨
        (List.replicate 51 still_environment).length = 51 →
        s.particles_.length = 50) :=
  ⟨⟨by decide, by decide, by decide, by decide⟩,
    steady_state_length steady_factory (List.replicate 51 still_environment)
      (by decide) (by decide) (by decide) (by decide)⟩

/-! ## Animation atlas -/

theorem length_build_rects (base : rect) (pad nframes_per_row : Int) :
    ∀ (k : Nat) (row col : Int), (build_rects base pad nframes_per_row k row col).length = k
  | 0, _, _ => rfl
  | k + 1, row, col => by
    simp only [build_rects, List.length_cons]
    split <;> simp [length_build_rects base pad nframes_per_row k]

theorem clamp_nframes_pos (frames : Int) : 1 ≤ clamp_nframes frames := by
  unfold clamp_nframes
  split <;> omega

/-- The constructor builds `frames` frames, or one frame when `frames < 1`. -/
theorem length_frames_create (node : animation_node) :
    (particle_animation.create node).frames_.length = clamp_nframes node.frames := by
  simp [particle_animation.create, length_build_rects]

/-- The index computed by `get_frame`, for a positive duration and at least one
frame, is the floor quotient clamped to the positions of the frame list. -/
theorem frame_index_eq (a : particle_animation) (t : Int) (hd : 1 ≤ a.duration_)
    (hn : a.frames_ ≠ []) :
    a.frame_index t = some (min (max (t / a.duration_) 0) ((a.frames_.length : Int) - 1)) := by
  have hlen : 0 < a.frames_.length := List.length_pos.mpr hn
  have hd0 : a.duration_ ≠ 0 := by omega
  unfold particle_animation.frame_index
  rw [if_neg hd0]
  by_cases ht : 0 ≤ t
  · have hq : Int.tdiv t a.duration_ = t / a.duration_ := Int.tdiv_eq_ediv ht (by omega)
    have hq0 : 0 ≤ t / a.duration_ := Int.ediv_nonneg ht (by omega)
    simp only [hq]
    rw [if_neg (by omega)]
    split
    · congr 1; omega
    · congr 1; omega
  · have hneg : t / a.duration_ < 0 := Int.ediv_neg' (by omega) (by omega)
    have hq : Int.tdiv t a.duration_ ≤ 0 := by
      have h1 : Int.tdiv t a.duration_ = -(Int.tdiv (-t) a.duration_) := by
        rw [Int.neg_tdiv, neg_neg]
      have h2 : 0 ≤ Int.tdiv (-t) a.duration_ := Int.tdiv_nonneg (by omega) (by omega)
      omega
    simp only []
    split
    · congr 1; omega
    · rw [if_neg (by omega)]
      congr 1; omega

/-- C8: for an atlas built by the constructor with a duration `d ≥ 1`, and every
integer `t`, `get_frame t` returns the frame at index
`min (max (floor (t / d)) 0) (frameCount - 1)`; the index is a position of the
frame list, which holds `frames` frames, or one when `frames` is below 1. -/
theorem get_frame_clamped (node : animation_node) (t : Int) (hd : 1 ≤ node.duration) :
    ∃ f, (particle_animation.create node).get_frame t = some f ∧
      (particle_animation.create node).frames_[(min (max (t / node.duration) 0)
        (((particle_animation.create node).frames_.length : Int) - 1)).toNat]? = some f ∧
      0 ≤ min (max (t / node.duration) 0)
        (((particle_animation.create node).frames_.length : Int) - 1) ∧
      min (max (t / node.duration) 0)
        (((particle_animation.create node).frames_.length : Int) - 1) <
          ((particle_animation.create node).frames_.length : Int) ∧
      (particle_animation.create node).frames_.length =
        (if node.frames < 1 then 1 else node.frames.toNat) ∧
      1 ≤ (particle_animation.create node).frames_.length := by
  have hlen := length_frames_create node
  have hpos := clamp_nframes_pos node.frames
  have hn : (particle_animation.create node).frames_ ≠ [] := by
    apply List.ne_nil_of_length_pos
    omega
  have hidx := frame_index_eq (particle_animation.create node) t hd hn
  have hdur : (particle_animation.create node).duration_ = node.duration := rfl
  rw [hdur] at hidx
  have h0 : 0 ≤ min (max (t / node.duration) 0)
      (((particle_animation.create node).frames_.length : Int) - 1) := by omega
  have h1 : min (max (t / node.duration) 0)
      (((particle_animation.create node).frames_.length : Int) - 1) <
        ((particle_animation.create node).frames_.length : Int) := by omega
  have hget : ∃ f, (particle_animation.create node).frames_[(min (max (t / node.duration) 0)
      (((particle_animation.create node).frames_.length : Int) - 1)).toNat]? = some f := by
    have hlt : (min (max (t / node.duration) 0)
      (((particle_animation.create node).frames_.length : Int) - 1)).toNat <
        (particle_animation.create node).frames_.length := by omega
    exact ⟨_, List.getElem?_eq_getElem hlt⟩
  obtain ⟨f, hf⟩ := hget
  refine ⟨f, ?_, hf, h0, h1, ?_, by omega⟩
  · simp only [particle_animation.get_frame, hidx]
    rw [if_neg (by omega)]
    exact hf
  · rw [hlen]; rfl

/-- C7: for an atlas of `n ≥ 1` frames shown `d ≥ 1` ticks each and every
`t ≥ n*d`, `get_frame t` and `get_frame (n*d - 1)` both return the last frame. -/
theorem get_frame_freeze (a : particle_animation) (t : Int) (hd : 1 ≤ a.duration_)
    (hn : a.frames_ ≠ []) (ht : (a.frames_.length : Int) * a.duration_ ≤ t) :
    a.get_frame t = a.get_frame ((a.frames_.length : Int) * a.duration_ - 1) ∧
      a.get_frame t = a.frames_.getLast? ∧ ∃ f, a.get_frame t = some f := by
  have hlen : 0 < a.frames_.length := List.length_pos.mpr hn
  have hdpos : 0 < a.duration_ := by omega
  have h1 : (a.frames_.length : Int) ≤ t / a.duration_ :=
    (Int.le_ediv_iff_mul_le hdpos).mpr ht
  have h2 : ((a.frames_.length : Int) * a.duration_ - 1) / a.duration_ =
      (a.frames_.length : Int) - 1 := by
    have hlo : (a.frames_.length : Int) - 1 ≤
        ((a.frames_.length : Int) * a.duration_ - 1) / a.duration_ := by
      apply (Int.le_ediv_iff_mul_le hdpos).mpr
      nlinarith
    have hhi : ((a.frames_.length : Int) * a.duration_ - 1) / a.duration_ <
        (a.frames_.length : Int) := by
      apply (Int.ediv_lt_iff_lt_mul hdpos).mpr
      omega
    omega
  have hlast : a.frames_[((a.frames_.length : Int) - 1).toNat]? = a.frames_.getLast? := by
    rw [List.getLast?_eq_getElem?]
    congr 1
    omega
  have e1 : a.get_frame t = a.frames_.getLast? := by
    simp only [particle_animation.get_frame, frame_index_eq a t hd hn]
    rw [if_neg (by omega), ← hlast]
    congr 2
    omega
  have e2 : a.get_frame ((a.frames_.length : Int) * a.duration_ - 1) = a.frames_.getLast? := by
    simp only [particle_animation.get_frame, frame_index_eq a _ hd hn, h2]
    rw [if_neg (by omega), ← hlast]
    congr 2
    omega
  refine ⟨by rw [e1, e2], e1, ?_⟩
  rw [e1]
  exact ⟨a.frames_.getLast hn, List.getLast?_eq_getLast _ hn⟩

/-- C8 at a node of three frames of duration 4, for `t = -3`. -/
theorem get_frame_clamped_witness :
    (1 : Int) ≤ sample_node.duration ∧
    ∃ f, (particle_animation.create sample_node).get_frame (-3) = some f ∧
      (particle_animation.create sample_node).frames_[(min (max (-3 / sample_node.duration) 0)
        (((particle_animation.create sample_node).frames_.length : Int) - 1)).toNat]? = some f ∧
      0 ≤ min (max (-3 / sample_node.duration) 0)
        (((particle_animation.create sample_node).frames_.length : Int) - 1) ∧
      min (max (-3 / sample_node.duration) 0)
        (((particle_animation.create sample_node).frames_.length : Int) - 1) <
          ((particle_animation.create sample_node).frames_.length : Int) ∧
      (particle_animation.create sample_node).frames_.length =
        (if sample_node.frames < 1 then 1 else sample_node.frames.toNat) ∧
      1 ≤ (particle_animation.create sample_node).frames_.length :=
  ⟨by decide, get_frame_clamped sample_node (-3) (by decide)⟩

/-- C7 at the atlas of three frames of duration 4, for `t = 100`. -/
theorem get_frame_freeze_witness :
    ((1 : Int) ≤ (particle_animation.create sample_node).duration_ ∧
      (particle_animation.create sample_node).frames_ ≠ [] ∧
      (((particle_animation.create sample_node).frames_.length : Int) *
        (particle_animation.create sample_node).duration_ ≤ 100)) ∧
    ((particle_animation.create sample_node).get_frame 100 =
        (particle_animation.create sample_node).get_frame
          (((particle_animation.create sample_node).frames_.length : Int) *
            (particle_animation.create sample_node).duration_ - 1) ∧
      (particle_animation.create sample_node).get_frame 100 =
        (particle_animation.create sample_node).frames_.getLast? ∧
      ∃ f, (particle_animation.create sample_node).get_frame 100 = some f) :=
  ⟨⟨by decide, by decide, by decide⟩,
    get_frame_freeze (particle_animation.create sample_node) 100 (by decide) (by decide)
      (by decide)⟩

/-! ## Alpha fade -/

/-- C9 fails on the code: with `delta_a_ = 1`, the particle spawned by the first
`process` call belongs to a generation of age 0, for which the computed alpha is
`max (256 - 1 * 0) 0 = 256`; stored in the `GLbyte` colour array this is the
byte 0, so each of the six vertices is emitted with colour (255, 255, 255, 0)
when the array is read as unsigned bytes: the value has wrapped. -/
theorem alpha_fade_wraps_at_age_zero :
    ∃ s b, (simple_particle_system.create fade_factory).run fade_factory
        [call.process still_environment] = some s ∧
      s.draw plain_coords fade_factory draw_arrays.empty = some b ∧
      s.generations_ = [{ members := 1, created_at := 1 }] ∧ s.cycle_ = 1 ∧
      alpha_level fade_factory.info_.delta_a_ (s.cycle_ - 1) = 256 ∧
      b.carray.map as_unsigned_byte =
        [255, 255, 255, 0, 255, 255, 255, 0, 255, 255, 255, 0,
         255, 255, 255, 0, 255, 255, 255, 0, 255, 255, 255, 0] := by
  refine ⟨_, _, rfl, rfl, ?_, ?_, ?_, ?_⟩ <;> decide

/-! ## Gradient table of the point emitter -/

theorem length_pad_colors (cs : List Nat) : 2 ≤ (pad_colors cs).length := by
  match cs with
  | [] => simp [pad_colors]
  | [_] => simp [pad_colors]
  | _ :: _ :: _ => simp [pad_colors]

theorem length_colors_create (node : point_node) :
    2 ≤ (point_particle_info.create node).colors.length :=
  length_pad_colors _

theorem time_to_live_max_create (node : point_node) :
    (point_particle_info.create node).time_to_live_max =
      node.time_to_live_rand + node.time_to_live := rfl

/-- For a maximal lifetime within the non-negative `int` range the divisor the
constructor stores is the quotient by the number of colours less one. -/
theorem ttl_divisor_create (node : point_node)
    (h0 : 0 ≤ node.time_to_live_rand + node.time_to_live)
    (h1 : node.time_to_live_rand + node.time_to_live < 2147483648) :
    (point_particle_info.create node).ttl_divisor =
      (node.time_to_live_rand + node.time_to_live) /
        (((point_particle_info.create node).colors.length : Int) - 1) := by
  have hlen := length_colors_create node
  have hK : (0 : Int) ≤ ((point_particle_info.create node).colors.length : Int) - 1 := by omega
  have hq0 := Int.ediv_nonneg h0 hK
  have hq1 := Int.ediv_le_self (((point_particle_info.create node).colors.length : Int) - 1) h0
  have hs : to_size_t (node.time_to_live_rand + node.time_to_live) =
      node.time_to_live_rand + node.time_to_live := by
    unfold to_size_t; omega
  show to_int32 (to_size_t (node.time_to_live_rand + node.time_to_live) /
    (((point_particle_info.create node).colors.length : Int) - 1)) = _
  rw [hs]
  unfold to_int32
  omega

/-- C5, as stated, fails: with three colours and a lifetime of 3 the constructor
computes the divisor `3 / 2 = 1`, and `ttl = 3 = maxTTL` gives the index 3, which
is not a position of the three-entry table. -/
theorem gradient_index_out_of_range :
    (point_particle_info.create three_colour_node).time_to_live_max = 3 ∧
    (point_particle_info.create three_colour_node).colors.length = 3 ∧
    (point_particle_info.create three_colour_node).ttl_divisor = 1 ∧
    Int.tdiv 3 (point_particle_info.create three_colour_node).ttl_divisor = 3 ∧
    gradient_index (point_particle_info.create three_colour_node) 3 = none := by
  refine ⟨?_, ?_, ?_, ?_, ?_⟩ <;> decide

/-- With a divisor that is 0 the gradient lookup has no index. -/
theorem gradient_index_zero_divisor (info : point_particle_info) (ttl : Int)
    (hd : info.ttl_divisor = 0) : gradient_index info ttl = none := by
  unfold gradient_index
  rw [if_pos hd]

/-- With a positive divisor and `ttl ≥ 0` the gradient lookup has an index
exactly when the quotient is below the number of colours, and the index is the
quotient. -/
theorem gradient_index_some_iff (info : point_particle_info) (ttl : Int)
    (hd : 0 < info.ttl_divisor) (h0 : 0 ≤ ttl) :
    (∃ i, gradient_index info ttl = some i ∧ i < info.colors.length ∧
      (i : Int) = ttl / info.ttl_divisor) ↔
    ttl / info.ttl_divisor < (info.colors.length : Int) := by
  have hq : Int.tdiv ttl info.ttl_divisor = ttl / info.ttl_divisor :=
    Int.tdiv_eq_ediv h0 (le_of_lt hd)
  have hqn : 0 ≤ ttl / info.ttl_divisor := Int.ediv_nonneg h0 (le_of_lt hd)
  unfold gradient_index
  rw [if_neg (by omega)]
  simp only [hq]
  constructor
  · rintro ⟨i, hi, hlt, hval⟩
    omega
  · intro hlt
    refine ⟨(ttl / info.ttl_divisor).toNat, ?_, by omega, by omega⟩
    rw [if_pos ⟨hqn, hlt⟩]

/-- C5, amended: for a configuration whose `maxTTL = time_to_live +
time_to_live_rand` lies in the non-negative `int` range, with `n ≥ 2` the size
of the padded colour table and `ttlDivisor = maxTTL / (n - 1)`, every `ttl` in
`[0, maxTTL]` gives a valid index `ttl / ttlDivisor` exactly when
`maxTTL mod (n - 1) < maxTTL / (n - 1)`. -/
theorem gradient_index_valid_iff (node : point_node)
    (h0 : 0 ≤ node.time_to_live_rand + node.time_to_live)
    (h1 : node.time_to_live_rand + node.time_to_live < 2147483648) :
    2 ≤ (point_particle_info.create node).colors.length ∧
    (point_particle_info.create node).ttl_divisor =
      (point_particle_info.create node).time_to_live_max /
        (((point_particle_info.create node).colors.length : Int) - 1) ∧
    ((∀ ttl : Int, 0 ≤ ttl → ttl ≤ (point_particle_info.create node).time_to_live_max →
        ∃ i, gradient_index (point_particle_info.create node) ttl = some i ∧
          i < (point_particle_info.create node).colors.length ∧
          (i : Int) = ttl / (point_particle_info.create node).ttl_divisor) ↔
      (point_particle_info.create node).time_to_live_max %
          (((point_particle_info.create node).colors.length : Int) - 1) <
        (point_particle_info.create node).time_to_live_max /
          (((point_particle_info.create node).colors.length : Int) - 1)) := by
  have hlen := length_colors_create node
  have hd := ttl_divisor_create node h0 h1
  rw [time_to_live_max_create]
  refine ⟨hlen, hd, ?_⟩
  generalize point_particle_info.create node = info at hlen hd ⊢
  generalize hM : node.time_to_live_rand + node.time_to_live = M at h0 h1 hd ⊢
  have hK : (0 : Int) < (info.colors.length : Int) - 1 := by omega
  have hsplit := Int.ediv_add_emod M ((info.colors.length : Int) - 1)
  have hr0 := Int.emod_nonneg M (by omega : ((info.colors.length : Int) - 1) ≠ 0)
  have hq0 := Int.ediv_nonneg h0 (le_of_lt hK)
  constructor
  · intro h
    obtain ⟨i, hi, hlt, hval⟩ := h M h0 (le_refl M)
    by_cases hz : info.ttl_divisor = 0
    · rw [gradient_index_zero_divisor info M hz] at hi
      simp at hi
    · have hdpos : 0 < info.ttl_divisor := by omega
      have hqlt := (gradient_index_some_iff info M hdpos h0).mp ⟨i, hi, hlt, hval⟩
      have hlt2 := (Int.ediv_lt_iff_lt_mul hdpos).mp hqlt
      rw [hd] at hlt2
      nlinarith
  · intro hr ttl ht0 ht1
    have hdpos : 0 < info.ttl_divisor := by omega
    apply (gradient_index_some_iff info ttl hdpos ht0).mpr
    apply (Int.ediv_lt_iff_lt_mul hdpos).mpr
    rw [hd]
    nlinarith

/-- C5, amended, at two colours and a lifetime of 10. -/
theorem gradient_index_valid_iff_witness :
    (0 ≤ two_colour_node.time_to_live_rand + two_colour_node.time_to_live ∧
      two_colour_node.time_to_live_rand + two_colour_node.time_to_live < 2147483648) ∧
    (2 ≤ (point_particle_info.create two_colour_node).colors.length ∧
    (point_particle_info.create two_colour_node).ttl_divisor =
      (point_particle_info.create two_colour_node).time_to_live_max /
        (((point_particle_info.create two_colour_node).colors.length : Int) - 1) ∧
    ((∀ ttl : Int, 0 ≤ ttl →
        ttl ≤ (point_particle_info.create two_colour_node).time_to_live_max →
        ∃ i, gradient_index (point_particle_info.create two_colour_node) ttl = some i ∧
          i < (point_particle_info.create two_colour_node).colors.length ∧
          (i : Int) = ttl / (point_particle_info.create two_colour_node).ttl_divisor) ↔
      (point_particle_info.create two_colour_node).time_to_live_max %
          (((point_particle_info.create two_colour_node).colors.length : Int) - 1) <
        (point_particle_info.create two_colour_node).time_to_live_max /
          (((point_particle_info.create two_colour_node).colors.length : Int) - 1))) :=
  ⟨⟨by decide, by decide⟩, gradient_index_valid_iff two_colour_node (by decide) (by decide)⟩

/-! ## Spawn assertion and compaction of the point emitter -/

/-- C6 fails on the code: with five colours, `time_to_live = 2` and
`time_to_live_rand = 5` the divisor is `7 / 4 = 1`; the spawn assertion, made on
the base lifetime before the random extra lifetime is added, passes
(`2 / 1 = 2 < 5`), the first `process` call returns, and with a draw of 4 the
particle it leaves in the buffer has `ttl = 6`, whose index `6 / 1 = 6` is not a
position of the five-entry table read by `draw`. -/
theorem spawn_assertion_misses_extra_lifetime :
    ∃ s p, (point_particle_system.create (point_particle_info.create jitter_node)).process
        (point_particle_info.create jitter_node) four_environment = some s ∧
      s.particles_ = [p] ∧
      1 ≤ (point_particle_info.create jitter_node).ttl_divisor ∧
      0 ≤ (point_particle_info.create jitter_node).time_to_live ∧
      Int.tdiv (point_particle_info.create jitter_node).time_to_live
        (point_particle_info.create jitter_node).ttl_divisor <
          ((point_particle_info.create jitter_node).colors.length : Int) ∧
      (point_particle_info.create jitter_node).colors.length = 5 ∧
      p.ttl = 6 ∧
      Int.tdiv p.ttl (point_particle_info.create jitter_node).ttl_divisor = 6 ∧
      gradient_index (point_particle_info.create jitter_node) p.ttl = none := by
  refine ⟨_, _, rfl, rfl, ?_, ?_, ?_, ?_, ?_, ?_, ?_⟩ <;> decide

theorem jitter_ge (e : environment) (base bound : Int) (i : Nat) :
    base ≤ (jitter e base bound i).1 := by
  unfold jitter
  split
  · have : 0 ≤ Int.tmod (e.rand i : Int) bound := Int.tmod_nonneg _ (Int.ofNat_nonneg _)
    simp only
    omega
  · simp

/-- A particle is spawned with the base lifetime plus the drawn extra. -/
theorem spawn_point_particle_ttl (info : point_particle_info) (e : environment) (i j : Nat)
    (p : point_particle) (h : spawn_point_particle info e i = some (p, j)) :
    p.ttl = (jitter e info.time_to_live (info.time_to_live_max - info.time_to_live) i).1 := by
  unfold spawn_point_particle at h
  split at h
  · simp at h
  · simp only [Option.some.injEq, Prod.mk.injEq] at h
    obtain ⟨rfl, _⟩ := h
    rfl

theorem spawn_point_particle_isSome (info : point_particle_info) (e : environment) (i n : Nat)
    (h : gradient_index info info.time_to_live = some n) :
    ∃ r, spawn_point_particle info e i = some r := by
  unfold spawn_point_particle
  rw [h]
  exact ⟨_, rfl⟩

/-- The spawn loop appends particles whose lifetime is at least the base
lifetime, and leaves a carry below 1000. -/
theorem point_spawn_loop_spec (info : point_particle_info) (e : environment) :
    ∀ (fuel : Nat) (pg : Int) (i : Nat) (ps : List point_particle) (pg' : Int)
      (ps' : List point_particle),
      point_spawn_loop info e fuel pg i ps = some (pg', ps') →
      pg' < 1000 ∧ ∃ fresh, ps' = ps ++ fresh ∧ ∀ p ∈ fresh, info.time_to_live ≤ p.ttl
  | 0, pg, i, ps, pg', ps', h => by
    simp only [point_spawn_loop] at h
    split at h
    · simp at h
    · simp only [Option.some.injEq, Prod.mk.injEq] at h
      obtain ⟨rfl, rfl⟩ := h
      exact ⟨by omega, [], by simp, by simp⟩
  | fuel + 1, pg, i, ps, pg', ps', h => by
    simp only [point_spawn_loop] at h
    split at h
    · cases hp : spawn_point_particle info e i with
      | none => simp [hp] at h
      | some r =>
        obtain ⟨p, j⟩ := r
        simp only [hp] at h
        obtain ⟨hlt, fresh, hps, hfresh⟩ :=
          point_spawn_loop_spec info e fuel (pg - 1000) j (ps ++ [p]) pg' ps' h
        refine ⟨hlt, p :: fresh, by simp [hps], ?_⟩
        intro q hq
        rcases List.mem_cons.mp hq with rfl | hq
        · rw [spawn_point_particle_ttl info e i j q hp]
          exact jitter_ge e _ _ i
        · exact hfresh q hq
    · simp only [Option.some.injEq, Prod.mk.injEq] at h
      obtain ⟨rfl, rfl⟩ := h
      exact ⟨by omega, [], by simp, by simp⟩

/-- With the spawn assertion passing, fuel of at least the accumulator is
enough for the spawn loop to finish. -/
theorem point_spawn_loop_isSome (info : point_particle_info) (e : environment) (n : Nat)
    (hassert : gradient_index info info.time_to_live = some n) :
    ∀ (fuel : Nat) (pg : Int) (i : Nat) (ps : List point_particle), pg ≤ fuel →
      ∃ r, point_spawn_loop info e fuel pg i ps = some r
  | 0, pg, i, ps, h => by
    simp only [point_spawn_loop]
    rw [if_neg (by simp at h; omega)]
    exact ⟨_, rfl⟩
  | fuel + 1, pg, i, ps, h => by
    simp only [point_spawn_loop]
    split
    · obtain ⟨⟨p, j⟩, hp⟩ := spawn_point_particle_isSome info e i n hassert
      simp only [hp]
      exact point_spawn_loop_isSome info e n hassert fuel (pg - 1000) j (ps ++ [p])
        (by push_cast at h; omega)
    · exact ⟨_, rfl⟩

/-- C10, as stated, fails: with a lifetime of one tick the particle spawned by
the first `process` call has `ttl = 1`, passes the filter of the second call
and is then decremented, so after the second call the buffer holds a particle
with `ttl = 0`. -/
theorem dead_particle_remains_after_process :
    1 ≤ (point_particle_info.create short_lived_node).time_to_live ∧
    ∃ s p, (point_particle_system.create (point_particle_info.create short_lived_node)).run
        (point_particle_info.create short_lived_node)
        [still_environment, still_environment] = some s ∧
      p ∈ s.particles_ ∧ p.ttl = 0 ∧ p.ttl ≤ 0 := by
  refine ⟨by decide, _, _, rfl, List.mem_cons_self _ _, ?_, ?_⟩ <;> decide

/-- C10, amended: for a configuration with `time_to_live ≥ 1`, a `process` call
removes the particles whose `ttl` was at most 0 before the call, decrements
the `ttl` of the others and appends the new particles with a `ttl` of at least
`time_to_live`; so after every `process` call no particle with `ttl < 0`
remains, and the survivors keep their order.  The call returns whenever the
spawn assertion on the base lifetime holds. -/
theorem dead_particle_compaction (info : point_particle_info) (s : point_particle_system)
    (e : environment) (httl : 1 ≤ info.time_to_live) :
    (∀ s', s.process info e = some s' →
      (∃ fresh, s'.particles_ =
          (s.particles_.filter (fun p => decide (0 < p.ttl))).map (point_step info) ++ fresh ∧
        ∀ p ∈ fresh, 1 ≤ p.ttl) ∧
      ∀ p ∈ s'.particles_, 0 ≤ p.ttl) ∧
    ((∃ n, gradient_index info info.time_to_live = some n) →
      ∃ s', s.process info e = some s') := by
  have hfilter : s.particles_.filter (fun p => !particle_destroyed p) =
      s.particles_.filter (fun p => decide (0 < p.ttl)) := by
    congr 1
    funext p
    simp only [particle_destroyed]
    by_cases h : 0 < p.ttl
    · have h2 : ¬ p.ttl ≤ 0 := by omega
      simp [h, h2]
    · have h2 : p.ttl ≤ 0 := by omega
      simp [h, h2]
  constructor
  · intro s' hp
    unfold point_particle_system.process at hp
    simp only [] at hp
    split at hp
    · rename_i pg' ps' hloop
      simp only [Option.some.injEq] at hp
      subst hp
      obtain ⟨_, fresh, hps, hfresh⟩ := point_spawn_loop_spec info e _ _ _ _ _ _ hloop
      rw [hfilter] at hps
      have h1 : ∀ p ∈ fresh, 1 ≤ p.ttl := fun p hpm => le_trans httl (hfresh p hpm)
      refine ⟨⟨fresh, hps, h1⟩, ?_⟩
      intro p hpm
      simp only [hps, List.mem_append, List.mem_map, List.mem_filter, decide_eq_true_eq] at hpm
      rcases hpm with ⟨q, ⟨_, hq⟩, rfl⟩ | hpm
      · simp only [point_step]
        omega
      · have := h1 p hpm
        omega
    · simp at hp
  · rintro ⟨n, hn⟩
    obtain ⟨⟨pg', ps'⟩, hloop⟩ := point_spawn_loop_isSome info e n hn
      (s.particle_generation_ + s.generation_rate_millis_).toNat
      (s.particle_generation_ + s.generation_rate_millis_) 0
      ((s.particles_.filter (fun p => !particle_destroyed p)).map (point_step info))
      (Int.self_le_toNat _)
    simp only [point_particle_system.process, hloop, Option.some.injEq, exists_eq']

/-- C10, amended, at a lifetime of one tick, for a state holding one particle
with one tick left. -/
theorem dead_particle_compaction_witness :
    (1 ≤ (point_particle_info.create short_lived_node).time_to_live ∧
      gradient_index (point_particle_info.create short_lived_node)
        (point_particle_info.create short_lived_node).time_to_live = some 1) ∧
    ((∀ s', last_tick_system.process (point_particle_info.create short_lived_node)
        still_environment = some s' →
      (∃ fresh, s'.particles_ =
          (last_tick_system.particles_.filter (fun p => decide (0 < p.ttl))).map
            (point_step (point_particle_info.create short_lived_node)) ++ fresh ∧
        ∀ p ∈ fresh, 1 ≤ p.ttl) ∧
      ∀ p ∈ s'.particles_, 0 ≤ p.ttl) ∧
    ((∃ n, gradient_index (point_particle_info.create short_lived_node)
        (point_particle_info.create short_lived_node).time_to_live = some n) →
      ∃ s', last_tick_system.process (point_particle_info.create short_lived_node)
        still_environment = some s')) :=
  ⟨⟨by decide, by decide⟩,
    dead_particle_compaction (point_particle_info.create short_lived_node)
    last_tick_system still_environment (by decide)⟩

/-! ## Termination predicate and lifetime counter -/

/-- C11: in every state, `is_destroyed` is true exactly when the system-lifetime
counter is 0, or the spawn rate is 0 and the particle buffer is empty. -/
theorem is_destroyed_iff (s : simple_particle_system) :
    s.is_destroyed = true ↔
      (s.info_.system_time_to_live_ = 0 ∨
        (s.info_.spawn_rate_ = 0 ∧ s.particles_ = [])) := by
  simp [simple_particle_system.is_destroyed, List.isEmpty_iff]

/-- C12, as stated, fails: a fresh emitter whose system-lifetime counter is
unset (-1) has the counter at -2 after its first `process` call, not at -1. -/
theorem unset_lifetime_counter_is_decremented :
    (simple_particle_system.create steady_factory).info_.system_time_to_live_ = -1 ∧
    ∃ s, (simple_particle_system.create steady_factory).process steady_factory
        still_environment = some s ∧
      s.info_.system_time_to_live_ = -2 ∧ s.info_.system_time_to_live_ ≠ -1 := by
  refine ⟨by decide, _, rfl, ?_, ?_⟩ <;> decide

/-- The lifetime counter after a run of `process` calls is the counter at the
start less the number of calls. -/
theorem run_system_time_to_live (factory : simple_particle_system_factory) :
    ∀ (es : List environment) (s s' : simple_particle_system),
      s.run factory (es.map call.process) = some s' →
      s'.info_.system_time_to_live_ = s.info_.system_time_to_live_ - es.length
  | [], s, s', h => by
    simp only [List.map_nil, simple_particle_system.run, Option.some.injEq] at h
    subst h; simp
  | e :: es, s, s', h => by
    simp only [List.map_cons, simple_particle_system.run] at h
    cases hp : s.process factory e with
    | none => simp [hp] at h
    | some s1 =>
      simp only [hp] at h
      obtain ⟨_, _, _, _, _, _, _, _, _, hinfo⟩ := process_some factory s s1 e hp
      rw [run_system_time_to_live factory es s1 s' h, hinfo]
      simp only [ticked_info, List.length_cons, Nat.cast_add, Nat.cast_one]
      omega

/-- C12, amended: every `process` call that returns decrements the
system-lifetime counter by exactly 1, whatever its value, and changes no other
field of the configuration; a counter that is negative at the start (the unset
value -1 included) is `start - n` after `n` calls, so it stays negative and
never equals 0. -/
theorem lifetime_counter_decrement (factory : simple_particle_system_factory)
    (s s' : simple_particle_system) (e : environment)
    (hp : s.process factory e = some s') :
    s'.info_.system_time_to_live_ = s.info_.system_time_to_live_ - 1 ∧
    s'.info_ = { s.info_ with system_time_to_live_ := s.info_.system_time_to_live_ - 1 } ∧
    ∀ (es : List environment) (s'' : simple_particle_system),
      s.info_.system_time_to_live_ < 0 →
      s.run factory (es.map call.process) = some s'' →
      s''.info_.system_time_to_live_ = s.info_.system_time_to_live_ - es.length ∧
      s''.info_.system_time_to_live_ < 0 ∧ s''.info_.system_time_to_live_ ≠ 0 := by
  obtain ⟨_, _, _, _, _, _, _, _, _, hinfo⟩ := process_some factory s s' e hp
  refine ⟨by rw [hinfo]; rfl, by rw [hinfo]; rfl, fun es s'' hneg hrun => ?_⟩
  have h := run_system_time_to_live factory es s s'' hrun
  have hlen : (0 : Int) ≤ es.length := Int.ofNat_nonneg _
  exact ⟨h, by omega, by omega⟩

/-- C12, amended, at a fresh emitter with the counter unset. -/
theorem lifetime_counter_decrement_witness :
    ∃ s', (simple_particle_system.create steady_factory).process steady_factory
        still_environment = some s' ∧
      (s'.info_.system_time_to_live_ =
          (simple_particle_system.create steady_factory).info_.system_time_to_live_ - 1 ∧
        s'.info_ = { (simple_particle_system.create steady_factory).info_ with
          system_time_to_live_ :=
            (simple_particle_system.create steady_factory).info_.system_time_to_live_ - 1 } ∧
        ∀ (es : List environment) (s'' : simple_particle_system),
          (simple_particle_system.create steady_factory).info_.system_time_to_live_ < 0 →
          (simple_particle_system.create steady_factory).run steady_factory
            (es.map call.process) = some s'' →
          s''.info_.system_time_to_live_ =
            (simple_particle_system.create steady_factory).info_.system_time_to_live_ -
              es.length ∧
          s''.info_.system_time_to_live_ < 0 ∧ s''.info_.system_time_to_live_ ≠ 0) :=
  ⟨_, rfl, lifetime_counter_decrement steady_factory _ _ still_environment rfl⟩

/-! ## Draw batch of the point emitter -/

/-- A value in the range of `GLshort` is stored unchanged. -/
theorem to_GLshort_of_range (q : Int) (h0 : -32768 ≤ q) (h1 : q ≤ 32767) : to_GLshort q = q := by
  unfold to_GLshort
  omega

/-- The draw loop returns when every particle has a colour, and then writes two
coordinates and one colour for every particle, in buffer order. -/
theorem point_draw_loop_spec (info : point_particle_info) :
    ∀ (ps : List point_particle), (∀ p ∈ ps, ∃ c, gradient_color info p.ttl = some c) →
      ∃ a, point_draw_loop info ps = some a ∧
        a.vertex.length = 2 * ps.length ∧ a.colors.length = ps.length ∧
        ∀ (i : Nat) (p : point_particle), ps[i]? = some p →
          a.vertex[2 * i]? = some (to_GLshort (Int.tdiv p.pos_x 1024)) ∧
          a.vertex[2 * i + 1]? = some (to_GLshort (Int.tdiv p.pos_y 1024)) ∧
          (a.colors[i]?) = gradient_color info p.ttl ∧
          ∃ c, a.colors[i]? = some c
  | [], _ => ⟨{ vertex := [], colors := [] }, rfl, rfl, rfl, by simp⟩
  | q :: ps, h => by
    obtain ⟨c, hc⟩ := h q (List.mem_cons_self q ps)
    obtain ⟨rest, hrest, hv, hcl, hidx⟩ :=
      point_draw_loop_spec info ps (fun p hp => h p (List.mem_cons_of_mem q hp))
    refine ⟨{ vertex := to_GLshort (Int.tdiv q.pos_x 1024) ::
                to_GLshort (Int.tdiv q.pos_y 1024) :: rest.vertex
              colors := c :: rest.colors },
      by simp only [point_draw_loop, hc, hrest], ?_, ?_, ?_⟩
    · simp only [List.length_cons, hv]; omega
    · simp only [List.length_cons, hcl]
    · intro i p hp
      cases i with
      | zero =>
        simp only [List.getElem?_cons_zero, Option.some.injEq] at hp
        subst hp
        simp [hc]
      | succ j =>
        simp only [List.getElem?_cons_succ] at hp
        obtain ⟨h1, h2, h3, h4⟩ := hidx j p hp
        have e1 : 2 * (j + 1) = (2 * j + 1) + 1 := by omega
        have e2 : 2 * (j + 1) + 1 = ((2 * j + 1) + 1) + 1 := by omega
        refine ⟨?_, ?_, ?_, ?_⟩
        · rw [e1]; simpa using h1
        · rw [e2]; simpa using h2
        · simpa using h3
        · simpa using h4

/-- C13, as stated, fails: for a particle at `pos_x = 32768 * 1024` the quotient
`pos_x / 1024` is 32768, but the vertex array holds `GLshort` values and the
coordinate emitted is -32768. -/
theorem point_vertex_wraps_beyond_short :
    ∃ a p, far_point_system.draw (point_particle_info.create two_colour_node)
        point_arrays.empty = some a ∧
      far_point_system.particles_ = [p] ∧
      Int.tdiv p.pos_x 1024 = 32768 ∧ a.vertex[0]? = some (-32768) ∧
      a.vertex[0]? ≠ some (Int.tdiv p.pos_x 1024) := by
  refine ⟨_, _, rfl, rfl, ?_, ?_, ?_⟩ <;> decide

/-- C13, amended: when every particle of the buffer has its gradient index
`ttl / ttl_divisor` in bounds, `draw` returns; for a non-empty buffer of `k`
particles it leaves `2 * k` coordinates and `k` colours in the staging vectors
and draws `k` points, where in buffer order the coordinates of the `i`-th
particle are `pos_x / 1024` and `pos_y / 1024` (truncated towards zero) stored
as `GLshort`, which is the quotient itself when it lies in `-32768 .. 32767`,
and its colour is `colors[ttl / ttl_divisor]`; for an empty buffer the staging
vectors are left as they were and nothing is drawn. -/
theorem point_draw_batch (info : point_particle_info) (s : point_particle_system)
    (before : point_arrays)
    (hcol : ∀ p ∈ s.particles_, ∃ c, gradient_color info p.ttl = some c) :
    ∃ a, s.draw info before = some a ∧
      (s.particles_ = [] → a = before ∧ s.drawn_points = none) ∧
      (s.particles_ ≠ [] →
        s.drawn_points = some s.particles_.length ∧
        a.vertex.length = 2 * s.particles_.length ∧
        a.colors.length = s.particles_.length ∧
        ∀ (i : Nat) (p : point_particle), s.particles_[i]? = some p →
          a.vertex[2 * i]? = some (to_GLshort (Int.tdiv p.pos_x 1024)) ∧
          a.vertex[2 * i + 1]? = some (to_GLshort (Int.tdiv p.pos_y 1024)) ∧
          (-32768 ≤ Int.tdiv p.pos_x 1024 → Int.tdiv p.pos_x 1024 ≤ 32767 →
            a.vertex[2 * i]? = some (Int.tdiv p.pos_x 1024)) ∧
          (-32768 ≤ Int.tdiv p.pos_y 1024 → Int.tdiv p.pos_y 1024 ≤ 32767 →
            a.vertex[2 * i + 1]? = some (Int.tdiv p.pos_y 1024)) ∧
          (a.colors[i]?) = gradient_color info p.ttl ∧
          ∃ c, a.colors[i]? = some c) := by
  by_cases hemp : s.particles_ = []
  · refine ⟨before, by simp [point_particle_system.draw, hemp], fun _ => ⟨rfl, ?_⟩,
      fun h => absurd hemp h⟩
    simp [point_particle_system.drawn_points, hemp]
  · obtain ⟨a, ha, hv, hc, hidx⟩ := point_draw_loop_spec info s.particles_ hcol
    refine ⟨a, by simp [point_particle_system.draw, hemp, ha], fun h => absurd h hemp,
      fun _ => ⟨by simp [point_particle_system.drawn_points, hemp], hv, hc, ?_⟩⟩
    intro i p hp
    obtain ⟨h1, h2, h3, h4⟩ := hidx i p hp
    refine ⟨h1, h2, fun l u => ?_, fun l u => ?_, h3, h4⟩
    · rw [h1, to_GLshort_of_range _ l u]
    · rw [h2, to_GLshort_of_range _ l u]

/-- C13, amended, at a buffer of two particles and a table of two colours. -/
theorem point_draw_batch_witness :
    (∀ p ∈ two_point_system.particles_,
      ∃ c, gradient_color (point_particle_info.create two_colour_node) p.ttl = some c) ∧
    ∃ a, two_point_system.draw (point_particle_info.create two_colour_node)
        point_arrays.empty = some a ∧
      (two_point_system.particles_ = [] →
        a = point_arrays.empty ∧ two_point_system.drawn_points = none) ∧
      (two_point_system.particles_ ≠ [] →
        two_point_system.drawn_points = some two_point_system.particles_.length ∧
        a.vertex.length = 2 * two_point_system.particles_.length ∧
        a.colors.length = two_point_system.particles_.length ∧
        ∀ (i : Nat) (p : point_particle), two_point_system.particles_[i]? = some p →
          a.vertex[2 * i]? = some (to_GLshort (Int.tdiv p.pos_x 1024)) ∧
          a.vertex[2 * i + 1]? = some (to_GLshort (Int.tdiv p.pos_y 1024)) ∧
          (-32768 ≤ Int.tdiv p.pos_x 1024 → Int.tdiv p.pos_x 1024 ≤ 32767 →
            a.vertex[2 * i]? = some (Int.tdiv p.pos_x 1024)) ∧
          (-32768 ≤ Int.tdiv p.pos_y 1024 → Int.tdiv p.pos_y 1024 ≤ 32767 →
            a.vertex[2 * i + 1]? = some (Int.tdiv p.pos_y 1024)) ∧
          (a.colors[i]?) =
            gradient_color (point_particle_info.create two_colour_node) p.ttl ∧
          ∃ c, a.colors[i]? = some c) :=
  have h : ∀ p ∈ two_point_system.particles_,
      ∃ c, gradient_color (point_particle_info.create two_colour_node) p.ttl = some c := by
    intro p hp
    simp only [two_point_system, List.mem_cons, List.mem_singleton, List.not_mem_nil,
      or_false] at hp
    rcases hp with rfl | rfl
    · exact ⟨4278190335, by decide⟩
    · exact ⟨4278255360, by decide⟩
  ⟨h, point_draw_batch (point_particle_info.create two_colour_node) two_point_system
    point_arrays.empty h⟩

/-! ## Gradient scenario and unknown keys -/

/-- C14: for a configuration with the two colours `0xFF0000FF, 0x00FF00FF`,
`time_to_live = 10` and no random extra lifetime, the constructor computes
`ttl_divisor = 10` over a table of two entries, and the gradient index
`ttl / ttl_divisor` is 1 at `ttl = 10` and 0 for every `ttl` in `0 .. 9`. -/
theorem gradient_scenario (node : point_node)
    (hcolors : node.colors = [0xFF0000FF, 0x00FF00FF]) (httl : node.time_to_live = 10)
    (hrand : node.time_to_live_rand = 0) :
    (point_particle_info.create node).ttl_divisor = 10 ∧
    (point_particle_info.create node).colors.length = 2 ∧
    gradient_index (point_particle_info.create node) 10 = some 1 ∧
    gradient_index (point_particle_info.create node) 0 = some 0 ∧
    ∀ ttl : Int, 0 ≤ ttl → ttl ≤ 9 →
      gradient_index (point_particle_info.create node) ttl = some 0 := by
  have hl : (point_particle_info.create node).colors.length = 2 := by
    simp [point_particle_info.create, gradient_colors, pad_colors, hcolors]
  have hd : (point_particle_info.create node).ttl_divisor = 10 := by
    have hM := time_to_live_max_create node
    have h := ttl_divisor_create node (by omega) (by omega)
    rw [h, hl, httl, hrand]
    decide
  have hlow : ∀ ttl : Int, 0 ≤ ttl → ttl ≤ 9 →
      gradient_index (point_particle_info.create node) ttl = some 0 := by
    intro ttl h0 h9
    have hq : Int.tdiv ttl 10 = 0 := by
      rw [Int.tdiv_eq_ediv h0 (by decide)]
      omega
    simp [gradient_index, hd, hl, hq]
  refine ⟨hd, hl, ?_, hlow 0 (by decide) (by decide), hlow⟩
  have hq : Int.tdiv 10 10 = 1 := by decide
  simp [gradient_index, hd, hl, hq]

/-- C14 at the node with these two colours and every other attribute 0 but the
generation rate. -/
theorem gradient_scenario_witness :
    (two_colour_node.colors = [0xFF0000FF, 0x00FF00FF] ∧ two_colour_node.time_to_live = 10 ∧
      two_colour_node.time_to_live_rand = 0) ∧
    ((point_particle_info.create two_colour_node).ttl_divisor = 10 ∧
    (point_particle_info.create two_colour_node).colors.length = 2 ∧
    gradient_index (point_particle_info.create two_colour_node) 10 = some 1 ∧
    gradient_index (point_particle_info.create two_colour_node) 0 = some 0 ∧
    ∀ ttl : Int, 0 ≤ ttl → ttl ≤ 9 →
      gradient_index (point_particle_info.create two_colour_node) ttl = some 0) :=
  ⟨⟨by decide, by decide, by decide⟩, gradient_scenario two_colour_node rfl rfl rfl⟩

theorem set_value_unknown_key (s : simple_particle_system) (key : String) (value : Int)
    (h : key ∉ ["spawn_rate", "min_x", "max_x", "min_y", "max_y", "velocity_x", "velocity_y"]) :
    s.set_value key value = s := by
  simp only [List.mem_cons, List.mem_singleton, List.not_mem_nil, or_false, not_or] at h
  obtain ⟨h1, h2, h3, h4, h5, h6, h7⟩ := h
  unfold simple_particle_system.set_value
  rw [if_neg h1, if_neg h2, if_neg h3, if_neg h4, if_neg h5, if_neg h6, if_neg h7]

/-- C15: for the simple emitter, `set_value` with a key outside `spawn_rate`,
`min_x`, `max_x`, `min_y`, `max_y`, `velocity_x`, `velocity_y` leaves the whole
emitter state unchanged and `get_value` with a key other than `spawn_rate`
returns the empty value; for the point emitter, `set_value` with a key other
than `generation_rate` leaves the state unchanged and `get_value` returns the
empty value for every key. -/
theorem unknown_keys_ignored (s : simple_particle_system) (p : point_particle_system)
    (key : String) (value : Int) :
    (key ∉ ["spawn_rate", "min_x", "max_x", "min_y", "max_y", "velocity_x", "velocity_y"] →
      s.set_value key value = s) ∧
    (key ≠ "spawn_rate" → s.get_value key = none) ∧
    (key ≠ "generation_rate" → p.set_value key value = p) ∧
    p.get_value key = none := by
  refine ⟨set_value_unknown_key s key value, fun h => ?_, fun h => ?_, rfl⟩
  · simp [simple_particle_system.get_value, h]
  · simp [point_particle_system.set_value, h]

/-- C15 at the key `alpha`, which neither emitter knows. -/
theorem unknown_keys_ignored_witness :
    ("alpha" ∉ ["spawn_rate", "min_x", "max_x", "min_y", "max_y", "velocity_x", "velocity_y"] ∧
      "alpha" ≠ "spawn_rate" ∧ "alpha" ≠ "generation_rate") ∧
    (simple_particle_system.create sample_factory).set_value "alpha" 5 =
      simple_particle_system.create sample_factory ∧
    (simple_particle_system.create sample_factory).get_value "alpha" = none ∧
    two_point_system.set_value "alpha" 5 = two_point_system ∧
    two_point_system.get_value "alpha" = none :=
  have h := unknown_keys_ignored (simple_particle_system.create sample_factory)
    two_point_system "alpha" 5
  ⟨⟨by decide, by decide, by decide⟩, h.1 (by decide), h.2.1 (by decide), h.2.2.1 (by decide),
    h.2.2.2⟩

/-! ## Factory dispatch -/

/-- C16: `create_factory` returns a factory exactly when the type string is
`simple`, `weather`, `water` or `point`; the factory returned is of the kind the
string names (the simple factory built from the node's configuration and
animations, the point factory from its point attributes); for every other
string it fails with the error `Unrecognized particle system type: ` followed by
the string. -/
theorem create_factory_dispatch (node : factory_node) :
    ((∃ f, particle_system_factory.create_factory node = Except.ok f) ↔
      node.type ∈ ["simple", "weather", "water", "point"]) ∧
    (∀ f, particle_system_factory.create_factory node = Except.ok f → f.kind = node.type) ∧
    (node.type = "simple" → particle_system_factory.create_factory node =
      Except.ok (particle_system_factory.simple (simple_particle_system_factory.create node))) ∧
    (node.type = "weather" → particle_system_factory.create_factory node =
      Except.ok particle_system_factory.weather) ∧
    (node.type = "water" → particle_system_factory.create_factory node =
      Except.ok particle_system_factory.water) ∧
    (node.type = "point" → particle_system_factory.create_factory node =
      Except.ok (particle_system_factory.point (point_particle_info.create node.point))) ∧
    (node.type ∉ ["simple", "weather", "water", "point"] →
      particle_system_factory.create_factory node =
        Except.error ("Unrecognized particle system type: " ++ node.type)) := by
  by_cases h1 : node.type = "simple"
  · simp [particle_system_factory.create_factory, particle_system_factory.kind, h1]
  · by_cases h2 : node.type = "weather"
    · simp [particle_system_factory.create_factory, particle_system_factory.kind, h2]
    · by_cases h3 : node.type = "water"
      · simp [particle_system_factory.create_factory, particle_system_factory.kind, h3]
      · by_cases h4 : node.type = "point"
        · simp [particle_system_factory.create_factory, particle_system_factory.kind, h4]
        · simp [particle_system_factory.create_factory, h1, h2, h3, h4]

/-- C16 at the type strings `point` and `fire`. -/
theorem create_factory_dispatch_witness :
    ("point" ∈ ["simple", "weather", "water", "point"] ∧
      "fire" ∉ ["simple", "weather", "water", "point"]) ∧
    particle_system_factory.create_factory (sample_factory_node "point") =
      Except.ok (particle_system_factory.point (point_particle_info.create two_colour_node)) ∧
    particle_system_factory.create_factory (sample_factory_node "fire") =
      Except.error "Unrecognized particle system type: fire" :=
  ⟨⟨by decide, by decide⟩,
    (create_factory_dispatch (sample_factory_node "point")).2.2.2.2.2.1 rfl,
    (create_factory_dispatch (sample_factory_node "fire")).2.2.2.2.2.2 (by decide)⟩

/-! ## Atlas frame layout -/

/-- With `r ≥ 1` frames in a row, the loop started at `(row, col)` with
`0 ≤ col < r` puts its `n`-th frame at row `row + (col + n) / r` and column
`(col + n) mod r`. -/
theorem build_rects_wrapping (base : rect) (pad r : Int) (hr : 1 ≤ r) :
    ∀ (k : Nat) (row col : Int) (n : Nat), 0 ≤ col → col < r → n < k →
      (build_rects base pad r k row col)[n]? =
        some (frame_rect base pad (row + (col + n) / r) ((col + n) % r))
  | 0, _, _, _, _, _, hn => by omega
  | k + 1, row, col, 0, h0, h1, _ => by
    simp only [build_rects, List.getElem?_cons_zero, Nat.cast_zero, add_zero]
    rw [Int.ediv_eq_zero_of_lt h0 h1, Int.emod_eq_of_lt h0 h1, add_zero]
  | k + 1, row, col, m + 1, h0, h1, hn => by
    simp only [build_rects, List.getElem?_cons_succ]
    split
    · rename_i hwrap
      rw [build_rects_wrapping base pad r hr k (row + 1) 0 m (le_refl 0) (by omega) (by omega)]
      have e : col + ((m + 1 : Nat) : Int) = (0 + (m : Int)) + 1 * r := by
        push_cast; omega
      rw [e, Int.add_mul_ediv_right _ _ (by omega : r ≠ 0), Int.add_mul_emod_self]
      congr 2
      omega
    · rename_i hwrap
      rw [build_rects_wrapping base pad r hr k row (col + 1) m (by omega) (by omega) (by omega)]
      have e : col + ((m + 1 : Nat) : Int) = col + 1 + (m : Int) := by
        push_cast; omega
      rw [e]

/-- With `frames_per_row` below 1 the column never equals it after the
increment, and the loop stays in its row. -/
theorem build_rects_single_row (base : rect) (pad r : Int) (hr : r < 1) :
    ∀ (k : Nat) (row col : Int) (n : Nat), 0 ≤ col → n < k →
      (build_rects base pad r k row col)[n]? = some (frame_rect base pad row (col + n))
  | 0, _, _, _, _, hn => by omega
  | k + 1, row, col, 0, _, _ => by
    simp only [build_rects, List.getElem?_cons_zero, Nat.cast_zero, add_zero]
  | k + 1, row, col, m + 1, h0, hn => by
    simp only [build_rects, List.getElem?_cons_succ]
    rw [if_neg (by omega),
      build_rects_single_row base pad r hr k row (col + 1) m (by omega) (by omega)]
    have e : col + ((m + 1 : Nat) : Int) = col + 1 + (m : Int) := by
      push_cast; omega
    rw [e]

/-- C17: the constructor lays the frames out row-major.  For a base rectangle
`(x, y, w, h)`, padding `pad` and `frames_per_row = r`, the source rectangle of
frame `n` (below the frame count) has size `w x h` and origin
`(x + (n mod r) * (w + pad), y + (n div r) * (h + pad))` when `r ≥ 1`, and origin
`(x + n * (w + pad), y)` when `frames_per_row` is unset (-1); the frame stored
at position `n` is made from that rectangle, and the displayed width and
height are `2 * w` and `2 * h`. -/
theorem atlas_row_major (node : animation_node) (n : Nat)
    (hn : n < (particle_animation.create node).frames_.length) :
    (1 ≤ node.frames_per_row →
      (particle_animation.source_rects node)[n]? =
        some { x := node.base_area.x +
                 ((n : Int) % node.frames_per_row) * (node.base_area.w + node.pad)
               y := node.base_area.y +
                 ((n : Int) / node.frames_per_row) * (node.base_area.h + node.pad)
               w := node.base_area.w
               h := node.base_area.h }) ∧
    (node.frames_per_row = -1 →
      (particle_animation.source_rects node)[n]? =
        some { x := node.base_area.x + (n : Int) * (node.base_area.w + node.pad)
               y := node.base_area.y
               w := node.base_area.w
               h := node.base_area.h }) ∧
    (particle_animation.create node).frames_[n]? =
      ((particle_animation.source_rects node)[n]?).map
        (frame_of_rect node.texture_width node.texture_height) ∧
    (particle_animation.create node).width_ = 2 * node.base_area.w ∧
    (particle_animation.create node).height_ = 2 * node.base_area.h := by
  have hk : n < clamp_nframes node.frames := by
    rw [← length_frames_create]; exact hn
  refine ⟨fun hr => ?_, fun hr => ?_, ?_, ?_, ?_⟩
  · rw [particle_animation.source_rects,
      build_rects_wrapping node.base_area node.pad node.frames_per_row hr _ 0 0 n
        (le_refl 0) (by omega) hk]
    simp [frame_rect]
  · rw [particle_animation.source_rects,
      build_rects_single_row node.base_area node.pad node.frames_per_row (by omega) _ 0 0 n
        (le_refl 0) hk]
    simp [frame_rect]
  · simp [particle_animation.create, particle_animation.source_rects]
  · simp [particle_animation.create, mul_comm]
  · simp [particle_animation.create, mul_comm]

/-- C17 at the node of three frames in rows of two, for the third frame. -/
theorem atlas_row_major_witness :
    2 < (particle_animation.create sample_node).frames_.length ∧
    (1 ≤ sample_node.frames_per_row ∧
      (particle_animation.source_rects sample_node)[2]? =
        some { x := 0, y := 16, w := 16, h := 16 }) ∧
    (particle_animation.create sample_node).width_ = 32 ∧
    (particle_animation.create sample_node).height_ = 32 :=
  have h := atlas_row_major sample_node 2 (by decide)
  ⟨by decide, ⟨by decide, (h.1 (by decide)).trans (by decide)⟩,
    h.2.2.2.1.trans (by decide), h.2.2.2.2.trans (by decide)⟩

/-! ## Idempotence of the draw batches -/

/-- C18: for both emitters the arrays `draw` produces depend on the emitter
state only.  With a non-empty particle buffer the staging arrays after the call
are the same whatever they held before; with an empty buffer `draw` returns at
once and produces nothing, leaving them as they were; hence a second call,
made on the arrays the first one left, leaves the very same arrays.  (`draw`
is a `const` method: it takes the emitter state and returns arrays only.) -/
theorem draw_idempotent (tex : texture_coords) (factory : simple_particle_system_factory)
    (s : simple_particle_system) (info : point_particle_info) (p : point_particle_system)
    (b1 b2 : draw_arrays) (c1 c2 : point_arrays) :
    (s.particles_ ≠ [] → s.draw tex factory b1 = s.draw tex factory b2) ∧
    (s.particles_ = [] → s.draw tex factory b1 = some b1) ∧
    (∀ a, s.draw tex factory b1 = some a → s.draw tex factory a = some a) ∧
    (p.particles_ ≠ [] → p.draw info c1 = p.draw info c2) ∧
    (p.particles_ = [] → p.draw info c1 = some c1 ∧ p.drawn_points = none) ∧
    (∀ a, p.draw info c1 = some a → p.draw info a = some a) := by
  refine ⟨fun h => ?_, fun h => ?_, fun a h => ?_, fun h => ?_, fun h => ?_, fun a h => ?_⟩
  · simp only [simple_particle_system.draw, if_neg h]
  · simp only [simple_particle_system.draw, if_pos h]
  · by_cases hs : s.particles_ = []
    · simp only [simple_particle_system.draw, if_pos hs]
    · simp only [simple_particle_system.draw, if_neg hs] at h ⊢
      exact h
  · simp only [point_particle_system.draw, if_neg h]
  · exact ⟨by simp only [point_particle_system.draw, if_pos h],
      by simp only [point_particle_system.drawn_points, if_pos h]⟩
  · by_cases hs : p.particles_ = []
    · simp only [point_particle_system.draw, if_pos hs]
    · simp only [point_particle_system.draw, if_neg hs] at h ⊢
      exact h

/-! ## Integration step of the simple emitter -/

/-- On a queue of non-negative counts that add up to the number of particles,
the integration loop moves every particle once. -/
theorem integrate_eq_map (info : simple_particle_system_info) :
    ∀ (gs : List generation) (ps : List particle),
    (∀ g ∈ gs, 0 ≤ g.members) → total_members gs = ps.length →
    integrate info gs ps = some (ps.map (move info))
  | [], ps, _, hsum => by
    have : ps = [] := by
      apply List.eq_nil_of_length_eq_zero
      simp only [total_members_nil] at hsum
      omega
    subst this
    rfl
  | g :: gs, ps, h, hsum => by
    have hg := h g (List.mem_cons_self g gs)
    have hgs : ∀ x ∈ gs, 0 ≤ x.members := fun x hx => h x (List.mem_cons_of_mem g hx)
    have hnn := total_members_nonneg gs hgs
    rw [total_members_cons] at hsum
    have hk : g.members.toNat ≤ ps.length := by omega
    have hdrop : total_members gs = ((ps.drop g.members.toNat).length : Int) := by
      rw [List.length_drop]; omega
    have ih := integrate_eq_map info gs (ps.drop g.members.toNat) hgs hdrop
    simp only [integrate, hg, hk, and_self, if_true, ih]
    rw [← List.map_append, List.take_append_drop]

/-- The particles the expiry loop leaves are the particle buffer without a
leading slice. -/
theorem expire_drop (cycle ttl : Int) : ∀ (gs gs' : List generation) (ps ps' : List particle),
    expire cycle ttl gs ps = some (gs', ps') → ∃ j, ps' = ps.drop j
  | [], gs', ps, ps', h => by
    simp only [expire, Option.some.injEq, Prod.mk.injEq] at h
    exact ⟨0, by rw [← h.2]; rfl⟩
  | g :: gs, gs', ps, ps', h => by
    simp only [expire] at h
    split at h
    · split at h
      · obtain ⟨j, hj⟩ := expire_drop cycle ttl gs gs' _ ps' h
        exact ⟨g.members.toNat + j, by rw [hj, List.drop_drop]⟩
      · simp at h
    · simp only [Option.some.injEq, Prod.mk.injEq] at h
      exact ⟨0, by rw [← h.2]; rfl⟩

/-- The spawn loop appends to the buffer what it produces from an empty one. -/
theorem spawn_loop_append (factory : simple_particle_system_factory)
    (info : simple_particle_system_info) (e : environment) :
    ∀ (n i : Nat) (ps : List particle),
      spawn_loop factory info e n i ps =
        (spawn_loop factory info e n i []).map (fun fresh => ps ++ fresh)
  | 0, i, ps => by simp [spawn_loop]
  | n + 1, i, ps => by
    simp only [spawn_loop]
    cases hp : spawn_particle factory info e i with
    | none => simp
    | some r =>
      obtain ⟨p, j⟩ := r
      simp only []
      rw [spawn_loop_append factory info e n j (ps ++ [p]),
        spawn_loop_append factory info e n j ([] ++ [p])]
      cases spawn_loop factory info e n j [] with
      | none => simp
      | some fresh => simp

/-- In a `process` call on a state whose generation counts are non-negative
and add up to the number of particles, the buffer after the call is made of the particles that survive the
expiry loop, each moved exactly once, followed by the particles spawned in the
call as the spawn loop made them, not moved.  A moved particle has position
old position + old velocity and velocity old velocity +
`(accel_x_/1000, accel_y_/1000)`, in exact arithmetic. -/
theorem process_moves_survivors (factory : simple_particle_system_factory)
    (s s' : simple_particle_system) (e : environment)
    (hnn : ∀ g ∈ s.generations_, 0 ≤ g.members)
    (hsum : total_members s.generations_ = s.particles_.length)
    (hp : s.process factory e = some s') :
    ∃ gens survivors fresh j,
      expire (s.cycle_ + 1) s.info_.time_to_live_ s.generations_ s.particles_ =
        some (gens, survivors) ∧
      survivors = s.particles_.drop j ∧
      s'.particles_ = survivors.map (move s'.info_) ++ fresh ∧
      spawn_loop factory s'.info_ e (s'.particles_.length - survivors.length)
        (spawn_cursor s'.info_) [] = some fresh ∧
      s'.info_.accel_x_ = s.info_.accel_x_ ∧ s'.info_.accel_y_ = s.info_.accel_y_ ∧
      ∀ p : particle,
        (move s'.info_ p).pos0 = p.pos0 + p.velocity0 ∧
        (move s'.info_ p).pos1 = p.pos1 + p.velocity1 ∧
        (move s'.info_ p).velocity0 = p.velocity0 + (s.info_.accel_x_ : ℚ) / 1000 ∧
        (move s'.info_ p).velocity1 = p.velocity1 + (s.info_.accel_y_ : ℚ) / 1000 ∧
        (move s'.info_ p).anim = p.anim := by
  obtain ⟨gens, ps, ps1, he, hi, hl, _, _, _, hinfo⟩ := process_some factory s s' e hp
  obtain ⟨gens', ps', he', h1, h2, _⟩ :=
    expire_spec (s.cycle_ + 1) (ticked_info s).time_to_live_ s.generations_ s.particles_
      hnn hsum
  rw [he] at he'
  simp only [Option.some.injEq, Prod.mk.injEq] at he'
  obtain ⟨rfl, rfl⟩ := he'
  obtain ⟨j, hj⟩ := expire_drop _ _ _ _ _ _ he
  rw [integrate_eq_map (ticked_info s) gens ps h1 h2] at hi
  simp only [Option.some.injEq] at hi
  subst hi
  rw [spawn_loop_append] at hl
  cases hfresh : spawn_loop factory (ticked_info s) e
      (Int.tdiv (spawn_sum (ticked_info s) s.spawn_buildup_ e) 1000).toNat
      (spawn_cursor (ticked_info s)) [] with
  | none => simp [hfresh] at hl
  | some fresh =>
    simp only [hfresh, Option.map_some', Option.some.injEq] at hl
    have hlen := spawn_loop_length factory (ticked_info s) e _ _ _ _ hfresh
    have hcount : s'.particles_.length - ps.length =
        (Int.tdiv (spawn_sum (ticked_info s) s.spawn_buildup_ e) 1000).toNat := by
      rw [← hl]
      simp only [List.length_append, List.length_map, hlen, List.length_nil]
      omega
    refine ⟨gens, ps, fresh, j, he, hj, ?_, ?_, by rw [hinfo]; rfl, by rw [hinfo]; rfl,
      fun p => ?_⟩
    · rw [hinfo, hl]
    · rw [hcount, hinfo]; exact hfresh
    · rw [hinfo]
      exact ⟨rfl, rfl, rfl, rfl, rfl⟩

/-! ## Strip stitching -/

/-- With at least one frame and a duration other than 0, `get_frame` returns a
frame for every tick count. -/
theorem get_frame_isSome (a : particle_animation) (t : Int) (hn : a.frames_ ≠ [])
    (hd : a.duration_ ≠ 0) : ∃ f, a.get_frame t = some f := by
  have hlen : 0 < a.frames_.length := List.length_pos.mpr hn
  have hidx : ∃ i : Int, a.frame_index t = some i ∧ 0 ≤ i ∧ i < a.frames_.length := by
    unfold particle_animation.frame_index
    rw [if_neg hd]
    simp only []
    split
    · exact ⟨0, rfl, le_refl 0, by omega⟩
    · split
      · exact ⟨_, rfl, by omega, by omega⟩
      · exact ⟨_, rfl, by omega, by omega⟩
  obtain ⟨i, hi, h0, h1⟩ := hidx
  have hlt : i.toNat < a.frames_.length := by omega
  refine ⟨a.frames_[i.toNat], ?_⟩
  simp only [particle_animation.get_frame, hi]
  rw [if_neg (by omega)]
  exact List.getElem?_eq_getElem hlt

theorem length_stitched_strip (tl tr bl br : ℚ × ℚ) : (stitched_strip tl tr bl br).length = 12 :=
  rfl

/-- What the loop body pushes for a drawable particle: the strip of its
vertices and the strip of its texture coordinates. -/
theorem draw_particle_spec (tex : texture_coords) (factory : simple_particle_system_factory)
    (info : simple_particle_system_info) (age : Int) (p : particle)
    (h : p.drawable factory) :
    ∃ b, draw_particle tex factory info age p = some b ∧
      b.varray = strip_vertices factory p ∧
      b.tcarray = strip_texcoords tex factory (p, age) ∧
      b.varray.length = 12 ∧ b.tcarray.length = 12 := by
  obtain ⟨anim, ha, hn, hd⟩ := h
  obtain ⟨f, hf⟩ := get_frame_isSome anim age hn hd
  cases hdp : draw_particle tex factory info age p with
  | none => simp [draw_particle, ha, hf] at hdp
  | some b =>
    simp only [draw_particle, ha, hf, Option.some.injEq] at hdp
    subst hdp
    refine ⟨_, rfl, ?_, ?_, rfl, rfl⟩
    · simp only [strip_vertices, ha, stitched_strip]
    · simp only [strip_texcoords, ha, hf, stitched_strip]

theorem draw_members_spec (tex : texture_coords) (factory : simple_particle_system_factory)
    (info : simple_particle_system_info) (age : Int) :
    ∀ (ps : List particle), (∀ p ∈ ps, p.drawable factory) →
      ∃ b, draw_members tex factory info age ps = some b ∧
        b.varray = ps.flatMap (strip_vertices factory) ∧
        b.tcarray = (ps.zip (List.replicate ps.length age)).flatMap
          (strip_texcoords tex factory) ∧
        b.varray.length = 12 * ps.length ∧ b.tcarray.length = 12 * ps.length
  | [], _ => ⟨draw_arrays.empty, rfl, rfl, rfl, rfl, rfl⟩
  | p :: ps, h => by
    obtain ⟨a, ha, hv, ht, hvl, htl⟩ :=
      draw_particle_spec tex factory info age p (h p (List.mem_cons_self p ps))
    obtain ⟨b, hb, hbv, hbt, hbvl, hbtl⟩ :=
      draw_members_spec tex factory info age ps (fun q hq => h q (List.mem_cons_of_mem p hq))
    refine ⟨a.append b, by simp only [draw_members, ha, hb], ?_, ?_, ?_, ?_⟩
    · simp only [draw_arrays.append, hv, hbv, List.flatMap_cons]
    · simp only [draw_arrays.append, ht, hbt, List.length_cons, List.replicate_succ,
        List.zip_cons_cons, List.flatMap_cons]
    · simp only [draw_arrays.append, List.length_append, hvl, hbvl, List.length_cons]
      omega
    · simp only [draw_arrays.append, List.length_append, htl, hbtl, List.length_cons]
      omega

theorem length_particle_ages (cycle : Int) : ∀ (gs : List generation),
    (∀ g ∈ gs, 0 ≤ g.members) → ((particle_ages cycle gs).length : Int) = total_members gs
  | [], _ => rfl
  | g :: gs, h => by
    have hg := h g (List.mem_cons_self g gs)
    have ih := length_particle_ages cycle gs (fun x hx => h x (List.mem_cons_of_mem g hx))
    simp only [particle_ages, List.length_append, List.length_replicate, total_members_cons]
    push_cast
    omega

theorem draw_generations_spec (tex : texture_coords) (factory : simple_particle_system_factory)
    (info : simple_particle_system_info) (cycle : Int) :
    ∀ (gs : List generation) (ps : List particle),
      (∀ g ∈ gs, 0 ≤ g.members) → total_members gs = ps.length →
      (∀ p ∈ ps, p.drawable factory) →
      ∃ b, draw_generations tex factory info cycle gs ps = some b ∧
        b.varray = ps.flatMap (strip_vertices factory) ∧
        b.tcarray = (ps.zip (particle_ages cycle gs)).flatMap (strip_texcoords tex factory) ∧
        b.varray.length = 12 * ps.length ∧ b.tcarray.length = 12 * ps.length
  | [], ps, _, hsum, _ => by
    have : ps = [] := by
      apply List.eq_nil_of_length_eq_zero
      simp only [total_members_nil] at hsum
      omega
    subst this
    exact ⟨draw_arrays.empty, rfl, rfl, rfl, rfl, rfl⟩
  | g :: gs, ps, h, hsum, hd => by
    have hg := h g (List.mem_cons_self g gs)
    have hgs : ∀ x ∈ gs, 0 ≤ x.members := fun x hx => h x (List.mem_cons_of_mem g hx)
    have hnn := total_members_nonneg gs hgs
    rw [total_members_cons] at hsum
    have hk : g.members.toNat ≤ ps.length := by omega
    have hdrop : total_members gs = ((ps.drop g.members.toNat).length : Int) := by
      rw [List.length_drop]; omega
    have htake : (ps.take g.members.toNat).length = g.members.toNat := by
      rw [List.length_take]; omega
    obtain ⟨a, ha, hav, hat, havl, hatl⟩ :=
      draw_members_spec tex factory info (cycle - g.created_at) (ps.take g.members.toNat)
        (fun p hp => hd p (List.mem_of_mem_take hp))
    obtain ⟨b, hb, hbv, hbt, hbvl, hbtl⟩ :=
      draw_generations_spec tex factory info cycle gs (ps.drop g.members.toNat) hgs hdrop
        (fun p hp => hd p (List.mem_of_mem_drop hp))
    have hsplit := List.take_append_drop g.members.toNat ps
    refine ⟨a.append b, by simp only [draw_generations, hg, hk, and_self, if_true, ha, hb],
      ?_, ?_, ?_, ?_⟩
    · simp only [draw_arrays.append, hav, hbv, ← List.flatMap_append, hsplit]
    · simp only [draw_arrays.append, hat, hbt, particle_ages, htake]
      rw [← List.flatMap_append, ← List.zip_append (by rw [htake, List.length_replicate]),
        hsplit]
    · simp only [draw_arrays.append, List.length_append, havl, hbvl, htake, List.length_drop]
      omega
    · simp only [draw_arrays.append, List.length_append, hatl, hbtl, htake, List.length_drop]
      omega

/-- A frame returned by `get_frame` shows that the atlas has a frame and a
duration other than 0. -/
theorem get_frame_some (a : particle_animation) (t : Int) (f : frame_area)
    (h : a.get_frame t = some f) : a.frames_ ≠ [] ∧ a.duration_ ≠ 0 := by
  unfold particle_animation.get_frame at h
  cases hi : a.frame_index t with
  | none => simp [hi] at h
  | some i =>
    simp only [hi] at h
    constructor
    · intro hnil
      split at h
      · simp at h
      · simp [hnil] at h
    · intro hz
      simp [particle_animation.frame_index, hz] at hi

theorem draw_particle_some (tex : texture_coords) (factory : simple_particle_system_factory)
    (info : simple_particle_system_info) (age : Int) (p : particle) (b : draw_arrays)
    (h : draw_particle tex factory info age p = some b) : p.drawable factory := by
  unfold draw_particle at h
  cases ha : factory.frames_[p.anim]? with
  | none => simp [ha] at h
  | some anim =>
    simp only [ha] at h
    cases hf : anim.get_frame age with
    | none => simp [hf] at h
    | some f =>
      obtain ⟨h1, h2⟩ := get_frame_some anim age f hf
      exact ⟨anim, ha, h1, h2⟩

theorem draw_members_some (tex : texture_coords) (factory : simple_particle_system_factory)
    (info : simple_particle_system_info) (age : Int) :
    ∀ (ps : List particle) (b : draw_arrays), draw_members tex factory info age ps = some b →
      ∀ p ∈ ps, p.drawable factory
  | [], _, _ => by simp
  | q :: ps, b, h => by
    simp only [draw_members] at h
    cases hq : draw_particle tex factory info age q with
    | none => simp [hq] at h
    | some a =>
      cases hr : draw_members tex factory info age ps with
      | none => simp [hq, hr] at h
      | some r =>
        intro p hp
        rcases List.mem_cons.mp hp with rfl | hp
        · exact draw_particle_some tex factory info age p a hq
        · exact draw_members_some tex factory info age ps r hr p hp

/-- When the draw loops return on a queue whose counts add up to the number of
particles, no count is negative and every particle is drawable. -/
theorem draw_generations_some (tex : texture_coords) (factory : simple_particle_system_factory)
    (info : simple_particle_system_info) (cycle : Int) :
    ∀ (gs : List generation) (ps : List particle) (b : draw_arrays),
      draw_generations tex factory info cycle gs ps = some b →
      total_members gs = ps.length →
      (∀ g ∈ gs, 0 ≤ g.members) ∧ ∀ p ∈ ps, p.drawable factory
  | [], ps, _, _, hsum => by
    have : ps = [] := by
      apply List.eq_nil_of_length_eq_zero
      simp only [total_members_nil] at hsum
      omega
    subst this
    simp
  | g :: gs, ps, b, h, hsum => by
    simp only [draw_generations] at h
    split at h
    · rename_i hcond
      obtain ⟨hg, hk⟩ := hcond
      cases hm : draw_members tex factory info (cycle - g.created_at)
          (ps.take g.members.toNat) with
      | none => simp [hm] at h
      | some a =>
        cases hr : draw_generations tex factory info cycle gs (ps.drop g.members.toNat) with
        | none => simp [hm, hr] at h
        | some r =>
          rw [total_members_cons] at hsum
          have hdrop : total_members gs = ((ps.drop g.members.toNat).length : Int) := by
            rw [List.length_drop]; omega
          obtain ⟨h1, h2⟩ := draw_generations_some tex factory info cycle gs _ r hr hdrop
          have h3 := draw_members_some tex factory info _ _ a hm
          constructor
          · intro x hx
            rcases List.mem_cons.mp hx with rfl | hx
            · exact hg
            · exact h1 x hx
          · intro p hp
            rw [← List.take_append_drop g.members.toNat ps] at hp
            rcases List.mem_append.mp hp with hp | hp
            · exact h3 p hp
            · exact h2 p hp
    · simp at h

/-- C19: for a non-empty emitter whose generation counts add up to its
particle count, the arrays `draw` leaves hold, in buffer order, the strip TL,
TL, TR, BL, BR, BR of every particle, where TL is the particle's position and
the rectangle has the displayed width and height of its animation, and in the
same order the texture coordinates `(u1,v1), (u1,v1), (u2,v1), (u1,v2),
(u2,v2), (u2,v2)` of the frame the animation shows at the age of the
particle's generation, passed through the texture module's `get_coord_x` and
`get_coord_y`; each array holds 12 numbers for every particle.  `draw` returns
whenever no count is negative and every particle refers to an animation of the
factory that has a frame and a duration other than 0. -/
theorem strip_stitching (tex : texture_coords) (factory : simple_particle_system_factory)
    (s : simple_particle_system) (before : draw_arrays)
    (hne : s.particles_ ≠ [])
    (hsum : total_members s.generations_ = s.particles_.length) :
    (∀ b, s.draw tex factory before = some b →
      b.varray = s.particles_.flatMap (strip_vertices factory) ∧
      b.tcarray = (s.particles_.zip (particle_ages s.cycle_ s.generations_)).flatMap
        (strip_texcoords tex factory) ∧
      (particle_ages s.cycle_ s.generations_).length = s.particles_.length ∧
      b.varray.length = 12 * s.particles_.length ∧
      b.tcarray.length = 12 * s.particles_.length ∧
      ∀ p ∈ s.particles_, ∀ age : Int, ∃ anim f,
        factory.frames_[p.anim]? = some anim ∧ anim.get_frame age = some f ∧
        strip_vertices factory p =
          [p.pos0, p.pos1, p.pos0, p.pos1,
           p.pos0 + (anim.width_ : ℚ), p.pos1,
           p.pos0, p.pos1 + (anim.height_ : ℚ),
           p.pos0 + (anim.width_ : ℚ), p.pos1 + (anim.height_ : ℚ),
           p.pos0 + (anim.width_ : ℚ), p.pos1 + (anim.height_ : ℚ)] ∧
        strip_texcoords tex factory (p, age) =
          [tex.get_coord_x f.u1, tex.get_coord_y f.v1,
           tex.get_coord_x f.u1, tex.get_coord_y f.v1,
           tex.get_coord_x f.u2, tex.get_coord_y f.v1,
           tex.get_coord_x f.u1, tex.get_coord_y f.v2,
           tex.get_coord_x f.u2, tex.get_coord_y f.v2,
           tex.get_coord_x f.u2, tex.get_coord_y f.v2]) ∧
    ((∀ g ∈ s.generations_, 0 ≤ g.members) → (∀ p ∈ s.particles_, p.drawable factory) →
      ∃ b, s.draw tex factory before = some b) := by
  constructor
  · intro b0 hb0
    simp only [simple_particle_system.draw, if_neg hne] at hb0
    obtain ⟨hnn, hd⟩ := draw_generations_some tex factory s.info_ s.cycle_ s.generations_
      s.particles_ b0 hb0 hsum
    obtain ⟨b, hb, hv, ht, hvl, htl⟩ :=
      draw_generations_spec tex factory s.info_ s.cycle_ s.generations_ s.particles_ hnn hsum hd
    rw [hb0] at hb
    simp only [Option.some.injEq] at hb
    subst hb
    have hages : (particle_ages s.cycle_ s.generations_).length = s.particles_.length := by
      have := length_particle_ages s.cycle_ s.generations_ hnn
      omega
    refine ⟨hv, ht, hages, hvl, htl, fun p hp age => ?_⟩
    obtain ⟨anim, ha, hn, hdur⟩ := hd p hp
    obtain ⟨f, hf⟩ := get_frame_isSome anim age hn hdur
    refine ⟨anim, f, ha, hf, ?_, ?_⟩
    · simp only [strip_vertices, ha, stitched_strip]
    · simp only [strip_texcoords, ha, hf, stitched_strip]
  · intro hnn hd
    obtain ⟨b, hb, _⟩ :=
      draw_generations_spec tex factory s.info_ s.cycle_ s.generations_ s.particles_ hnn hsum hd
    exact ⟨b, by simp only [simple_particle_system.draw, if_neg hne, hb]⟩

theorem moving_system_drawable : ∀ p ∈ moving_system.particles_, p.drawable sample_factory := by
  intro p hp
  simp only [moving_system, List.mem_singleton] at hp
  subst hp
  exact ⟨unit_animation, rfl, by decide, by decide⟩

/-- C19 at a state holding one particle of a one-frame animation. -/
theorem strip_stitching_witness :
    (moving_system.particles_ ≠ [] ∧
      total_members moving_system.generations_ = moving_system.particles_.length) ∧
    ∃ b, moving_system.draw plain_coords sample_factory draw_arrays.empty = some b ∧
      b.varray = moving_system.particles_.flatMap (strip_vertices sample_factory) ∧
      b.tcarray = (moving_system.particles_.zip
        (particle_ages moving_system.cycle_ moving_system.generations_)).flatMap
          (strip_texcoords plain_coords sample_factory) ∧
      b.varray.length = 12 * moving_system.particles_.length ∧
      b.tcarray.length = 12 * moving_system.particles_.length :=
  have h1 : moving_system.particles_ ≠ [] := by decide
  have h3 : total_members moving_system.generations_ = moving_system.particles_.length := by
    decide
  have h := strip_stitching plain_coords sample_factory moving_system draw_arrays.empty h1 h3
  match h.2 (by decide) moving_system_drawable with
  | ⟨b, hb⟩ =>
    ⟨⟨h1, h3⟩, b, hb, (h.1 b hb).1, (h.1 b hb).2.1, (h.1 b hb).2.2.2.1, (h.1 b hb).2.2.2.2.1⟩

/-! ## Integration step in reachable states -/

/-- The integration loop has no defined result on a queue with a negative
count. -/
theorem integrate_none_of_neg (info : simple_particle_system_info) :
    ∀ (gs : List generation) (ps : List particle), (∃ g ∈ gs, g.members < 0) →
      integrate info gs ps = none
  | [], _, h => by simp at h
  | g :: gs, ps, h => by
    simp only [integrate]
    split
    · rename_i hcond
      have hrest : ∃ x ∈ gs, x.members < 0 := by
        obtain ⟨x, hx, hneg⟩ := h
        rcases List.mem_cons.mp hx with rfl | hx
        · omega
        · exact ⟨x, hx, hneg⟩
      rw [integrate_none_of_neg info gs _ hrest]
    · rfl

/-- A generation with a negative count is not popped by the expiry loop. -/
theorem expire_keeps_neg (cycle ttl : Int) :
    ∀ (gs gs' : List generation) (ps ps' : List particle),
      expire cycle ttl gs ps = some (gs', ps') → (∃ g ∈ gs, g.members < 0) →
      ∃ g ∈ gs', g.members < 0
  | [], _, _, _, _, h => by simp at h
  | g :: gs, gs', ps, ps', he, h => by
    simp only [expire] at he
    split at he
    · split at he
      · rename_i hcond
        have hrest : ∃ x ∈ gs, x.members < 0 := by
          obtain ⟨x, hx, hneg⟩ := h
          rcases List.mem_cons.mp hx with rfl | hx
          · omega
          · exact ⟨x, hx, hneg⟩
        exact expire_keeps_neg cycle ttl gs gs' _ ps' he hrest
      · simp at he
    · simp only [Option.some.injEq, Prod.mk.injEq] at he
      rw [← he.1]
      exact h

/-- A `process` call on a state with a negative generation count has no defined
result. -/
theorem process_none_of_neg (factory : simple_particle_system_factory)
    (s : simple_particle_system) (e : environment)
    (h : ∃ g ∈ s.generations_, g.members < 0) : s.process factory e = none := by
  cases hp : s.process factory e with
  | none => rfl
  | some s' =>
    obtain ⟨gens, ps, ps1, he, hi, _⟩ := process_some factory s s' e hp
    have hneg := expire_keeps_neg _ _ _ _ _ _ he h
    rw [integrate_none_of_neg (ticked_info s) gens ps hneg] at hi
    simp at hi

theorem process_settled (factory : simple_particle_system_factory)
    (s s' : simple_particle_system) (e : environment) (h : settled s)
    (hp : s.process factory e = some s') : settled s' := by
  rcases h with ⟨hnn, hsum⟩ | hneg
  · obtain ⟨gens, ps, ps1, he, hi, hl, hg, _, _, _⟩ := process_some factory s s' e hp
    obtain ⟨gens', ps', he', h1, h2, _⟩ :=
      expire_spec (s.cycle_ + 1) (ticked_info s).time_to_live_ s.generations_ s.particles_
        hnn hsum
    rw [he] at he'
    simp only [Option.some.injEq, Prod.mk.injEq] at he'
    obtain ⟨rfl, rfl⟩ := he'
    obtain ⟨ps1', hi', hlen⟩ := integrate_spec (ticked_info s) gens ps h1 h2
    rw [hi] at hi'
    simp only [Option.some.injEq] at hi'
    subst hi'
    have hlen' := spawn_loop_length factory (ticked_info s) e _ _ _ _ hl
    by_cases hn : 0 ≤ Int.tdiv (spawn_sum (ticked_info s) s.spawn_buildup_ e) 1000
    · left
      constructor
      · intro g hgm
        rw [hg] at hgm
        rcases List.mem_append.mp hgm with hgm | hgm
        · exact h1 g hgm
        · simp only [List.mem_singleton] at hgm
          subst hgm
          exact hn
      · rw [hg, total_members_append, total_members_cons, total_members_nil, hlen', h2, hlen]
        push_cast
        omega
    · right
      refine ⟨⟨Int.tdiv (spawn_sum (ticked_info s) s.spawn_buildup_ e) 1000, s.cycle_ + 1⟩,
        ?_, ?_⟩
      · rw [hg]
        simp
      · show Int.tdiv (spawn_sum (ticked_info s) s.spawn_buildup_ e) 1000 < 0
        omega
  · rw [process_none_of_neg factory s e hneg] at hp
    simp at hp

/-- Every state reached from a fresh emitter is settled. -/
theorem run_settled (factory : simple_particle_system_factory) :
    ∀ (calls : List call) (s s' : simple_particle_system), settled s →
      s.run factory calls = some s' → settled s'
  | [], s, s', h, hr => by
    simp only [simple_particle_system.run, Option.some.injEq] at hr
    subst hr; exact h
  | call.process e :: cs, s, s', h, hr => by
    simp only [simple_particle_system.run] at hr
    cases hp : s.process factory e with
    | none => simp [hp] at hr
    | some s1 =>
      simp only [hp] at hr
      exact run_settled factory cs s1 s' (process_settled factory s s1 e h hp) hr
  | call.set_value key value :: cs, s, s', h, hr => by
    simp only [simple_particle_system.run] at hr
    refine run_settled factory cs _ s' ?_ hr
    unfold settled
    rw [set_value_generations, set_value_particles]
    exact h

/-- C20: in a `process` call made in a state reached from a fresh emitter by
any sequence of calls, the buffer after the call is made of the particles that
survive the expiry loop, each moved exactly once, followed by the particles
spawned in the call as the spawn loop made them, not moved.  A moved particle
has position old position + old velocity and velocity old velocity +
`(accel_x_/1000, accel_y_/1000)`, in exact arithmetic. -/
theorem integration_step (factory : simple_particle_system_factory) (calls : List call)
    (s s' : simple_particle_system) (e : environment)
    (hrun : (simple_particle_system.create factory).run factory calls = some s)
    (hp : s.process factory e = some s') :
    ∃ gens survivors fresh j,
      expire (s.cycle_ + 1) s.info_.time_to_live_ s.generations_ s.particles_ =
        some (gens, survivors) ∧
      survivors = s.particles_.drop j ∧
      s'.particles_ = survivors.map (move s'.info_) ++ fresh ∧
      spawn_loop factory s'.info_ e (s'.particles_.length - survivors.length)
        (spawn_cursor s'.info_) [] = some fresh ∧
      s'.info_.accel_x_ = s.info_.accel_x_ ∧ s'.info_.accel_y_ = s.info_.accel_y_ ∧
      ∀ p : particle,
        (move s'.info_ p).pos0 = p.pos0 + p.velocity0 ∧
        (move s'.info_ p).pos1 = p.pos1 + p.velocity1 ∧
        (move s'.info_ p).velocity0 = p.velocity0 + (s.info_.accel_x_ : ℚ) / 1000 ∧
        (move s'.info_ p).velocity1 = p.velocity1 + (s.info_.accel_y_ : ℚ) / 1000 ∧
        (move s'.info_ p).anim = p.anim := by
  have hstart : settled (simple_particle_system.create factory) :=
    Or.inl ⟨by simp [simple_particle_system.create],
      by simp [simple_particle_system.create, total_members]⟩
  rcases run_settled factory calls _ s hstart hrun with ⟨hnn, hsum⟩ | hneg
  · exact process_moves_survivors factory s s' e hnn hsum hp
  · rw [process_none_of_neg factory s e hneg] at hp
    simp at hp

/-- C20 at the fourth `process` call of an emitter of the drifting factory, with the
entity moved to (10, 20): the oldest of the three particles expires, the two
survivors are each moved by their velocity and accelerated by (1/2, -1/4), and
the particle spawned in the call follows them at the entity position with the
spawn velocity. -/
theorem integration_step_witness :
    ∃ s s', ((simple_particle_system.create drifting_factory).run drifting_factory
            drifting_calls = some s ∧
        s.process drifting_factory far_environment = some s') ∧
      (s.particles_ =
          [⟨9 / 2, -9 / 4, 0, 3, -3 / 2⟩, ⟨2, -1, 0, 5 / 2, -5 / 4⟩, ⟨0, 0, 0, 2, -1⟩] ∧
        (expire (s.cycle_ + 1) s.info_.time_to_live_ s.generations_ s.particles_).map
            Prod.snd = some [⟨2, -1, 0, 5 / 2, -5 / 4⟩, ⟨0, 0, 0, 2, -1⟩] ∧
        s'.particles_ =
          [⟨9 / 2, -9 / 4, 0, 3, -3 / 2⟩, ⟨2, -1, 0, 5 / 2, -5 / 4⟩, ⟨10, 20, 0, 2, -1⟩] ∧
        s.info_.accel_x_ = 500 ∧ s.info_.accel_y_ = -250) ∧
      ∃ gens survivors fresh j,
        expire (s.cycle_ + 1) s.info_.time_to_live_ s.generations_ s.particles_ =
          some (gens, survivors) ∧
        survivors = s.particles_.drop j ∧
        s'.particles_ = survivors.map (move s'.info_) ++ fresh ∧
        spawn_loop drifting_factory s'.info_ far_environment
          (s'.particles_.length - survivors.length) (spawn_cursor s'.info_) [] = some fresh ∧
        s'.info_.accel_x_ = s.info_.accel_x_ ∧ s'.info_.accel_y_ = s.info_.accel_y_ ∧
        ∀ p : particle,
          (move s'.info_ p).pos0 = p.pos0 + p.velocity0 ∧
          (move s'.info_ p).pos1 = p.pos1 + p.velocity1 ∧
          (move s'.info_ p).velocity0 = p.velocity0 + (s.info_.accel_x_ : ℚ) / 1000 ∧
          (move s'.info_ p).velocity1 = p.velocity1 + (s.info_.accel_y_ : ℚ) / 1000 ∧
          (move s'.info_ p).anim = p.anim :=
  ⟨_, _, ⟨rfl, rfl⟩, ⟨by decide!, by decide!, by decide!, by decide!, by decide!⟩,
    integration_step drifting_factory drifting_calls _ _ far_environment rfl rfl⟩

/-! ## Lifetime-based destruction -/

/-- A run of `process` calls leaves the spawn rate as it was. -/
theorem run_spawn_rate (factory : simple_particle_system_factory) :
    ∀ (es : List environment) (s s' : simple_particle_system),
      s.run factory (es.map call.process) = some s' →
      s'.info_.spawn_rate_ = s.info_.spawn_rate_
  | [], s, s', h => by
    simp only [List.map_nil, simple_particle_system.run, Option.some.injEq] at h
    subst h; rfl
  | e :: es, s, s', h => by
    simp only [List.map_cons, simple_particle_system.run] at h
    cases hp : s.process factory e with
    | none => simp [hp] at h
    | some s1 =>
      simp only [hp] at h
      obtain ⟨_, _, _, _, _, _, _, _, _, hinfo⟩ := process_some factory s s1 e hp
      rw [run_spawn_rate factory es s1 s' h, hinfo]
      rfl

/-- C21: for a fresh emitter configured with `system_time_to_live = k ≥ 1` and a
spawn rate above 0, `is_destroyed` after `n` `process` calls is true exactly
when `n = k`: false before the `k`-th call, true after it, and false again
after the `(k+1)`-th call and every later one.  With at least one animation
the `n` calls do reach a state. -/
theorem destroyed_at_exactly_one_tick (factory : simple_particle_system_factory)
    (es : List environment) (k : Int) (hk : 1 ≤ k)
    (hstl : factory.info_.system_time_to_live_ = k)
    (hrate : 0 < factory.info_.spawn_rate_) :
    (∀ s, (simple_particle_system.create factory).run factory (es.map call.process) = some s →
      (s.is_destroyed = true ↔ (es.length : Int) = k) ∧
      s.info_.system_time_to_live_ = k - es.length ∧
      (es.length = 0 → s.is_destroyed = false) ∧
      ((es.length : Int) = k + 1 → s.is_destroyed = false)) ∧
    (factory.frames_ ≠ [] →
      ∃ s, (simple_particle_system.create factory).run factory (es.map call.process) =
        some s) := by
  refine ⟨fun s hs => ?_, fun hf => ?_⟩
  · have hc := run_system_time_to_live factory es _ s hs
    have hr := run_spawn_rate factory es _ s hs
    simp only [simple_particle_system.create] at hc hr
    rw [hstl] at hc
    have hiff : s.is_destroyed = true ↔ (es.length : Int) = k := by
      rw [is_destroyed_iff, hc]
      constructor
      · rintro (h | ⟨h, _⟩)
        · omega
        · omega
      · intro h
        left
        omega
    have hnot : (es.length : Int) ≠ k → s.is_destroyed = false := by
      intro hne
      cases hd : s.is_destroyed with
      | false => rfl
      | true => exact absurd (hiff.mp hd) hne
    exact ⟨hiff, hc, fun h => hnot (by omega), fun h => hnot (by omega)⟩
  · refine run_isSome factory hf _ _ (create_accounted factory (le_of_lt hrate)) ?_
    intro c hc
    obtain ⟨e, _, rfl⟩ := List.mem_map.mp hc
    trivial

/-- C21 at a system lifetime of three ticks, after three calls. -/
theorem destroyed_at_exactly_one_tick_witness :
    ((1 : Int) ≤ 3 ∧ mortal_factory.info_.system_time_to_live_ = 3 ∧
      0 < mortal_factory.info_.spawn_rate_ ∧ mortal_factory.frames_ ≠ []) ∧
    ((∀ s, (simple_particle_system.create mortal_factory).run mortal_factory
        ((List.replicate 3 still_environment).map call.process) = some s →
      (s.is_destroyed = true ↔ ((List.replicate 3 still_environment).length : Int) = 3) ∧
      s.info_.system_time_to_live_ = 3 - (List.replicate 3 still_environment).length ∧
      ((List.replicate 3 still_environment).length = 0 → s.is_destroyed = false) ∧
      (((List.replicate 3 still_environment).length : Int) = 3 + 1 →
        s.is_destroyed = false)) ∧
    (mortal_factory.frames_ ≠ [] →
      ∃ s, (simple_particle_system.create mortal_factory).run mortal_factory
        ((List.replicate 3 still_environment).map call.process) = some s)) :=
  ⟨⟨by decide, by decide, by decide, by decide⟩,
    destroyed_at_exactly_one_tick mortal_factory (List.replicate 3 still_environment) 3
      (by decide) (by decide) (by decide)⟩

/-! ## Lifetimes of 0 and below -/

/-- The integration loop, when it returns, leaves as many particles as it
found. -/
theorem integrate_length (info : simple_particle_system_info) :
    ∀ (gs : List generation) (ps ps' : List particle),
      integrate info gs ps = some ps' → ps'.length = ps.length
  | [], ps, ps', h => by
    simp only [integrate, Option.some.injEq] at h
    rw [← h]
  | g :: gs, ps, ps', h => by
    simp only [integrate] at h
    split at h
    · rename_i hcond
      cases hr : integrate info gs (ps.drop g.members.toNat) with
      | none => simp [hr] at h
      | some rest =>
        simp only [hr, Option.some.injEq] at h
        have ih := integrate_length info gs _ rest hr
        rw [← h]
        simp only [List.length_append, List.length_map, List.length_take, ih, List.length_drop]
        omega
    · simp at h

/-- With a lifetime of 0 or below, a `process` call on a state whose generations
were created at past ticks removes nothing: the expiry loop returns the queue
and the buffer as they are. -/
theorem process_without_expiry (factory : simple_particle_system_factory)
    (s s' : simple_particle_system) (e : environment)
    (httl : s.info_.time_to_live_ ≤ 0) (hpast : created_in_past s) (h0 : 0 ≤ s.cycle_)
    (hp : s.process factory e = some s') :
    expire (s.cycle_ + 1) s.info_.time_to_live_ s.generations_ s.particles_ =
      some (s.generations_, s.particles_) ∧
    (∃ n, s'.generations_ = s.generations_ ++ [{ members := n, created_at := s.cycle_ + 1 }]) ∧
    s'.generations_.length = s.generations_.length + 1 ∧
    s.particles_.length ≤ s'.particles_.length ∧
    created_in_past s' ∧ s'.info_.time_to_live_ ≤ 0 ∧ 0 ≤ s'.cycle_ := by
  have hstop : expire (s.cycle_ + 1) s.info_.time_to_live_ s.generations_ s.particles_ =
      some (s.generations_, s.particles_) := by
    apply expire_stop
    intro g hg
    have hmem : g ∈ s.generations_ := List.mem_of_mem_head? hg
    have := hpast g hmem
    omega
  obtain ⟨gens, ps, ps1, he, hi, hl, hg, hcy, _, hinfo⟩ := process_some factory s s' e hp
  rw [ticked_time_to_live, hstop] at he
  simp only [Option.some.injEq, Prod.mk.injEq] at he
  obtain ⟨rfl, rfl⟩ := he
  have hlen1 := integrate_length _ _ _ _ hi
  have hlen2 := spawn_loop_length factory (ticked_info s) e _ _ _ _ hl
  refine ⟨hstop, ⟨_, hg⟩, by rw [hg]; simp, by omega, ?_, by rw [hinfo]; exact httl, by omega⟩
  intro g hgm
  rw [hg] at hgm
  rw [hcy]
  rcases List.mem_append.mp hgm with hgm | hgm
  · have := hpast g hgm
    omega
  · simp only [List.mem_singleton] at hgm
    subst hgm
    simp only
    omega

/-- C22: with a per-particle lifetime of 0 or below, in every state reached
from a fresh emitter the queue holds one generation for every `process` call
made, each of age at least 1 when the next call tests it; that call's expiry
loop removes nothing, the queue grows by exactly the new generation and the
particle buffer does not shrink.  For non-negative spawn rates and at least
one animation the calls do reach a state. -/
theorem no_expiry_for_nonpositive_lifetime (factory : simple_particle_system_factory)
    (calls : List call) (httl : factory.info_.time_to_live_ ≤ 0)
    (hrate : 0 ≤ factory.info_.spawn_rate_) (hcalls : ∀ c ∈ calls, c.rate_nonneg) :
    (∀ s, (simple_particle_system.create factory).run factory calls = some s →
      s.generations_.length = process_count calls ∧
      (∀ g ∈ s.generations_, 1 ≤ (s.cycle_ + 1) - g.created_at ∧
        (s.cycle_ + 1) - g.created_at ≠ s.info_.time_to_live_) ∧
      ∀ e s', s.process factory e = some s' →
        expire (s.cycle_ + 1) s.info_.time_to_live_ s.generations_ s.particles_ =
          some (s.generations_, s.particles_) ∧
        (∃ n, s'.generations_ =
          s.generations_ ++ [{ members := n, created_at := s.cycle_ + 1 }]) ∧
        s'.generations_.length = s.generations_.length + 1 ∧
        s.particles_.length ≤ s'.particles_.length) ∧
    (factory.frames_ ≠ [] →
      ∃ s, (simple_particle_system.create factory).run factory calls = some s) := by
  refine ⟨fun s hs => ?_, fun hf => ?_⟩
  · have hinv := run_invariant factory
      (fun t => t.info_.time_to_live_ ≤ 0 ∧ created_in_past t ∧ 0 ≤ t.cycle_ ∧
        (t.generations_.length : Int) = t.cycle_)
      (fun t e t' ht hp => by
        obtain ⟨h1, h2, h3, h4⟩ := ht
        obtain ⟨_, _, hlen, _, h5, h6, h7⟩ := process_without_expiry factory t t' e h1 h2 h3 hp
        obtain ⟨_, _, _, _, _, _, _, hcy, _, _⟩ := process_some factory t t' e hp
        refine ⟨h6, h5, h7, ?_⟩
        rw [hlen, hcy]
        push_cast
        omega)
      (fun t key value ht _ => by
        show (t.set_value key value).info_.time_to_live_ ≤ 0 ∧
          created_in_past (t.set_value key value) ∧ 0 ≤ (t.set_value key value).cycle_ ∧
          ((t.set_value key value).generations_.length : Int) = (t.set_value key value).cycle_
        unfold created_in_past
        rw [set_value_time_to_live, set_value_cycle, set_value_generations]
        exact ht)
      calls _ s
      ⟨httl, by simp [created_in_past, simple_particle_system.create],
        by simp [simple_particle_system.create], by simp [simple_particle_system.create]⟩
      hcalls hs
    obtain ⟨h1, h2, h3, h4⟩ := hinv
    have hcy := run_cycle factory calls _ s hs
    simp only [simple_particle_system.create, zero_add] at hcy
    refine ⟨by omega, fun g hg => ?_, fun e s' hp => ?_⟩
    · have := h2 g hg
      omega
    · obtain ⟨a, b, c, d, _⟩ := process_without_expiry factory s s' e h1 h2 h3 hp
      exact ⟨a, b, c, d⟩
  · exact run_isSome factory hf calls _ (create_accounted factory hrate) hcalls

/-- C22 at a per-particle lifetime of 0, after three `process` calls. -/
theorem no_expiry_for_nonpositive_lifetime_witness :
    (immortal_factory.info_.time_to_live_ ≤ 0 ∧ 0 ≤ immortal_factory.info_.spawn_rate_ ∧
      (∀ c ∈ sample_calls, c.rate_nonneg) ∧ immortal_factory.frames_ ≠ []) ∧
    ((∀ s, (simple_particle_system.create immortal_factory).run immortal_factory sample_calls =
        some s →
      s.generations_.length = process_count sample_calls ∧
      (∀ g ∈ s.generations_, 1 ≤ (s.cycle_ + 1) - g.created_at ∧
        (s.cycle_ + 1) - g.created_at ≠ s.info_.time_to_live_) ∧
      ∀ e s', s.process immortal_factory e = some s' →
        expire (s.cycle_ + 1) s.info_.time_to_live_ s.generations_ s.particles_ =
          some (s.generations_, s.particles_) ∧
        (∃ n, s'.generations_ =
          s.generations_ ++ [{ members := n, created_at := s.cycle_ + 1 }]) ∧
        s'.generations_.length = s.generations_.length + 1 ∧
        s.particles_.length ≤ s'.particles_.length) ∧
    (immortal_factory.frames_ ≠ [] →
      ∃ s, (simple_particle_system.create immortal_factory).run immortal_factory sample_calls =
        some s)) :=
  ⟨⟨by decide, by decide, by simp [sample_calls, call.rate_nonneg], by decide⟩,
    no_expiry_for_nonpositive_lifetime immortal_factory sample_calls (by decide) (by decide)
      (by simp [sample_calls, call.rate_nonneg])⟩

/-! ## Generation timer of the point emitter -/

/-- The spawn loop takes 1000 off the accumulator for every particle it
appends and stops below 1000; a non-negative accumulator stays non-negative. -/
theorem point_spawn_loop_count (info : point_particle_info) (e : environment) :
    ∀ (fuel : Nat) (pg : Int) (i : Nat) (ps : List point_particle) (pg' : Int)
      (ps' : List point_particle),
      point_spawn_loop info e fuel pg i ps = some (pg', ps') →
      pg' < 1000 ∧ (0 ≤ pg → 0 ≤ pg') ∧
        ∃ fresh, ps' = ps ++ fresh ∧ (fresh.length : Int) * 1000 + pg' = pg
  | 0, pg, i, ps, pg', ps', h => by
    simp only [point_spawn_loop] at h
    split at h
    · simp at h
    · simp only [Option.some.injEq, Prod.mk.injEq] at h
      obtain ⟨rfl, rfl⟩ := h
      exact ⟨by omega, fun h0 => h0, [], by simp, by simp⟩
  | fuel + 1, pg, i, ps, pg', ps', h => by
    simp only [point_spawn_loop] at h
    split at h
    · cases hp : spawn_point_particle info e i with
      | none => simp [hp] at h
      | some r =>
        obtain ⟨p, j⟩ := r
        simp only [hp] at h
        obtain ⟨hlt, hnn, fresh, hps, hcount⟩ :=
          point_spawn_loop_count info e fuel (pg - 1000) j (ps ++ [p]) pg' ps' h
        refine ⟨hlt, fun _ => hnn (by omega), p :: fresh, by simp [hps], ?_⟩
        simp only [List.length_cons]
        push_cast
        omega
    · simp only [Option.some.injEq, Prod.mk.injEq] at h
      obtain ⟨rfl, rfl⟩ := h
      exact ⟨by omega, fun h0 => h0, [], by simp, by simp⟩

/-- Fuel beyond the accumulator does not change the outcome of the spawn loop:
the loop has ended before the fuel runs out. -/
theorem point_spawn_loop_fuel (info : point_particle_info) (e : environment) :
    ∀ (fuel fuel' : Nat) (pg : Int) (i : Nat) (ps : List point_particle),
      pg ≤ fuel → pg ≤ fuel' →
      point_spawn_loop info e fuel pg i ps = point_spawn_loop info e fuel' pg i ps
  | 0, 0, _, _, _, _, _ => rfl
  | 0, f + 1, pg, i, ps, h, _ => by
    simp only [point_spawn_loop]
    rw [if_neg (by simp at h; omega), if_neg (by simp at h; omega)]
  | f + 1, 0, pg, i, ps, _, h => by
    simp only [point_spawn_loop]
    rw [if_neg (by simp at h; omega), if_neg (by simp at h; omega)]
  | f + 1, f' + 1, pg, i, ps, h, h' => by
    simp only [point_spawn_loop]
    split
    · cases hp : spawn_point_particle info e i with
      | none => rfl
      | some r =>
        obtain ⟨p, j⟩ := r
        simp only []
        exact point_spawn_loop_fuel info e f f' (pg - 1000) j (ps ++ [p])
          (by push_cast at h; omega) (by push_cast at h'; omega)
    · rfl

/-- The stages of a `process` call of the point emitter that returned. -/
theorem point_process_some (info : point_particle_info) (s s' : point_particle_system)
    (e : environment) (hp : s.process info e = some s') :
    s'.generation_rate_millis_ = s.generation_rate_millis_ ∧
    s'.particle_generation_ < 1000 ∧
    (0 ≤ s.particle_generation_ + s.generation_rate_millis_ → 0 ≤ s'.particle_generation_) ∧
    ∃ fresh, s'.particles_ =
        (s.particles_.filter (fun p => !particle_destroyed p)).map (point_step info) ++ fresh ∧
      (fresh.length : Int) * 1000 + s'.particle_generation_ =
        s.particle_generation_ + s.generation_rate_millis_ ∧
      s.appended info e = some fresh.length := by
  have hp' := hp
  unfold point_particle_system.process at hp
  simp only [] at hp
  split at hp
  · rename_i pg' ps' hloop
    simp only [Option.some.injEq] at hp
    subst hp
    obtain ⟨hlt, hnn, fresh, hps, hcount⟩ := point_spawn_loop_count info e _ _ _ _ _ _ hloop
    refine ⟨rfl, hlt, hnn, fresh, hps, hcount, ?_⟩
    simp only [point_particle_system.appended, hp', hps, List.length_append, List.length_map]
    congr 1
    omega
  · simp at hp

/-- With the spawn assertion passing, every `process` call of the point emitter
returns. -/
theorem point_process_isSome (info : point_particle_info) (s : point_particle_system)
    (e : environment) (n : Nat) (hassert : gradient_index info info.time_to_live = some n) :
    ∃ s', s.process info e = some s' := by
  obtain ⟨⟨pg', ps'⟩, hloop⟩ := point_spawn_loop_isSome info e n hassert
    (s.particle_generation_ + s.generation_rate_millis_).toNat
    (s.particle_generation_ + s.generation_rate_millis_) 0
    ((s.particles_.filter (fun p => !particle_destroyed p)).map (point_step info))
    (Int.self_le_toNat _)
  simp only [point_particle_system.process, hloop, Option.some.injEq, exists_eq']

theorem point_run_isSome (info : point_particle_info) (n : Nat)
    (hassert : gradient_index info info.time_to_live = some n) :
    ∀ (es : List environment) (s : point_particle_system), ∃ s', s.run info es = some s'
  | [], s => ⟨s, rfl⟩
  | e :: es, s => by
    obtain ⟨s1, hp⟩ := point_process_isSome info s e n hassert
    obtain ⟨s', hr⟩ := point_run_isSome info n hassert es s1
    exact ⟨s', by simp only [point_particle_system.run, hp, hr]⟩

/-- With a constant rate `g ≥ 0`, the particles appended by a run of `process`
calls and the accumulator left at the end account for the accumulator at the
start and `g` for every call. -/
theorem point_constant_rate_run (info : point_particle_info) (g : Int) (hg : 0 ≤ g) :
    ∀ (es : List environment) (s s' : point_particle_system),
      s.generation_rate_millis_ = g → 0 ≤ s.particle_generation_ →
      s.particle_generation_ < 1000 → s.run info es = some s' →
      s'.generation_rate_millis_ = g ∧ 0 ≤ s'.particle_generation_ ∧
      s'.particle_generation_ < 1000 ∧
      ∃ T : Nat, s.total_appended info es = some T ∧
        (T : Int) * 1000 + s'.particle_generation_ = s.particle_generation_ + es.length * g
  | [], s, s', hrate, h0, h1, hrun => by
    simp only [point_particle_system.run, Option.some.injEq] at hrun
    subst hrun
    exact ⟨hrate, h0, h1, 0, rfl, by simp⟩
  | e :: es, s, s', hrate, h0, h1, hrun => by
    simp only [point_particle_system.run] at hrun
    cases hp : s.process info e with
    | none => simp [hp] at hrun
    | some s1 =>
      simp only [hp] at hrun
      obtain ⟨hr1, hlt, hnn, fresh, _, hcount, happ⟩ := point_process_some info s s1 e hp
      obtain ⟨a, b, c, T, hT, heq⟩ := point_constant_rate_run info g hg es s1 s'
        (by rw [hr1, hrate]) (hnn (by omega)) hlt hrun
      refine ⟨a, b, c, fresh.length + T, ?_, ?_⟩
      · simp only [point_particle_system.total_appended, happ, hp, hT]
      · simp only [List.length_cons]
        push_cast
        rw [hrate] at hcount
        linarith

/-- C23: for a constant generation rate `g ≥ 0`, the state after `N` `process`
calls of a fresh point emitter has its accumulator in `[0, 1000)`, equal to
`N*g mod 1000`, and the total number of particles appended by those calls is
`floor(N*g / 1000)`; a further call appends `floor((carry + g) / 1000)`
particles and again leaves the accumulator in `[0, 1000)`.  The spawn loop
ends before its fuel runs out, for every state and rate, and every call
returns when the spawn assertion on the base lifetime holds. -/
theorem generation_timer (info : point_particle_info) (es : List environment)
    (hg : 0 ≤ info.generation_rate_millis) :
    (∀ s, (point_particle_system.create info).run info es = some s →
      0 ≤ s.particle_generation_ ∧ s.particle_generation_ < 1000 ∧
      s.particle_generation_ = (es.length : Int) * info.generation_rate_millis % 1000 ∧
      (∃ T : Nat, (point_particle_system.create info).total_appended info es = some T ∧
        (T : Int) = (es.length : Int) * info.generation_rate_millis / 1000) ∧
      ∀ e s', s.process info e = some s' →
        0 ≤ s'.particle_generation_ ∧ s'.particle_generation_ < 1000 ∧
        ∃ k : Nat, s.appended info e = some k ∧
          (k : Int) = (s.particle_generation_ + info.generation_rate_millis) / 1000) ∧
    (∀ (pg : Int) (e : environment) (i fuel : Nat) (ps : List point_particle), pg ≤ fuel →
      point_spawn_loop info e fuel pg i ps = point_spawn_loop info e pg.toNat pg i ps) ∧
    ((∃ n, gradient_index info info.time_to_live = some n) →
      ∀ (s : point_particle_system) (l : List environment), ∃ s', s.run info l = some s') := by
  refine ⟨fun s hs => ?_, fun pg e i fuel ps h => ?_, fun ⟨n, hn⟩ s l => ?_⟩
  · obtain ⟨hrate, h0, h1, T, hT, heq⟩ :=
      point_constant_rate_run info info.generation_rate_millis hg es _ s rfl
        (by simp [point_particle_system.create]) (by simp [point_particle_system.create]) hs
    simp only [point_particle_system.create, zero_add] at heq
    refine ⟨h0, h1, ?_, ⟨T, hT, ?_⟩, fun e s' hp => ?_⟩
    · generalize (es.length : Int) * info.generation_rate_millis = X at heq
      omega
    · generalize (es.length : Int) * info.generation_rate_millis = X at heq
      omega
    · obtain ⟨_, hlt, hnn, fresh, _, hcount, happ⟩ := point_process_some info s s' e hp
      rw [hrate] at hcount hnn
      exact ⟨hnn (by omega), hlt, fresh.length, happ, by omega⟩
  · exact point_spawn_loop_fuel info e fuel pg.toNat pg i ps h (Int.self_le_toNat _)
  · exact point_run_isSome info n hn l s

/-- C23 at a rate of two and a half particles a tick, over three calls. -/
theorem generation_timer_witness :
    (0 ≤ (point_particle_info.create fast_node).generation_rate_millis ∧
      gradient_index (point_particle_info.create fast_node)
        (point_particle_info.create fast_node).time_to_live = some 1) ∧
    ∃ s, (point_particle_system.create (point_particle_info.create fast_node)).run
        (point_particle_info.create fast_node) (List.replicate 3 still_environment) = some s ∧
      0 ≤ s.particle_generation_ ∧ s.particle_generation_ < 1000 ∧
      s.particle_generation_ = ((List.replicate 3 still_environment).length : Int) *
        (point_particle_info.create fast_node).generation_rate_millis % 1000 ∧
      ∃ T : Nat, (point_particle_system.create (point_particle_info.create fast_node)).total_appended
          (point_particle_info.create fast_node) (List.replicate 3 still_environment) = some T ∧
        (T : Int) = ((List.replicate 3 still_environment).length : Int) *
          (point_particle_info.create fast_node).generation_rate_millis / 1000 :=
  have h := generation_timer (point_particle_info.create fast_node)
    (List.replicate 3 still_environment) (by decide)
  match h.2.2 ⟨1, by decide⟩ (point_particle_system.create (point_particle_info.create fast_node))
    (List.replicate 3 still_environment) with
  | ⟨s, hs⟩ =>
    ⟨⟨by decide, by decide⟩, s, hs, (h.1 s hs).1, (h.1 s hs).2.1, (h.1 s hs).2.2.1,
      (h.1 s hs).2.2.2.1⟩

/-! ## Lifetime range of the point emitter -/

/-- The value drawn on top of a base with a positive bound stays below base
plus bound; with a bound of 0 nothing is drawn. -/
theorem jitter_range (e : environment) (base bound : Int) (i : Nat) :
    (0 < bound → (jitter e base bound i).1 < base + bound) ∧
    (bound = 0 → (jitter e base bound i).1 = base) := by
  constructor
  · intro hpos
    unfold jitter
    rw [if_pos (by omega)]
    have := Int.tmod_lt_of_pos (e.rand i : Int) hpos
    simp only
    omega
  · intro hz
    unfold jitter
    rw [if_neg (by omega)]

/-- A property kept by every returning `process` call and every `set_value`
call of the point emitter holds after any sequence of calls. -/
theorem point_run_calls_invariant (info : point_particle_info)
    (P : point_particle_system → Prop)
    (hprocess : ∀ s e s', P s → s.process info e = some s' → P s')
    (hset : ∀ s key value, P s → P (s.set_value key value)) :
    ∀ (calls : List point_call) (s s' : point_particle_system), P s →
      s.run_calls info calls = some s' → P s'
  | [], s, s', h, hr => by
    simp only [point_particle_system.run_calls, Option.some.injEq] at hr
    subst hr; exact h
  | point_call.process e :: cs, s, s', h, hr => by
    simp only [point_particle_system.run_calls] at hr
    cases hp : s.process info e with
    | none => simp [hp] at hr
    | some s1 =>
      simp only [hp] at hr
      exact point_run_calls_invariant info P hprocess hset cs s1 s' (hprocess s e s1 h hp) hr
  | point_call.set_value key value :: cs, s, s', h, hr => by
    simp only [point_particle_system.run_calls] at hr
    exact point_run_calls_invariant info P hprocess hset cs _ s' (hset s key value h) hr

theorem point_run_calls_isSome (info : point_particle_info) (n : Nat)
    (hassert : gradient_index info info.time_to_live = some n) :
    ∀ (calls : List point_call) (s : point_particle_system),
      ∃ s', s.run_calls info calls = some s'
  | [], s => ⟨s, rfl⟩
  | point_call.process e :: cs, s => by
    obtain ⟨s1, hp⟩ := point_process_isSome info s e n hassert
    obtain ⟨s', hr⟩ := point_run_calls_isSome info n hassert cs s1
    exact ⟨s', by simp only [point_particle_system.run_calls, hp, hr]⟩
  | point_call.set_value key value :: cs, s => by
    obtain ⟨s', hr⟩ := point_run_calls_isSome info n hassert cs (s.set_value key value)
    exact ⟨s', by simp only [point_particle_system.run_calls, hr]⟩

theorem point_set_value_particles (s : point_particle_system) (key : String) (value : Int) :
    (s.set_value key value).particles_ = s.particles_ := by
  unfold point_particle_system.set_value
  split <;> rfl

/-- The lifetime a particle is spawned with, for `0 ≤ time_to_live ≤
time_to_live_max`. -/
theorem spawn_ttl_range (info : point_particle_info) (e : environment) (i j : Nat)
    (p : point_particle) (hmax : info.time_to_live ≤ info.time_to_live_max)
    (h : spawn_point_particle info e i = some (p, j)) :
    (info.time_to_live < info.time_to_live_max →
      info.time_to_live ≤ p.ttl ∧ p.ttl < info.time_to_live_max) ∧
    (¬ info.time_to_live < info.time_to_live_max → p.ttl = info.time_to_live) ∧
    info.time_to_live ≤ p.ttl ∧ p.ttl ≤ info.time_to_live_max := by
  have httl := spawn_point_particle_ttl info e i j p h
  have hge := jitter_ge e info.time_to_live (info.time_to_live_max - info.time_to_live) i
  obtain ⟨hlt, heq⟩ := jitter_range e info.time_to_live
    (info.time_to_live_max - info.time_to_live) i
  rw [← httl] at hge hlt heq
  refine ⟨fun hm => ⟨hge, ?_⟩, fun hm => heq (by omega), hge, ?_⟩
  · have := hlt (by omega)
    omega
  · by_cases hm : info.time_to_live < info.time_to_live_max
    · have := hlt (by omega)
      omega
    · have := heq (by omega)
      omega

/-- The particles the spawn loop appends were each made by one pass of its
body. -/
theorem point_spawn_loop_fresh (info : point_particle_info) (e : environment) :
    ∀ (fuel : Nat) (pg : Int) (i : Nat) (ps : List point_particle) (pg' : Int)
      (ps' : List point_particle),
      point_spawn_loop info e fuel pg i ps = some (pg', ps') →
      ∃ fresh, ps' = ps ++ fresh ∧
        ∀ p ∈ fresh, ∃ k j, spawn_point_particle info e k = some (p, j)
  | 0, pg, i, ps, pg', ps', h => by
    simp only [point_spawn_loop] at h
    split at h
    · simp at h
    · simp only [Option.some.injEq, Prod.mk.injEq] at h
      obtain ⟨rfl, rfl⟩ := h
      exact ⟨[], by simp, by simp⟩
  | fuel + 1, pg, i, ps, pg', ps', h => by
    simp only [point_spawn_loop] at h
    split at h
    · cases hp : spawn_point_particle info e i with
      | none => simp [hp] at h
      | some r =>
        obtain ⟨p, j⟩ := r
        simp only [hp] at h
        obtain ⟨fresh, hps, hfresh⟩ :=
          point_spawn_loop_fresh info e fuel (pg - 1000) j (ps ++ [p]) pg' ps' h
        refine ⟨p :: fresh, by simp [hps], ?_⟩
        intro q hq
        rcases List.mem_cons.mp hq with rfl | hq
        · exact ⟨i, j, hp⟩
        · exact hfresh q hq
    · simp only [Option.some.injEq, Prod.mk.injEq] at h
      obtain ⟨rfl, rfl⟩ := h
      exact ⟨[], by simp, by simp⟩

/-- One `process` call of the point emitter, for `0 ≤ time_to_live ≤
time_to_live_max`, on a buffer whose lifetimes are at most `time_to_live_max`:
the survivors in their order, decremented, then the new particles; every
lifetime after the call is in `0 .. time_to_live_max`. -/
theorem point_process_ttl_range (info : point_particle_info) (s s' : point_particle_system)
    (e : environment) (h0 : 0 ≤ info.time_to_live)
    (hmax : info.time_to_live ≤ info.time_to_live_max)
    (hinv : ∀ p ∈ s.particles_, p.ttl ≤ info.time_to_live_max)
    (hp : s.process info e = some s') :
    (∃ fresh, s'.particles_ =
        (s.particles_.filter (fun p => decide (0 < p.ttl))).map (point_step info) ++ fresh ∧
      ∀ p ∈ fresh, info.time_to_live ≤ p.ttl ∧ p.ttl ≤ info.time_to_live_max) ∧
    ∀ p ∈ s'.particles_, 0 ≤ p.ttl ∧ p.ttl ≤ info.time_to_live_max := by
  have hfilter : s.particles_.filter (fun p => !particle_destroyed p) =
      s.particles_.filter (fun p => decide (0 < p.ttl)) := by
    congr 1
    funext p
    simp only [particle_destroyed]
    by_cases h : 0 < p.ttl
    · have h2 : ¬ p.ttl ≤ 0 := by omega
      simp [h, h2]
    · have h2 : p.ttl ≤ 0 := by omega
      simp [h, h2]
  unfold point_particle_system.process at hp
  simp only [] at hp
  split at hp
  · rename_i pg' ps' hloop
    simp only [Option.some.injEq] at hp
    subst hp
    obtain ⟨fresh, hps, hfresh⟩ := point_spawn_loop_fresh info e _ _ _ _ _ _ hloop
    rw [hfilter] at hps
    have hrange : ∀ p ∈ fresh, info.time_to_live ≤ p.ttl ∧ p.ttl ≤ info.time_to_live_max := by
      intro p hpm
      obtain ⟨k, j, hk⟩ := hfresh p hpm
      obtain ⟨_, _, a, b⟩ := spawn_ttl_range info e k j p hmax hk
      exact ⟨a, b⟩
    refine ⟨⟨fresh, hps, hrange⟩, ?_⟩
    intro p hpm
    simp only [hps, List.mem_append, List.mem_map, List.mem_filter, decide_eq_true_eq] at hpm
    rcases hpm with ⟨q, ⟨hq, hpos⟩, rfl⟩ | hpm
    · have := hinv q hq
      simp only [point_step]
      omega
    · have := hrange p hpm
      omega
  · simp at hp

/-- C24: for a configuration with `time_to_live ≥ 0` and `time_to_live_rand ≥
0`, every particle is spawned with `ttl` in `[time_to_live, time_to_live_max)`
when `time_to_live_max > time_to_live` and with `ttl = time_to_live` otherwise;
in every state reached from a fresh emitter by `process` and `set_value` calls
every particle has `0 ≤ ttl ≤ time_to_live_max`; and a `process` call keeps the
surviving particles in their order, ahead of the new ones.  The calls return
whenever the spawn assertion on the base lifetime holds. -/
theorem ttl_range (node : point_node) (h0 : 0 ≤ node.time_to_live)
    (hrand : 0 ≤ node.time_to_live_rand) :
    (point_particle_info.create node).time_to_live_max =
      node.time_to_live + node.time_to_live_rand ∧
    (∀ (e : environment) (i j : Nat) (p : point_particle),
      spawn_point_particle (point_particle_info.create node) e i = some (p, j) →
      ((point_particle_info.create node).time_to_live <
          (point_particle_info.create node).time_to_live_max →
        (point_particle_info.create node).time_to_live ≤ p.ttl ∧
        p.ttl < (point_particle_info.create node).time_to_live_max) ∧
      (¬ (point_particle_info.create node).time_to_live <
          (point_particle_info.create node).time_to_live_max →
        p.ttl = (point_particle_info.create node).time_to_live)) ∧
    (∀ (calls : List point_call) (s : point_particle_system),
      (point_particle_system.create (point_particle_info.create node)).run_calls
        (point_particle_info.create node) calls = some s →
      (∀ p ∈ s.particles_, 0 ≤ p.ttl ∧
        p.ttl ≤ (point_particle_info.create node).time_to_live_max) ∧
      ∀ e s', s.process (point_particle_info.create node) e = some s' →
        ∃ fresh, s'.particles_ =
            (s.particles_.filter (fun p => decide (0 < p.ttl))).map
              (point_step (point_particle_info.create node)) ++ fresh ∧
          (s.particles_.filter (fun p => decide (0 < p.ttl))).Sublist s.particles_ ∧
          ∀ p ∈ fresh, (point_particle_info.create node).time_to_live ≤ p.ttl ∧
            p.ttl ≤ (point_particle_info.create node).time_to_live_max) ∧
    ((∃ n, gradient_index (point_particle_info.create node)
        (point_particle_info.create node).time_to_live = some n) →
      ∀ calls : List point_call,
        ∃ s, (point_particle_system.create (point_particle_info.create node)).run_calls
          (point_particle_info.create node) calls = some s) := by
  have hmaxeq := time_to_live_max_create node
  have httl : (point_particle_info.create node).time_to_live = node.time_to_live := rfl
  have hmax : (point_particle_info.create node).time_to_live ≤
      (point_particle_info.create node).time_to_live_max := by
    rw [hmaxeq, httl]; omega
  have h0' : 0 ≤ (point_particle_info.create node).time_to_live := by rw [httl]; exact h0
  refine ⟨by rw [hmaxeq]; omega, fun e i j p hsp => ?_, fun calls s hs => ?_,
    fun ⟨n, hn⟩ calls => ?_⟩
  · obtain ⟨a, b, _, _⟩ := spawn_ttl_range _ e i j p hmax hsp
    exact ⟨a, b⟩
  · have hinv := point_run_calls_invariant (point_particle_info.create node)
      (fun t => ∀ p ∈ t.particles_, 0 ≤ p.ttl ∧
        p.ttl ≤ (point_particle_info.create node).time_to_live_max)
      (fun t e t' ht hp =>
        (point_process_ttl_range _ t t' e h0' hmax (fun p hpm => (ht p hpm).2) hp).2)
      (fun t key value ht => by
        show ∀ p ∈ (t.set_value key value).particles_, _
        rw [point_set_value_particles]
        exact ht)
      calls _ s (by simp [point_particle_system.create]) hs
    refine ⟨hinv, fun e s' hp => ?_⟩
    obtain ⟨⟨fresh, hps, hfresh⟩, _⟩ :=
      point_process_ttl_range _ s s' e h0' hmax (fun p hpm => (hinv p hpm).2) hp
    exact ⟨fresh, hps, List.filter_sublist _, hfresh⟩
  · exact point_run_calls_isSome _ n hn calls _

/-- C24 at a base lifetime of 4 with up to 5 extra ticks. -/
theorem ttl_range_witness :
    (0 ≤ ranged_node.time_to_live ∧ 0 ≤ ranged_node.time_to_live_rand ∧
      gradient_index (point_particle_info.create ranged_node)
        (point_particle_info.create ranged_node).time_to_live = some 0) ∧
    (point_particle_info.create ranged_node).time_to_live_max =
      ranged_node.time_to_live + ranged_node.time_to_live_rand ∧
    ∃ s, (point_particle_system.create (point_particle_info.create ranged_node)).run_calls
        (point_particle_info.create ranged_node) sample_point_calls = some s ∧
      ∀ p ∈ s.particles_, 0 ≤ p.ttl ∧
        p.ttl ≤ (point_particle_info.create ranged_node).time_to_live_max :=
  have h := ttl_range ranged_node (by decide) (by decide)
  match h.2.2.2 ⟨0, by decide⟩ sample_point_calls with
  | ⟨s, hs⟩ => ⟨⟨by decide, by decide, by decide⟩, h.1, s, hs, (h.2.2.1 _ s hs).1⟩

end particle_system
